import Mathlib

/-!
BzTree: a shallow embedding of `bztree.cc`

The node operations of `src/bztree/bztree.cc` are written as pure functions over an explicit
node state.  The execution model is the single-threaded one: a PMwCAS commits exactly when
every target word still holds its expected value.

The declarations of `bztree.h` (status word, record metadata word, `GetRecord`,
`GetFreeSpace`, the traversal stack, `sizeof` of the node header, `kNodeSize`) are not part of
the sources at hand.  They are either parameters (`Layout`) or modelled from the
specification; each such definition says so in its doc comment.
-/

namespace bztree

/-! ## Outcomes -/

/-- Modelled from the spec: the outcome taxonomy of section 7 (`ReturnCode` is declared in the
absent header).  `Invalid` is the value of a default-constructed `ReturnCode rc;`: the retry
loop of section 4.13 goes round again after `continue`, so that value is neither `Ok` nor
`KeyExists`. -/
inductive ReturnCode where
  | Invalid
  | Ok
  | KeyExists
  | NotFound
  | NodeFrozen
  | PMWCASFailure
  deriving DecidableEq

/-- Result of running a routine of the source for a bounded number of loop rounds.
`ret a`: the call returned `a`.  `spin`: the round budget ran out while the routine was still
retrying.  `fatal`: a `LOG_IF(FATAL, ...)` check fired.  `undefined`: the source leaves the
behaviour undefined (a non-void function without `return`, a dangling node address). -/
inductive Run (α : Type) where
  | ret (a : α)
  | spin
  | fatal
  | undefined
  deriving DecidableEq

/-! ## Words and layout -/

/-- Source: `RecordMetadata::PadKeyLength`, as used in `LeafNode::Insert` ("the key size must be
padded to 64bit").  Modelled from the spec: key padded up to 8-byte alignment. -/
def PadKeyLength (key_length : Nat) : Nat :=
  (key_length + 7) / 8 * 8

/-- Modelled from the spec: the status word of section 3 (frozen flag, record count, block
size, delete size); the control bits are reserved for PMwCAS and not represented. -/
structure StatusWord where
  frozen : Bool
  record_count : Nat
  block_size : Nat
  delete_size : Nat
  deriving DecidableEq

namespace StatusWord

/-- Status word of a zero-filled node. -/
def zero : StatusWord := ⟨false, 0, 0, 0⟩

/-- Modelled from the spec: `IsFrozen`. -/
def IsFrozen (s : StatusWord) : Bool := s.frozen

/-- Modelled from the spec: `Unfrozen -> Frozen`. -/
def Freeze (s : StatusWord) : StatusWord := { s with frozen := true }

/-- Modelled from the spec: `(rc, bs, ds) -> (rc+1, bs+total_size, ds)`, the reservation of
space for a new insert. -/
def PrepareForInsert (s : StatusWord) (size : Nat) : StatusWord :=
  { s with record_count := s.record_count + 1, block_size := s.block_size + size }

/-- Modelled from the spec: setter of the delete-size field. -/
def SetDeleteSize (s : StatusWord) (size : Nat) : StatusWord := { s with delete_size := size }

/-- Modelled from the spec: setter of the block-size field. -/
def SetBlockSize (s : StatusWord) (size : Nat) : StatusWord := { s with block_size := size }

/-- Modelled from the spec: setter of the record-count field. -/
def SetRecordCount (s : StatusWord) (count : Nat) : StatusWord :=
  { s with record_count := count }

end StatusWord

/-- Modelled from the spec: the record metadata word of section 3.  `inserting` is the
high-order state bit of the offset field, set while the field holds the allocation epoch
instead of an offset; the control bits are not represented. -/
structure RecordMetadata where
  visible : Bool
  inserting : Bool
  epoch : Nat
  offset : Nat
  key_length : Nat
  total_length : Nat
  deriving DecidableEq

namespace RecordMetadata

/-- The all-zero metadata word (a vacant slot, also a default-constructed `RecordMetadata`). -/
def vacant : RecordMetadata := ⟨false, false, 0, 0, 0, 0⟩

/-- Modelled from the spec: a slot is vacant when its word is zero. -/
def IsVacant (m : RecordMetadata) : Bool := decide (m = vacant)

/-- Modelled from the spec: the visible bit. -/
def IsVisible (m : RecordMetadata) : Bool := m.visible

/-- Modelled from the spec: `Inserting(epoch)`, not visible and the offset field holds an
epoch. -/
def IsInserting (m : RecordMetadata) : Bool := !m.visible && m.inserting

/-- Modelled from the spec: `Vacant -> Inserting(epoch)`. -/
def PrepareForInsert (_m : RecordMetadata) (epoch : Nat) : RecordMetadata :=
  ⟨false, true, epoch, 0, 0, 0⟩

/-- Modelled from the spec: `Inserting -> Visible(offset, key_len, total_len)`; the whole word
is rewritten. -/
def FinalizeForInsert (_m : RecordMetadata) (offset key_len total_len : Nat) :
    RecordMetadata :=
  ⟨true, false, 0, offset, key_len, total_len⟩

/-- Modelled from the spec: setter of the visible bit. -/
def SetVisible (m : RecordMetadata) (v : Bool) : RecordMetadata := { m with visible := v }

/-- Modelled from the spec: setter of the offset field; the field is shared with the
inserting marker and the epoch, which a true offset replaces. -/
def SetOffset (m : RecordMetadata) (offset : Nat) : RecordMetadata :=
  { m with offset := offset, inserting := false, epoch := 0 }

/-- Source use: `meta.GetPaddedKeyLength()`. -/
def GetPaddedKeyLength (m : RecordMetadata) : Nat := PadKeyLength m.key_length

end RecordMetadata

/-- Modelled from the spec: the node header of section 3 (`size`, status word,
`sorted_count`). -/
structure NodeHeader where
  size : Nat
  status : StatusWord
  sorted_count : Nat
  deriving DecidableEq

/-- A node (`BaseNode`, and its subclasses `LeafNode` and `InternalNode`, which add no
fields).  `record_metadata i` is slot `i` of the trailing metadata array, `data a` the byte at
offset `a` from the start of the node.  The header and the metadata array are kept apart from
`data`: the embedding describes the node as long as record data, header and metadata array do
not overlap. -/
structure BaseNode where
  is_leaf : Bool
  header : NodeHeader
  record_metadata : Nat → RecordMetadata
  data : Nat → Nat

/-- A caller's key argument `const char *key`: the bytes found at `key[0]`, `key[1]`, ...
The size travels separately, as in the source. -/
abbrev KeyPtr := Nat → Nat

/-- Sizes fixed by the absent header: `kNodeSize` and `sizeof(LeafNode) = sizeof(InternalNode)`
(the node header in front of the metadata array).  `first_word` is the 8-byte word a node
starts with; only `BzTree::Insert` reads it, through `reinterpret_cast<uint64_t *>(root)`. -/
structure Layout where
  kNodeSize : Nat
  header_size : Nat
  first_word : BaseNode → Nat

/-! ## Memory primitives -/

/-- The C library's `memcmp(a, b, n)`: sign of the first differing byte, bytes compared as
unsigned values. -/
def memcmp (a b : Nat → Nat) : Nat → Int
  | 0 => 0
  | n + 1 =>
    if a 0 < b 0 then -1
    else if b 0 < a 0 then 1
    else memcmp (fun i => a (i + 1)) (fun i => b (i + 1)) n

/-- The C library's `strncmp(a, b, n)`: like `memcmp`, but the comparison also stops, with
result 0, at a NUL byte that both strings hold at the same position. -/
def strncmp (a b : Nat → Nat) : Nat → Int
  | 0 => 0
  | n + 1 =>
    if a 0 < b 0 then -1
    else if b 0 < a 0 then 1
    else if a 0 = 0 then 0
    else strncmp (fun i => a (i + 1)) (fun i => b (i + 1)) n

/-- The C library's `memcpy(dst + off, src, n)` on the byte image `dst`. -/
def memcpy (dst : Nat → Nat) (off : Nat) (src : Nat → Nat) (n : Nat) : Nat → Nat :=
  fun a => if off ≤ a ∧ a < off + n then src (a - off) else dst a

/-- The C library's `memset(dst + off, 0, n)` on the byte image `dst`. -/
def memset0 (dst : Nat → Nat) (off n : Nat) : Nat → Nat :=
  fun a => if off ≤ a ∧ a < off + n then 0 else dst a

/-- The eight bytes of a 64-bit word in memory (little endian), as `&payload` is read by
`memcpy`. -/
def word_bytes (w : Nat) : Nat → Nat :=
  fun i => w / 256 ^ i % 256

/-- The 64-bit word stored at offset `off` (little endian), as read through a `uint64_t *`. -/
def load_word (data : Nat → Nat) (off : Nat) : Nat :=
  data off % 256 + 256 * (data (off + 1) % 256 + 256 * (data (off + 2) % 256
    + 256 * (data (off + 3) % 256 + 256 * (data (off + 4) % 256 + 256 * (data (off + 5) % 256
    + 256 * (data (off + 6) % 256 + 256 * (data (off + 7) % 256)))))))

/-- An 8-byte store `*(uint64_t *)(dst + off) = w`. -/
def store_word (dst : Nat → Nat) (off w : Nat) : Nat → Nat :=
  memcpy dst off (word_bytes w) 8

namespace BaseNode

/-- Pointer `reinterpret_cast<char *>(this) + off` into the node, as a byte sequence. -/
def ptr (node : BaseNode) (off : Nat) : Nat → Nat :=
  fun i => node.data (off + i)

/-- Source use: `GetKey(meta)`, the address of the record's key bytes. -/
def GetKey (node : BaseNode) (m : RecordMetadata) : Nat → Nat :=
  node.ptr m.offset

/-- Modelled from the spec: `GetRecord(meta, &key, &payload)` fails on a record that is not
visible; otherwise the key starts at the record's offset and the payload is the 8-byte word
at `record_data + padded_key_length`.  Result: key offset and payload. -/
def GetRecord (node : BaseNode) (m : RecordMetadata) : Option (Nat × Nat) :=
  if m.IsVisible then some (m.offset, load_word node.data (m.offset + m.GetPaddedKeyLength))
  else none

end BaseNode

/-! ## BaseNode::SearchRecordMeta -/

namespace BaseNode

/-- First inner loop of the binary search (source lines 502-504):
`while (!record_metadata[middle].IsVisible() && first < middle) middle -= 1;`.
The first argument bounds the rounds; `middle - first` rounds are enough. -/
def walk_left (node : BaseNode) (first : Int) : Nat → Int → Int
  | 0, middle => middle
  | n + 1, middle =>
    if !(node.record_metadata middle.toNat).IsVisible ∧ first < middle then
      walk_left node first n (middle - 1)
    else middle

/-- Second inner loop of the binary search (source lines 508-510):
`while (!record_metadata[middle].IsVisible() && middle < last) middle += 1;`.
The first argument bounds the rounds; `last - middle` rounds are enough. -/
def walk_right (node : BaseNode) (last : Int) : Nat → Int → Int
  | 0, middle => middle
  | n + 1, middle =>
    if !(node.record_metadata middle.toNat).IsVisible ∧ middle < last then
      walk_right node last n (middle + 1)
    else middle

/-- The `while (header.sorted_count != 0 && first <= last)` loop of `SearchRecordMeta` (source
lines 497-530).  `some i`: the loop returned slot `i`; `none`: the loop ended (condition
false, or `break`) and the search goes on to the unsorted region.  The first argument bounds
the rounds: every round shrinks the window `[first, last]`, so `last + 1 - first` rounds are
enough.  The value computed by `walk_left` is overwritten before it is read, as in the
source. -/
def binary_search (node : BaseNode) (key : KeyPtr) (key_size : Nat) :
    Nat → Int → Int → Option Nat
  | 0, _, _ => none
  | n + 1, first, last =>
    if node.header.sorted_count ≠ 0 ∧ first ≤ last then
      let middle := (first + last) / 2
      let _middle := walk_left node first (middle - first).toNat middle
      let middle := (first + last) / 2
      let middle := walk_right node last (last - middle).toNat middle
      if !(node.record_metadata middle.toNat).IsVisible then none
      else
        let current := node.record_metadata middle.toNat
        let current_key := node.GetKey current
        let cmp_result := memcmp key current_key current.key_length
        if cmp_result < 0 then binary_search node key key_size n first (middle - 1)
        else if cmp_result = 0 ∧ key_size = current.key_length ∧ current.IsVisible then
          some middle.toNat
        else binary_search node key key_size n (middle + 1) last
    else none

/-- The `for` loop over the unsorted region (source lines 535-553), from slot `i`, for at most
the given number of slots. -/
def linear_search (node : BaseNode) (key : KeyPtr) (key_size : Nat) (check_concurrency : Bool) :
    Nat → Nat → Option Nat
  | 0, _ => none
  | n + 1, i =>
    let current := node.record_metadata i
    if current.IsInserting ∧ check_concurrency then some i
    else if current.IsInserting ∧ ¬ check_concurrency then
      linear_search node key key_size check_concurrency n (i + 1)
    else if current.IsVisible ∧ key_size = current.key_length ∧
        strncmp key (node.GetKey current) current.key_length = 0 then some i
    else linear_search node key key_size check_concurrency n (i + 1)

/-- Source: `BaseNode::SearchRecordMeta` (lines 487-556).  The result is the index of the
metadata slot the returned pointer refers to, `none` for `nullptr`. -/
def SearchRecordMeta (node : BaseNode) (key : KeyPtr) (key_size : Nat)
    (start_pos end_pos : Nat) (check_concurrency : Bool) : Option Nat :=
  let sorted :=
    if start_pos < node.header.sorted_count then
      let first : Int := start_pos
      let last : Int := (min end_pos (node.header.sorted_count - 1) : Nat)
      binary_search node key key_size (last + 1 - first).toNat first last
    else none
  match sorted with
  | some i => some i
  | none =>
    if end_pos > node.header.sorted_count then
      let linear_end := min node.header.status.record_count end_pos
      linear_search node key key_size check_concurrency
        (linear_end - node.header.sorted_count) node.header.sorted_count
    else none

/-- The value `(uint32_t) -1`. -/
def UINT32_MAX : Nat := 4294967295

/-- Modelled from the spec: the call `SearchRecordMeta(key, key_size)` with the default
arguments of the absent declaration: the whole node is searched, and an in-flight insertion
found in the unsorted region is returned to the caller (this is what makes the `ReCheck`
outcome of `CheckUnique` possible). -/
def SearchRecordMetaDefault (node : BaseNode) (key : KeyPtr) (key_size : Nat) : Option Nat :=
  node.SearchRecordMeta key key_size 0 UINT32_MAX true

/-- Source: `BaseNode::Freeze` (lines 605-616), a one-word PMwCAS on the status word. -/
def Freeze (node : BaseNode) : Bool × BaseNode :=
  let expected := node.header.status
  if expected.IsFrozen then (false, node)
  else
    let desired := expected.Freeze
    if node.header.status = expected then
      (true, { node with header := { node.header with status := desired } })
    else (false, node)

/-- A PMwCAS with two entries, the status word and the metadata word of `slot`, in a
single-threaded run: it commits when both words hold their expected values. -/
def MwCAS_status_meta (node : BaseNode) (expected_status desired_status : StatusWord)
    (slot : Nat) (expected_meta desired_meta : RecordMetadata) : Option BaseNode :=
  if node.header.status = expected_status ∧ node.record_metadata slot = expected_meta then
    some { node with
      header := { node.header with status := desired_status }
      record_metadata := Function.update node.record_metadata slot desired_meta }
  else none

/-- A PMwCAS with three entries (payload word at `addr`, metadata word of `slot`, status
word), as issued by `LeafNode::Update`. -/
def MwCAS_payload_meta_status (node : BaseNode) (addr expected_payload desired_payload : Nat)
    (slot : Nat) (expected_meta desired_meta : RecordMetadata)
    (expected_status desired_status : StatusWord) : Option BaseNode :=
  if load_word node.data addr = expected_payload ∧ node.record_metadata slot = expected_meta ∧
      node.header.status = expected_status then
    some { node with
      header := { node.header with status := desired_status }
      record_metadata := Function.update node.record_metadata slot desired_meta
      data := store_word node.data addr desired_payload }
  else none

end BaseNode

/-! ## LeafNode -/

namespace LeafNode

/-- Source: `enum Uniqueness` used by `CheckUnique` and `RecheckUnique`. -/
inductive Uniqueness where
  | IsUnique
  | Duplicate
  | ReCheck
  deriving DecidableEq

/-- Modelled from the spec: `LeafNode::New()` zero-fills `kNodeSize` bytes and runs the
constructor of the absent header, which marks the node as a leaf of size `kNodeSize`. -/
def New (L : Layout) : BaseNode :=
  { is_leaf := true
    header := { size := L.kNodeSize, status := StatusWord.zero, sorted_count := 0 }
    record_metadata := fun _ => RecordMetadata.vacant
    data := fun _ => 0 }

/-- Source: `LeafNode::CheckUnique` (lines 398-407). -/
def CheckUnique (node : BaseNode) (key : KeyPtr) (key_size : Nat) : Uniqueness :=
  match node.SearchRecordMetaDefault key key_size with
  | none => .IsUnique
  | some i => if !(node.record_metadata i).IsVisible then .ReCheck else .Duplicate

/-- Source: `LeafNode::RecheckUnique` (lines 409-419); one round per `goto retry`. -/
def RecheckUnique (node : BaseNode) (key : KeyPtr) (key_size end_pos : Nat) :
    Nat → Run Uniqueness
  | 0 => .spin
  | fuel + 1 =>
    match node.SearchRecordMeta key key_size node.header.sorted_count end_pos true with
    | none => .ret .IsUnique
    | some i =>
      if (node.record_metadata i).IsInserting then RecheckUnique node key key_size end_pos fuel
      else .ret .Duplicate

/-- Source: `LeafNode::Insert` (lines 317-396); one round per `goto retry`.  The result is the
return code together with the node as the call leaves it.  The copy of lines 365-366 goes to
`data`.  In the source the metadata array is part of the same bytes, and the copy lands on it
when header, metadata array with the new slot, data block and the new record do not fit into
`kNodeSize`: the definition describes the call on a leaf with room for the record, and up to
the reserving PMwCAS of lines 354-357 on a leaf with room for the new slot. -/
def Insert (L : Layout) (node : BaseNode) (epoch : Nat) (key : KeyPtr) (key_size payload : Nat) :
    Nat → Run (ReturnCode × BaseNode)
  | 0 => .spin
  | fuel + 1 =>
    let expected_status := node.header.status
    if expected_status.IsFrozen then .ret (.NodeFrozen, node)
    else
      let uniqueness := CheckUnique node key key_size
      if uniqueness = .Duplicate then .ret (.KeyExists, node)
      else
        let padded_key_size := PadKeyLength key_size
        let total_size := padded_key_size + 8
        let desired_status := expected_status.PrepareForInsert total_size
        let slot := expected_status.record_count
        let expected_meta := node.record_metadata slot
        if !expected_meta.IsVacant then Insert L node epoch key key_size payload fuel
        else
          let desired_meta := RecordMetadata.vacant.PrepareForInsert epoch
          match node.MwCAS_status_meta expected_status desired_status slot
              expected_meta desired_meta with
          | none => .ret (.PMWCASFailure, node)
          | some node1 =>
            let offset := L.kNodeSize - desired_status.block_size
            let data1 := memcpy node1.data offset key key_size
            let data2 := store_word data1 (offset + padded_key_size) payload
            let node2 : BaseNode := { node1 with data := data2 }
            let rechecked : Run (BaseNode × Nat) :=
              if uniqueness = .ReCheck then
                match RecheckUnique node2 key padded_key_size slot fuel with
                | .ret u =>
                  if u = .Duplicate then
                    let data3 := memset0 node2.data offset key_size
                    let data4 := memset0 data3 (offset + padded_key_size) 8
                    .ret ({ node2 with data := data4 }, 0)
                  else .ret (node2, offset)
                | .spin => .spin
                | .fatal => .fatal
                | .undefined => .undefined
              else .ret (node2, offset)
            match rechecked with
            | .ret (node3, offset) =>
              let s := node3.header.status
              if s.IsFrozen then .ret (.NodeFrozen, node3)
              else
                let expected_meta := desired_meta
                let desired_meta := desired_meta.FinalizeForInsert offset key_size total_size
                match node3.MwCAS_status_meta s s slot expected_meta desired_meta with
                | some node4 => .ret (.Ok, node4)
                | none => .ret (.PMWCASFailure, node3)
            | .spin => .spin
            | .fatal => .fatal
            | .undefined => .undefined

/-- Source: `LeafNode::Update` (lines 446-485); one round per `goto retry`. -/
def Update (node : BaseNode) (epoch : Nat) (key : KeyPtr) (key_size payload : Nat) :
    Nat → Run (ReturnCode × BaseNode)
  | 0 => .spin
  | fuel + 1 =>
    let old_status := node.header.status
    if old_status.IsFrozen then .ret (.NodeFrozen, node)
    else
      match node.SearchRecordMetaDefault key key_size with
      | none => .ret (.NotFound, node)
      | some slot =>
        let m := node.record_metadata slot
        if !m.IsVisible then .ret (.NotFound, node)
        else if m.IsInserting then Update node epoch key key_size payload fuel
        else
          let old_meta_value := m
          match node.GetRecord m with
          | none => .undefined
          | some (record_key, record_payload) =>
            if payload = record_payload then .ret (.Ok, node)
            else
              match node.MwCAS_payload_meta_status (record_key + m.GetPaddedKeyLength)
                  record_payload payload slot old_meta_value (node.record_metadata slot)
                  old_status old_status with
              | none => Update node epoch key key_size payload fuel
              | some node1 => .ret (.Ok, node1)

/-- The part of `LeafNode::Delete` from the label `retry` on (source lines 566-590). -/
def Delete_retry (node : BaseNode) (old_status : StatusWord) (key : KeyPtr) (key_size : Nat) :
    Nat → Run (ReturnCode × BaseNode)
  | 0 => .spin
  | fuel + 1 =>
    match node.SearchRecordMetaDefault key key_size with
    | none => .ret (.NotFound, node)
    | some slot =>
      let record_meta := node.record_metadata slot
      if record_meta.IsInserting then Delete_retry node old_status key key_size fuel
      else
        let old_meta := record_meta
        let new_meta := (record_meta.SetVisible false).SetOffset 0
        let old_delete_size := old_status.delete_size
        let new_status := old_status.SetDeleteSize (old_delete_size + record_meta.total_length)
        match node.MwCAS_status_meta old_status new_status slot old_meta new_meta with
        | none => Delete_retry node old_status key key_size fuel
        | some node1 => .ret (.Ok, node1)

/-- Source: `LeafNode::Delete` (lines 558-591). -/
def Delete (node : BaseNode) (key : KeyPtr) (key_size : Nat) (fuel : Nat) :
    Run (ReturnCode × BaseNode) :=
  let old_status := node.header.status
  if old_status.IsFrozen then .ret (.NodeFrozen, node)
  else Delete_retry node old_status key key_size fuel

/-- Source: `LeafNode::Read` (lines 592-603).  The payload is `some p` when the call wrote
`*payload = p`. -/
def Read (node : BaseNode) (key : KeyPtr) (key_size : Nat) : ReturnCode × Option Nat :=
  match node.SearchRecordMeta key key_size 0 BaseNode.UINT32_MAX false with
  | none => (.NotFound, none)
  | some slot =>
    match node.GetRecord (node.record_metadata slot) with
    | some (_, payload) => (.Ok, some payload)
    | none => (.NotFound, none)

/-- Source: `LeafNode::Upsert` (lines 421-444); one round per `goto retry`.  The calls to
`Insert` and `Update` get the same round budget as the call itself. -/
def Upsert (L : Layout) (node : BaseNode) (epoch : Nat) (key : KeyPtr) (key_size payload : Nat) :
    Nat → Run (ReturnCode × BaseNode)
  | 0 => .spin
  | fuel + 1 =>
    let old_status := node.header.status
    if old_status.IsFrozen then .ret (.NodeFrozen, node)
    else
      match node.SearchRecordMetaDefault key key_size with
      | none =>
        match Insert L node epoch key key_size payload (fuel + 1) with
        | .ret (insert_result, node1) =>
          if insert_result = .PMWCASFailure then
            Update node1 epoch key key_size payload (fuel + 1)
          else .ret (.Ok, node1)
        | .spin => .spin
        | .fatal => .fatal
        | .undefined => .undefined
      | some slot =>
        if (node.record_metadata slot).IsInserting then
          Upsert L node epoch key key_size payload fuel
        else Update node epoch key key_size payload (fuel + 1)

end LeafNode

/-! ## Consolidation -/

/-- The library's `std::sort(begin, end, less)`, as the insertion sort under `less`.  C++
leaves the relative order of equivalent elements open; this is one admissible outcome. -/
def std_sort {α : Type} (less : α → α → Bool) (vec : List α) : List α :=
  vec.insertionSort (fun a b => less b a = false)

namespace LeafNode

/-- The lambda `key_cmp` of `SortMetadataByKey` (source lines 649-659). -/
def key_cmp (node : BaseNode) (m1 m2 : RecordMetadata) : Bool :=
  let l1 := m1.key_length
  let l2 := m2.key_length
  let k1 := node.GetKey m1
  let k2 := node.GetKey m2
  let cmp := memcmp k1 k2 (min l1 l2)
  if cmp = 0 then decide (l1 < l2) else decide (cmp < 0)

/-- Source: `LeafNode::SortMetadataByKey` (lines 637-663) on an empty vector: the sorted
vector and the returned `total_size`. -/
def SortMetadataByKey (node : BaseNode) : List RecordMetadata × Nat :=
  let vec := ((List.range node.header.status.record_count).map node.record_metadata).filter
    RecordMetadata.IsVisible
  let total_size := (vec.map RecordMetadata.total_length).sum
  (std_sort (key_cmp node) vec, total_size)

/-- The `for` loop of `CopyFrom` (source lines 671-688): state is the node being filled,
`offset` and `nrecords`.  The key pointer of a record is the address its offset names in the
source node (every caller passes visible records). -/
def CopyFrom_loop (src : BaseNode) :
    List RecordMetadata → BaseNode → Nat → Nat → BaseNode × Nat × Nat
  | [], this, offset, nrecords => (this, offset, nrecords)
  | m :: rest, this, offset, nrecords =>
    let key := src.GetKey m
    let total_len := m.total_length
    let offset := offset - total_len
    let data := memcpy this.data offset key total_len
    let new_meta := m.FinalizeForInsert offset m.key_length total_len
    CopyFrom_loop src rest
      { this with data := data
                  record_metadata := Function.update this.record_metadata nrecords new_meta }
      offset (nrecords + 1)

/-- Source: `LeafNode::CopyFrom` (lines 665-693): fills `this` from the records of `node`
listed in `metas`. -/
def CopyFrom (L : Layout) (this node : BaseNode) (metas : List RecordMetadata) : BaseNode :=
  match CopyFrom_loop node metas this L.kNodeSize 0 with
  | (this1, offset, nrecords) =>
    { this1 with
      header :=
        { this1.header with
          status := (this1.header.status.SetBlockSize (L.kNodeSize - offset)).SetRecordCount
            nrecords
          sorted_count := nrecords } }

/-- Source: `LeafNode::Consolidate` (lines 618-635).  Result: the new leaf (`none` for
`nullptr`) and the node itself as the call leaves it. -/
def Consolidate (L : Layout) (node : BaseNode) : Option BaseNode × BaseNode :=
  match node.Freeze with
  | (false, node1) => (none, node1)
  | (true, node1) =>
    let meta_vec := (SortMetadataByKey node1).1
    let new_leaf := CopyFrom L (New L) node1 meta_vec
    (some new_leaf, node1)

end LeafNode

/-! ## InternalNode -/

namespace InternalNode

/-- Modelled from the spec: the constructor `BaseNode(false, node_size)` of the absent header,
run on zero-filled memory. -/
def init (node_size : Nat) : BaseNode :=
  { is_leaf := false
    header := { size := node_size, status := StatusWord.zero, sorted_count := 0 }
    record_metadata := fun _ => RecordMetadata.vacant
    data := fun _ => 0 }

/-- Source: `InternalNode::New(key, key_size, left, right)` (lines 33-46) with the constructor
it runs (lines 86-111): the node with a single separator key.  `alloc_size` is a `uint32_t`;
`New` takes the key size as `uint32_t` and the constructor as `uint16_t`.  The `assert` of
line 110 is not part of the value: it compares the offset of record 1 with
`sizeof(*this) + 2 * sizeof(RecordMetadata)`. -/
def New (L : Layout) (key : KeyPtr) (key_size left_child_addr right_child_addr : Nat) :
    BaseNode :=
  let alloc_size := (L.header_size + PadKeyLength key_size + 8 + 8 + 8 * 2) % 2 ^ 32
  let node_size := alloc_size
  let key_size := key_size % 2 ^ 16
  let this := init node_size
  let offset := node_size - 8
  let meta0 := RecordMetadata.vacant.FinalizeForInsert offset 0 8
  let data := store_word this.data offset left_child_addr
  let padded_key_size := PadKeyLength key_size
  let total_len := padded_key_size + 8
  let offset := offset - total_len
  let meta1 := RecordMetadata.vacant.FinalizeForInsert offset key_size total_len
  let data := memcpy data offset key key_size
  let data := store_word data (offset + padded_key_size) right_child_addr
  { this with
    header := { this.header with sorted_count := 2 }
    record_metadata :=
      Function.update (Function.update this.record_metadata 0 meta0) 1 meta1
    data := data }

/-- The `for` loop of the insert-key copy constructor (source lines 125-173), from record `i`
of `src_node` for the given number of records.  State: the node being built, `offset` and
`inserted_new`.  With `i = 0` the index `i - 1` of line 151 is outside the array: `undefined`. -/
def copy_loop (src_node : BaseNode) (key : KeyPtr) (key_size left_child_addr
    right_child_addr : Nat) : Nat → Nat → BaseNode → Nat → Bool → Run BaseNode
  | 0, _, this, _, _ => .ret this
  | n + 1, i, this, offset, inserted_new =>
    let padded_key_size := PadKeyLength key_size
    let m := src_node.record_metadata i
    let m_key := src_node.GetKey m
    let m_key_size := m.key_length
    if inserted_new then
      let offset := offset - m.total_length
      let m1 := m.FinalizeForInsert offset m.key_length m.total_length
      let this1 : BaseNode :=
        { this with
          record_metadata := Function.update this.record_metadata (i + 1) m1
          data := memcpy this.data offset m_key m1.total_length }
      copy_loop src_node key key_size left_child_addr right_child_addr n (i + 1) this1 offset
        true
    else
      let cmp := memcmp m_key key (min m_key_size key_size)
      if cmp = 0 ∧ key_size = m_key_size then .fatal
      else if cmp > 0 then
        let offset := offset - (padded_key_size + 8)
        let new_meta := RecordMetadata.vacant.FinalizeForInsert offset key_size 8
        let metas := Function.update this.record_metadata i new_meta
        if i = 0 then .undefined
        else
          let prev_meta := metas (i - 1)
          let data := store_word this.data (prev_meta.offset + prev_meta.GetPaddedKeyLength)
            left_child_addr
          let data := memcpy data offset key new_meta.total_length
          let data := store_word data (offset + padded_key_size) right_child_addr
          let offset := offset - m.total_length
          let m1 := m.FinalizeForInsert offset m.key_length m.total_length
          let metas := Function.update metas (i + 1) m1
          let data := memcpy data offset m_key m1.total_length
          copy_loop src_node key key_size left_child_addr right_child_addr n (i + 1)
            { this with record_metadata := metas, data := data } offset true
      else
        let metas := Function.update this.record_metadata i m
        let offset := offset - m.total_length
        let data := memcpy this.data offset m_key m.total_length
        copy_loop src_node key key_size left_child_addr right_child_addr n (i + 1)
          { this with record_metadata := metas, data := data } offset false

/-- Source: `InternalNode::New(src_node, key, key_size, left, right)` (lines 17-30) with the
constructor it runs (lines 113-174): the insert-key copy of `src_node`.  `alloc_size` is a
`uint32_t`; `New` takes the key size as `uint32_t` and the constructor as `uint16_t`. -/
def New_from (src_node : BaseNode) (key : KeyPtr) (key_size left_child_addr
    right_child_addr : Nat) : Run BaseNode :=
  let alloc_size := (src_node.header.size + PadKeyLength key_size + 8 + 8) % 2 ^ 32
  let node_size := alloc_size
  copy_loop src_node key (key_size % 2 ^ 16) left_child_addr right_child_addr
    src_node.header.sorted_count 0 (init node_size) node_size false

/-- Source: `InternalNode::New(src_node, begin_meta_idx, nr_records, key, ...)` (lines 50-73),
the range copy.  `key = none` stands for a null key pointer.  The function ends without a
`return` statement, so its value is not defined. -/
def New_range (_src_node : BaseNode) (_begin_meta_idx _nr_records : Nat) (key : Option KeyPtr)
    (key_size _left_child_addr _right_child_addr : Nat) : Run BaseNode :=
  if key.isSome ∧ key_size = 0 then .fatal else .undefined

/-- The `while (left <= right)` loop of `GetChild` (source lines 721-741); the result is the
final value of `left`.  Every round shrinks `[left, right]`, so `right + 1 - left` rounds are
enough. -/
def GetChild_loop (node : BaseNode) (key : KeyPtr) (key_size : Nat) : Nat → Int → Int → Int
  | 0, left, _ => left
  | n + 1, left, right =>
    if left ≤ right then
      let mid := (left + right) / 2
      let m := node.record_metadata mid.toNat
      let meta_key_size := m.key_length
      let meta_key := node.GetKey m
      let cmp := memcmp key meta_key (min meta_key_size key_size)
      if cmp = 0 ∧ meta_key_size = key_size then mid
      else if cmp > 0 then GetChild_loop node key key_size n left (mid - 1)
      else GetChild_loop node key key_size n (mid + 1) right
    else left

/-- Source: `InternalNode::GetChild` (lines 718-752): the child address (0 for `nullptr`) and
the metadata written to `out_meta`. -/
def GetChild (node : BaseNode) (key : KeyPtr) (key_size : Nat) : Run (Nat × RecordMetadata) :=
  let right : Int := (node.header.status.record_count : Int) - 1
  let left := GetChild_loop node key key_size (right + 1).toNat 0 right
  if left < 0 then .fatal
  else
    let m := node.record_metadata left.toNat
    let meta_payload :=
      match node.GetRecord m with
      | some (_, payload) => payload
      | none => 0
    .ret (meta_payload, m)

/-- Source: `InternalNode::Update` (lines 695-716), the two-word PMwCAS that swaps a child
pointer.  Modelled from the spec: `GetPayloadPtr(meta)` is the payload word of the record,
at `offset + padded_key_length`. -/
def Update (node : BaseNode) (m : RecordMetadata) (old_child new_child : Nat) :
    ReturnCode × BaseNode :=
  let status := node.header.status
  if status.IsFrozen then (.NodeFrozen, node)
  else
    let addr := m.offset + m.GetPaddedKeyLength
    if node.header.status = status ∧ load_word node.data addr = old_child then
      (.Ok, { node with data := store_word node.data addr new_child })
    else (.PMWCASFailure, node)

end InternalNode

/-! ## The tree -/

/-- Modelled from the spec: a frame of the traversal stack, (parent node, slot metadata). -/
structure Frame where
  node : Nat
  meta_word : RecordMetadata
  deriving DecidableEq

/-- Modelled from the spec: the traversal stack of the absent header, top of the stack first.
`Top()` and `Pop()` give a null frame on an empty stack (the source tests their result). -/
abbrev Stack := List Frame

/-- Modelled from the spec: the tree of section 3, a root pointer and the parameter set,
together with the memory the nodes live in.  `heap a` is the node allocated at address `a`;
`next` is the address the allocator hands out next (allocation is a collaborator of the
core: every call returns a fresh address). -/
structure BzTree where
  root : Nat
  heap : Nat → Option BaseNode
  next : Nat
  split_threshold : Nat
  merge_threshold : Nat
  epoch : Nat

namespace BzTree

/-- Allocation: `malloc` followed by the construction of `node` in the new block. -/
def alloc (t : BzTree) (node : BaseNode) : Nat × BzTree :=
  (t.next, { t with heap := Function.update t.heap t.next (some node), next := t.next + 1 })

/-- A store to the node at address `a`. -/
def set_node (t : BzTree) (a : Nat) (node : BaseNode) : BzTree :=
  { t with heap := Function.update t.heap a (some node) }

/-- Modelled from the spec: the tree constructor of the absent header, a single empty leaf
as root. -/
def init (L : Layout) (split_threshold merge_threshold : Nat) : BzTree :=
  { root := 1
    heap := Function.update (fun _ => none) 1 (some (LeafNode.New L))
    next := 2
    split_threshold := split_threshold
    merge_threshold := merge_threshold
    epoch := 0 }

end BzTree

/-- Modelled from the spec: `Stack::Top()`, the node of the top frame, `none` on an empty
stack. -/
def Stack.Top (stack : Stack) : Option Frame := stack.head?

/-- Modelled from the spec: `Stack::Pop()`, the top frame (`none` on an empty stack) and the
stack without it. -/
def Stack.Pop (stack : Stack) : Option Frame × Stack := (stack.head?, stack.tail)

/-- Source: `InternalNode::PrepareForSplit` (lines 176-227) on the node at address `this`.
Result: the address of the node to install (0 for `nullptr`), the tree memory and the stack
as the call leaves them.  The first argument bounds the depth of the recursion into the
parents (one level per stack frame).  `data_size` and `new_node_size` are `uint32_t`. -/
def InternalNode.PrepareForSplit (L : Layout) (split_threshold : Nat) :
    Nat → BzTree → Nat → Stack → KeyPtr → Nat → Nat → Nat → Run (Nat × BzTree × Stack)
  | 0, _, _, _, _, _, _, _ => .spin
  | depth + 1, t, this, stack, key, key_size, left_child_addr, right_child_addr =>
    match t.heap this with
    | none => .undefined
    | some node =>
      let data_size := (node.header.size + key_size + 8 + 8) % 2 ^ 32
      let new_node_size := (L.header_size + data_size) % 2 ^ 32
      if new_node_size > split_threshold then
        let status := node.header.status
        if status.IsFrozen then .ret (0, t, stack)
        else if node.header.sorted_count < 2 then .fatal
        else
          let n_left := node.header.sorted_count / 2
          let m := node.record_metadata (n_left - 1)
          let last_key_left := node.GetKey m
          let cmp := memcmp key last_key_left (min key_size m.key_length)
          let halves : Run BaseNode × Run BaseNode :=
            if cmp < 0 ∨ (cmp = 0 ∧ key_size < m.key_length) then
              (InternalNode.New_range node 0 n_left (some key) key_size left_child_addr
                  right_child_addr,
                InternalNode.New_range node 0 (node.header.sorted_count - n_left) none 0 0 0)
            else
              (InternalNode.New_range node 0 n_left none 0 0 0,
                InternalNode.New_range node 0 (node.header.sorted_count - n_left) (some key)
                  key_size left_child_addr right_child_addr)
          match halves with
          | (.ret left_node, .ret right_node) =>
            let (left, t1) := t.alloc left_node
            let (right, t2) := t1.alloc right_node
            let m := node.record_metadata n_left
            match stack.Pop with
            | (some frame, stack1) =>
              InternalNode.PrepareForSplit L split_threshold depth t2 frame.node stack1
                (node.GetKey m) m.key_length left right
            | (none, stack1) =>
              let (parent, t3) := t2.alloc (InternalNode.New L (node.GetKey m) m.key_length
                left right)
              .ret (parent, t3, stack1)
          | (.fatal, _) => .fatal
          | (.ret _, .fatal) => .fatal
          | (.spin, _) => .spin
          | (.ret _, .spin) => .spin
          | (.undefined, _) => .undefined
          | (.ret _, .undefined) => .undefined
      else
        match InternalNode.New_from node key key_size left_child_addr right_child_addr with
        | .ret new_node =>
          let (parent, t1) := t.alloc new_node
          .ret (parent, t1, stack)
        | .spin => .spin
        | .fatal => .fatal
        | .undefined => .undefined

/-- The `for` loop of `LeafNode::PrepareForSplit` that fixes `nleft` (source lines 775-782):
state is `left_size` and `nleft`. -/
def LeafNode.nleft_loop : List RecordMetadata → Int → Nat → Nat
  | [], _, nleft => nleft
  | m :: rest, left_size, nleft =>
    let nleft := nleft + 1
    let left_size := left_size - (m.total_length : Int)
    if left_size ≤ 0 then nleft else LeafNode.nleft_loop rest left_size nleft

/-- Result of `LeafNode::PrepareForSplit`: the returned parent address (0 for `nullptr`), the
tree memory and the stack after the call, and the addresses written to `*left` and `*right`
(0 while unset). -/
structure SplitResult where
  parent : Nat
  tree : BzTree
  stack : Stack
  left : Nat
  right : Nat

/-- Source: `LeafNode::PrepareForSplit` (lines 754-806) on the leaf at address `this`.  The
fatal check `nleft - 1 == 0` is one of unsigned integers: it fires for `nleft = 1`; with an
empty `meta_vec` (`nleft = 0`) the index `nleft - 1` lies outside the vector. -/
def LeafNode.PrepareForSplit (L : Layout) (t : BzTree) (this : Nat) (stack : Stack)
    (split_threshold : Nat) : Run SplitResult :=
  match t.heap this with
  | none => .undefined
  | some node =>
    if node.header.status.record_count ≤ 2 then .fatal
    else
      match node.Freeze with
      | (false, _) => .ret ⟨0, t, stack, 0, 0⟩
      | (true, node1) =>
        let t1 := t.set_node this node1
        let (left, t2) := t1.alloc (LeafNode.New L)
        let (right, t3) := t2.alloc (LeafNode.New L)
        let (meta_vec, total_size) := LeafNode.SortMetadataByKey node1
        let left_size : Int := ((total_size / 2 : Nat) : Int)
        let nleft := LeafNode.nleft_loop meta_vec left_size 0
        let left_node := LeafNode.CopyFrom L (LeafNode.New L) node1 (meta_vec.take nleft)
        let right_node := LeafNode.CopyFrom L (LeafNode.New L) node1 (meta_vec.drop nleft)
        let t4 := (t3.set_node left left_node).set_node right right_node
        if nleft = 1 then .fatal
        else
          match meta_vec.get? (nleft - 1) with
          | none => .undefined
          | some separator_meta =>
            if nleft = 0 then .undefined
            else
              let key := node1.GetKey separator_meta
              match stack.Top with
              | some frame =>
                match InternalNode.PrepareForSplit L split_threshold (stack.length + 1) t4
                    frame.node stack.Pop.2 key separator_meta.key_length left right with
                | .ret (parent, t5, stack1) => .ret ⟨parent, t5, stack1, left, right⟩
                | .spin => .spin
                | .fatal => .fatal
                | .undefined => .undefined
              | none =>
                let (parent, t5) := t4.alloc
                  (InternalNode.New L key separator_meta.key_length left right)
                .ret ⟨parent, t5, stack, left, right⟩

namespace BzTree

/-- Source: `BzTree::TraverseToLeaf` (lines 808-819) started at address `node` with the given
stack; one round per level.  Result: the address of the leaf and the stack. -/
def TraverseToLeaf_loop (t : BzTree) (key : KeyPtr) (key_size : Nat) :
    Nat → Nat → Stack → Run (Nat × Stack)
  | 0, _, _ => .spin
  | fuel + 1, node, stack =>
    match t.heap node with
    | none => .undefined
    | some n =>
      if n.is_leaf then .ret (node, stack)
      else
        match InternalNode.GetChild n key key_size with
        | .ret (child, m) => TraverseToLeaf_loop t key key_size fuel child (⟨node, m⟩ :: stack)
        | .spin => .spin
        | .fatal => .fatal
        | .undefined => .undefined

/-- Source: `BzTree::TraverseToLeaf` (lines 808-819), on a cleared stack. -/
def TraverseToLeaf (t : BzTree) (key : KeyPtr) (key_size : Nat) (fuel : Nat) :
    Run (Nat × Stack) :=
  TraverseToLeaf_loop t key key_size fuel t.root []

/-- Modelled from the spec: `LeafNode::GetFreeSpace()`, the bytes of the node not taken by the
header, the claimed metadata slots and the data block (invariant 1 of section 8). -/
def GetFreeSpace (L : Layout) (node : BaseNode) : Int :=
  (L.kNodeSize : Int) - L.header_size - 8 * node.header.status.record_count
    - node.header.status.block_size

/-- The value of `new_free_space` in `BzTree::Insert` (source lines 831-832).  The operand
`sizeof(payload)` makes the subtraction one of unsigned 64-bit integers. -/
def new_free_space (L : Layout) (node : BaseNode) (key_size : Nat) : Int :=
  (GetFreeSpace L node - PadKeyLength key_size - 8) % 2 ^ 64

/-- The `do ... while` loop of `BzTree::Insert` (source lines 825-870); `rc` is the value the
variable holds when the round starts.  One round of budget per iteration; the calls made in a
round get the budget of the round.  The PMwCAS of lines 858-865 has the single target
`reinterpret_cast<uint64_t *>(root)`, the first word of the root node: it fails when that
word differs from `old_parent`; when it commits, it overwrites the header of the root node
with an address, and the node is no longer one the embedding describes (`undefined`).  The
root pointer itself is not a target. -/
def Insert_loop (L : Layout) (key : KeyPtr) (key_size payload : Nat) :
    Nat → BzTree → ReturnCode → Run (ReturnCode × BzTree)
  | 0, _, _ => .spin
  | fuel + 1, t, rc =>
    let next (t1 : BzTree) (rc1 : ReturnCode) : Run (ReturnCode × BzTree) :=
      if rc1 ≠ .Ok ∧ rc1 ≠ .KeyExists then Insert_loop L key key_size payload fuel t1 rc1
      else .ret (rc1, t1)
    match t.TraverseToLeaf key key_size (fuel + 1) with
    | .ret (node, stack) =>
      match t.heap node with
      | none => .undefined
      | some leaf =>
        if new_free_space L leaf key_size ≤ 0 then
          match LeafNode.PrepareForSplit L t node stack t.split_threshold with
          | .ret r =>
            if r.parent = 0 then next r.tree rc
            else
              let (top, stack1) := r.stack.Pop
              let old_parent := match top with
                | some frame => frame.node
                | none => 0
              match stack1.Top with
              | some top =>
                match r.tree.heap top.node with
                | none => .undefined
                | some grand =>
                  let (_, grand1) := InternalNode.Update grand top.meta_word old_parent r.parent
                  next (r.tree.set_node top.node grand1) rc
              | none =>
                match r.tree.heap r.tree.root with
                | none => .undefined
                | some root_node =>
                  if L.first_word root_node = old_parent then .undefined
                  else next r.tree rc
          | .spin => .spin
          | .fatal => .fatal
          | .undefined => .undefined
        else
          match LeafNode.Insert L leaf t.epoch key key_size payload (fuel + 1) with
          | .ret (rc1, leaf1) => next (t.set_node node leaf1) rc1
          | .spin => .spin
          | .fatal => .fatal
          | .undefined => .undefined
    | .spin => .spin
    | .fatal => .fatal
    | .undefined => .undefined

/-- Source: `BzTree::Insert` (lines 821-872). -/
def Insert (L : Layout) (t : BzTree) (key : KeyPtr) (key_size payload : Nat) (fuel : Nat) :
    Run (ReturnCode × BzTree) :=
  Insert_loop L key key_size payload fuel t .Invalid

/-- The end of a round of `BzTree::Insert` that took the insert branch (source lines 868-870):
`r` is the outcome of `node->Insert(...)` on the leaf at address `node`; the loop goes round
again unless the code is `Ok` or `KeyExists`. -/
def Insert_after (L : Layout) (key : KeyPtr) (key_size payload fuel : Nat) (t : BzTree)
    (node : Nat) : Run (ReturnCode × BaseNode) → Run (ReturnCode × BzTree)
  | .ret (rc1, leaf1) =>
    if rc1 ≠ .Ok ∧ rc1 ≠ .KeyExists then
      Insert_loop L key key_size payload fuel (t.set_node node leaf1) rc1
    else .ret (rc1, t.set_node node leaf1)
  | .spin => .spin
  | .fatal => .fatal
  | .undefined => .undefined

/-- Source: `BzTree::Read` (lines 874-887). -/
def Read (t : BzTree) (key : KeyPtr) (key_size : Nat) (fuel : Nat) :
    Run (ReturnCode × Option Nat) :=
  match t.TraverseToLeaf key key_size fuel with
  | .ret (node, _) =>
    if node = 0 then .ret (.NotFound, none)
    else
      match t.heap node with
      | none => .undefined
      | some leaf => .ret (LeafNode.Read leaf key key_size)
  | .spin => .spin
  | .fatal => .fatal
  | .undefined => .undefined

/-- The `do ... while` loop of `BzTree::Update` (source lines 893-900). -/
def Update_loop (key : KeyPtr) (key_size payload : Nat) :
    Nat → BzTree → Run (ReturnCode × BzTree)
  | 0, _ => .spin
  | fuel + 1, t =>
    match t.TraverseToLeaf key key_size (fuel + 1) with
    | .ret (node, _) =>
      if node = 0 then .ret (.NotFound, t)
      else
        match t.heap node with
        | none => .undefined
        | some leaf =>
          match LeafNode.Update leaf t.epoch key key_size payload (fuel + 1) with
          | .ret (rc, leaf1) =>
            if rc = .PMWCASFailure then
              Update_loop key key_size payload fuel (t.set_node node leaf1)
            else .ret (rc, t.set_node node leaf1)
          | .spin => .spin
          | .fatal => .fatal
          | .undefined => .undefined
    | .spin => .spin
    | .fatal => .fatal
    | .undefined => .undefined

/-- Source: `BzTree::Update` (lines 889-902). -/
def Update (t : BzTree) (key : KeyPtr) (key_size payload : Nat) (fuel : Nat) :
    Run (ReturnCode × BzTree) :=
  Update_loop key key_size payload fuel t

/-- Source: `BzTree::Upsert` (lines 904-921).  When `Read` gives neither `NotFound` nor `Ok`
the function ends without a `return` statement. -/
def Upsert (L : Layout) (t : BzTree) (key : KeyPtr) (key_size payload : Nat) (fuel : Nat) :
    Run (ReturnCode × BzTree) :=
  match t.TraverseToLeaf key key_size fuel with
  | .ret (node, _) =>
    if node = 0 then Insert L t key key_size payload fuel
    else
      match t.heap node with
      | none => .undefined
      | some leaf =>
        match LeafNode.Read leaf key key_size with
        | (.NotFound, _) => Insert L t key key_size payload fuel
        | (.Ok, tmp_payload) =>
          if tmp_payload = some payload then .ret (.Ok, t)
          else Update t key key_size payload fuel
        | _ => .undefined
  | .spin => .spin
  | .fatal => .fatal
  | .undefined => .undefined

/-- The `do ... while` loop of `BzTree::Delete` (source lines 927-938); the merge of line 936
is not written in the source. -/
def Delete_loop (key : KeyPtr) (key_size : Nat) : Nat → BzTree → Run (ReturnCode × BzTree)
  | 0, _ => .spin
  | fuel + 1, t =>
    match t.TraverseToLeaf key key_size (fuel + 1) with
    | .ret (node, _) =>
      if node = 0 then .ret (.NotFound, t)
      else
        match t.heap node with
        | none => .undefined
        | some leaf =>
          match LeafNode.Delete leaf key key_size (fuel + 1) with
          | .ret (rc, leaf1) =>
            if rc = .NodeFrozen then Delete_loop key key_size fuel (t.set_node node leaf1)
            else .ret (rc, t.set_node node leaf1)
          | .spin => .spin
          | .fatal => .fatal
          | .undefined => .undefined
    | .spin => .spin
    | .fatal => .fatal
    | .undefined => .undefined

/-- Source: `BzTree::Delete` (lines 923-940). -/
def Delete (t : BzTree) (key : KeyPtr) (key_size : Nat) (fuel : Nat) :
    Run (ReturnCode × BzTree) :=
  Delete_loop key key_size fuel t

end BzTree

/-! ## Predicates used in the statements -/

/-- The return code of a call, `none` when the call did not return. -/
def Run.code {α : Type} : Run (ReturnCode × α) → Option ReturnCode
  | .ret (c, _) => some c
  | _ => none

/-- The state a call leaves behind, `dflt` when the call did not return. -/
def Run.state {α : Type} (dflt : α) : Run (ReturnCode × α) → α
  | .ret (_, s) => s
  | _ => dflt

namespace BaseNode

/-- Agreement of two nodes on the records below `bound`: the same metadata words in these
slots and the same key bytes for the visible records among them. -/
def same_records (n n1 : BaseNode) (bound : Nat) : Prop :=
  (∀ i < bound, n1.record_metadata i = n.record_metadata i) ∧
  (∀ i < bound, (n.record_metadata i).visible = true →
    ∀ j < (n.record_metadata i).key_length,
      n1.data ((n.record_metadata i).offset + j) = n.data ((n.record_metadata i).offset + j))

/-- The node holds a visible record whose key is `key[0 .. key_size)`, byte for byte. -/
def has_visible_key (node : BaseNode) (key : KeyPtr) (key_size : Nat) : Prop :=
  ∃ i, i < node.header.status.record_count ∧ (node.record_metadata i).visible = true ∧
    (node.record_metadata i).key_length = key_size ∧
    ∀ j, j < key_size → node.data ((node.record_metadata i).offset + j) = key j

/-- Decision procedure for `has_visible_key`: a bounded search over slots and bytes. -/
instance has_visible_key_decidable (node : BaseNode) (key : KeyPtr) (key_size : Nat) :
    Decidable (node.has_visible_key key key_size) := by
  unfold has_visible_key
  infer_instance

end BaseNode

namespace LeafNode

/-- Shape of a leaf between two calls of a single-threaded run: the sorted region is a part of
the claimed slots, the next slot is vacant, no claimed slot is still `Inserting`, every
visible record lies inside the data block of `block_size` bytes at the top of the node, and
the extents (padded key and payload word) of two visible records do not overlap. -/
def well_formed (L : Layout) (node : BaseNode) : Prop :=
  node.header.sorted_count ≤ node.header.status.record_count ∧
  node.record_metadata node.header.status.record_count = RecordMetadata.vacant ∧
  (∀ i < node.header.status.record_count, (node.record_metadata i).IsInserting = false) ∧
  (∀ i < node.header.status.record_count, (node.record_metadata i).visible = true →
    L.kNodeSize ≤ (node.record_metadata i).offset + node.header.status.block_size) ∧
  (∀ i < node.header.status.record_count, ∀ j < node.header.status.record_count,
    i ≠ j ∧ (node.record_metadata i).visible = true ∧ (node.record_metadata j).visible = true →
    (node.record_metadata i).offset + PadKeyLength (node.record_metadata i).key_length + 8
        ≤ (node.record_metadata j).offset ∨
      (node.record_metadata j).offset + PadKeyLength (node.record_metadata j).key_length + 8
        ≤ (node.record_metadata i).offset)

/-- Decision procedure for `well_formed`: all quantifiers are bounded by the record count. -/
instance well_formed_decidable (L : Layout) (node : BaseNode) :
    Decidable (well_formed L node) := by
  unfold well_formed
  infer_instance

/-- Slots from `record_count` on were never claimed: they are vacant.  Together with
`well_formed` this is kept by every `Insert` into a leaf with room, every `Update` and every
`Delete` that returns (lemmas `well_formed_Insert`, `well_formed_Update`,
`well_formed_Delete`), and it holds for a fresh leaf (`well_formed_New`). -/
def unclaimed_vacant (node : BaseNode) : Prop :=
  ∀ i, node.header.status.record_count ≤ i → node.record_metadata i = RecordMetadata.vacant

/-- The leaf has room for one more record with a key of `key_size` bytes: header, metadata
array with one more slot, data block and the new record (padded key and payload word) fit
into `kNodeSize` bytes. -/
def has_room (L : Layout) (node : BaseNode) (key_size : Nat) : Prop :=
  L.header_size + 8 * (node.header.status.record_count + 1) + node.header.status.block_size
    + PadKeyLength key_size + 8 ≤ L.kNodeSize

/-- Decision procedure for `has_room`. -/
instance has_room_decidable (L : Layout) (node : BaseNode) (key_size : Nat) :
    Decidable (has_room L node key_size) := by
  unfold has_room
  infer_instance

end LeafNode

/-! ## Concrete runs -/

/-- A layout with the typical node size of 4 KiB and a 24-byte node header whose first word
holds the leaf flag. -/
def example_layout : Layout := ⟨4096, 24, fun node => if node.is_leaf then 1 else 0⟩

/-- A layout with very small nodes (112 bytes, 24 of them header): a leaf is exactly full
after three records with keys of up to eight bytes. -/
def small_layout : Layout := ⟨112, 24, fun node => if node.is_leaf then 1 else 0⟩

/-- A caller's key buffer holding the listed bytes, followed by zero bytes (as `c_str()` of a
`std::string` is followed by its terminator). -/
def key_bytes (l : List Nat) : KeyPtr := fun i => l.getD i 0

/-- A fresh leaf after `Insert("a\0b", 3, 11)`. -/
def leaf_binary : BaseNode :=
  (LeafNode.Insert example_layout (LeafNode.New example_layout) 0 (key_bytes [97, 0, 98]) 3 11
    1).state (LeafNode.New example_layout)

/-- A fresh leaf after `Insert("a", 1, 1)`. -/
def leaf_a : BaseNode :=
  (LeafNode.Insert example_layout (LeafNode.New example_layout) 0 (key_bytes [97]) 1 1
    1).state (LeafNode.New example_layout)

/-- The leaf `leaf_a` after `Insert("b", 1, 2)`. -/
def leaf_ab : BaseNode :=
  (LeafNode.Insert example_layout leaf_a 0 (key_bytes [98]) 1 2 1).state leaf_a

/-- The leaf `leaf_ab` after `Insert("c", 1, 3)`. -/
def leaf_abc : BaseNode :=
  (LeafNode.Insert example_layout leaf_ab 0 (key_bytes [99]) 1 3 1).state leaf_ab

/-- The leaf returned by `Consolidate` on `leaf_abc`: records "a", "b", "c" in the sorted
region. -/
def leaf_sorted : BaseNode :=
  (LeafNode.Consolidate example_layout leaf_abc).1.getD leaf_abc

/-- The leaf `leaf_sorted` after `Delete("b", 1)`. -/
def leaf_sorted_b : BaseNode :=
  (LeafNode.Delete leaf_sorted (key_bytes [98]) 1 1).state leaf_sorted

/-- The leaf `leaf_sorted_b` after `Delete("c", 1)`. -/
def leaf_sorted_bc : BaseNode :=
  (LeafNode.Delete leaf_sorted_b (key_bytes [99]) 1 1).state leaf_sorted_b

/-- A tree whose root is the leaf `leaf_abc`. -/
def example_tree : BzTree :=
  { root := 1
    heap := Function.update (fun _ => none) 1 (some leaf_abc)
    next := 2
    split_threshold := 256
    merge_threshold := 128
    epoch := 0 }

/-- An empty tree over small nodes, with the thresholds of the repository's test. -/
def small_tree0 : BzTree := BzTree.init small_layout 256 128

/-- The tree `small_tree0` after `Insert("0", 1, 0)`. -/
def small_tree1 : BzTree :=
  (BzTree.Insert small_layout small_tree0 (key_bytes [48]) 1 0 1).state small_tree0

/-- The tree `small_tree1` after `Insert("1", 1, 1)`. -/
def small_tree2 : BzTree :=
  (BzTree.Insert small_layout small_tree1 (key_bytes [49]) 1 1 1).state small_tree1

/-- The tree `small_tree2` after `Insert("2", 1, 2)`. -/
def small_tree3 : BzTree :=
  (BzTree.Insert small_layout small_tree2 (key_bytes [50]) 1 2 1).state small_tree2

/-- The root leaf of `small_tree3`. -/
def small_tree3_root : BaseNode :=
  (small_tree3.heap small_tree3.root).getD (LeafNode.New small_layout)

/-- A frozen empty leaf. -/
def frozen_leaf : BaseNode := (LeafNode.New example_layout).Freeze.2

/-! ## Further predicates and concrete runs -/

/-- The value a call returned, `dflt` when the call did not return. -/
def Run.get {α : Type} (dflt : α) : Run α → α
  | .ret a => a
  | _ => dflt

/-- Whether the call returned. -/
def Run.returned {α : Type} : Run α → Bool
  | .ret _ => true
  | _ => false

/-- Modelled from the spec: the key order of section 4.2, byte-wise `memcmp` over
`min(len_a, len_b)` bytes, then the length as tie-break (the order of the lambda `key_cmp`,
on a caller's key and a stored key). -/
def key_before (a : KeyPtr) (la : Nat) (b : Nat → Nat) (lb : Nat) : Bool :=
  let cmp := memcmp a b (min la lb)
  if cmp = 0 then decide (la < lb) else decide (cmp < 0)

namespace LeafNode

/-- The visible records of a leaf, in slot order: the vector that `SortMetadataByKey` collects
before it sorts. -/
def visible_records (node : BaseNode) : List RecordMetadata :=
  ((List.range node.header.status.record_count).map node.record_metadata).filter
    RecordMetadata.IsVisible

/-- Invariant 1 of section 8 of the specification:
`record_count * sizeof(metadata) + block_size + sizeof(header) <= kNodeSize`. -/
def space_invariant (L : Layout) (node : BaseNode) : Prop :=
  node.header.status.record_count * 8 + node.header.status.block_size + L.header_size
    ≤ L.kNodeSize

/-- Decision procedure for `space_invariant`. -/
instance space_invariant_decidable (L : Layout) (node : BaseNode) :
    Decidable (space_invariant L node) := by
  unfold space_invariant
  infer_instance

end LeafNode

/-- The leaf returned by `Consolidate` on `leaf_sorted_bc`: its only record is "a". -/
def leaf_sorted_bc_consolidated : BaseNode :=
  (LeafNode.Consolidate example_layout leaf_sorted_bc).1.getD leaf_sorted_bc

/-- A fresh leaf after `Insert("ac", 2, 3)`. -/
def leaf_p1 : BaseNode :=
  (LeafNode.Insert example_layout (LeafNode.New example_layout) 0 (key_bytes [97, 99]) 2 3
    1).state (LeafNode.New example_layout)

/-- The leaf `leaf_p1` after `Insert("ab", 2, 2)`. -/
def leaf_p2 : BaseNode :=
  (LeafNode.Insert example_layout leaf_p1 0 (key_bytes [97, 98]) 2 2 1).state leaf_p1

/-- The leaf `leaf_p2` after `Insert("a", 1, 1)`: records "ac", "ab", "a" in the unsorted
region. -/
def leaf_p3 : BaseNode :=
  (LeafNode.Insert example_layout leaf_p2 0 (key_bytes [97]) 1 1 1).state leaf_p2

/-- The leaf returned by `Consolidate` on `leaf_p3`: records "a", "ab", "ac" in the sorted
region. -/
def leaf_p_sorted : BaseNode :=
  (LeafNode.Consolidate example_layout leaf_p3).1.getD leaf_p3

/-- The internal node built by `InternalNode::New("m", 1, 2, 3)`: separator "m", left child at
address 2, right child at address 3. -/
def internal_m : BaseNode := InternalNode.New example_layout (key_bytes [109]) 1 2 3

/-- The node built by `InternalNode::New(internal_m, "c", 1, 7, 8)`: the new key sorts
between the two records of `internal_m`. -/
def internal_c : BaseNode :=
  (InternalNode.New_from internal_m (key_bytes [99]) 1 7 8).get internal_m

/-- The node built by `InternalNode::New(internal_m, "t", 1, 7, 8)`: the new key sorts after
all records of `internal_m`. -/
def internal_t : BaseNode :=
  (InternalNode.New_from internal_m (key_bytes [116]) 1 7 8).get internal_m

/-- A caller's buffer of bytes "aaaa...", used as a key of 4000 bytes. -/
def long_key : KeyPtr := fun _ => 97

/-- An empty tree over nodes of 4 KiB. -/
def tree_full0 : BzTree := BzTree.init example_layout 256 128

/-- The tree `tree_full0` after `Insert` of the key of 4000 bytes. -/
def tree_full1 : BzTree :=
  (BzTree.Insert example_layout tree_full0 long_key 4000 0 1).state tree_full0

/-- The tree `tree_full1` after `Insert("b", 1, 1)`. -/
def tree_full2 : BzTree :=
  (BzTree.Insert example_layout tree_full1 (key_bytes [98]) 1 1 1).state tree_full1

/-- The tree `tree_full2` after `Insert("c", 1, 2)`: 8 bytes of the root leaf are free. -/
def tree_full3 : BzTree :=
  (BzTree.Insert example_layout tree_full2 (key_bytes [99]) 1 2 1).state tree_full2

/-- The root leaf of `tree_full3`. -/
def tree_full3_root : BaseNode :=
  (tree_full3.heap tree_full3.root).getD (LeafNode.New example_layout)

/-- The result of `LeafNode::PrepareForSplit` on the root leaf of `small_tree3`, with an empty
stack. -/
def split_run : SplitResult :=
  (LeafNode.PrepareForSplit small_layout small_tree3 small_tree3.root []
    small_tree3.split_threshold).get ⟨0, small_tree3, [], 0, 0⟩

/-- The internal node that `split_run` returns as the new parent. -/
def split_parent : BaseNode := (split_run.tree.heap split_run.parent).getD small_tree3_root

/-- Whether a `LOG_IF(FATAL, ...)` check ended the call. -/
def Run.is_fatal {α : Type} : Run α → Bool
  | .fatal => true
  | _ => false

/-- The ranges `(begin_meta_idx, nr_records)` that `InternalNode::PrepareForSplit` passes to the
range copy for the left and for the right half (source lines 196 and 205-212; the ranges are
the same in both branches). -/
def InternalNode.split_ranges (node : BaseNode) : (Nat × Nat) × (Nat × Nat) :=
  let n_left := node.header.sorted_count / 2
  ((0, n_left), (0, node.header.sorted_count - n_left))

/-- A tree whose root (address 1) is the given node. -/
def tree_on (node : BaseNode) : BzTree :=
  { root := 1
    heap := Function.update (fun _ => none) 1 (some node)
    next := 2
    split_threshold := 256
    merge_threshold := 128
    epoch := 0 }

/-- The leaf `leaf_abc` after `Insert("d", 1, 4)`: four records of 16 bytes. -/
def leaf_abcd : BaseNode :=
  (LeafNode.Insert example_layout leaf_abc 0 (key_bytes [100]) 1 4 1).state leaf_abc

/-- A caller's buffer of bytes "cccc...". -/
def wide_key_c : KeyPtr := fun _ => 99

/-- A fresh leaf after `Insert` of the key of 25 bytes "aa...a" with payload 1. -/
def leaf_wide1 : BaseNode :=
  (LeafNode.Insert example_layout (LeafNode.New example_layout) 0 long_key 25 1 1).state
    (LeafNode.New example_layout)

/-- The leaf `leaf_wide1` after `Insert("b", 1, 2)`. -/
def leaf_wide2 : BaseNode :=
  (LeafNode.Insert example_layout leaf_wide1 0 (key_bytes [98]) 1 2 1).state leaf_wide1

/-- The leaf `leaf_wide2` after `Insert("c", 1, 3)`: the first record in key order takes 40 of
the 72 bytes. -/
def leaf_wide_first : BaseNode :=
  (LeafNode.Insert example_layout leaf_wide2 0 (key_bytes [99]) 1 3 1).state leaf_wide2

/-- The leaf `leaf_ab` after `Insert` of the key of 25 bytes "cc...c" with payload 3: the last
record in key order takes 40 of the 72 bytes. -/
def leaf_wide_last : BaseNode :=
  (LeafNode.Insert example_layout leaf_ab 0 wide_key_c 25 3 1).state leaf_ab

/-- The result of `LeafNode::PrepareForSplit` on the root leaf `leaf_wide_last`. -/
def split_wide_last : SplitResult :=
  (LeafNode.PrepareForSplit example_layout (tree_on leaf_wide_last) 1 [] 256).get
    ⟨0, tree_on leaf_wide_last, [], 0, 0⟩

/-- The left leaf of `split_wide_last`. -/
def split_wide_left : BaseNode :=
  (split_wide_last.tree.heap split_wide_last.left).getD leaf_wide_last

/-- The right leaf of `split_wide_last`. -/
def split_wide_right : BaseNode :=
  (split_wide_last.tree.heap split_wide_last.right).getD leaf_wide_last

/-- The left leaf of `split_run`. -/
def split_left : BaseNode := (split_run.tree.heap split_run.left).getD small_tree3_root

/-- The right leaf of `split_run`. -/
def split_right : BaseNode := (split_run.tree.heap split_run.right).getD small_tree3_root

/-- The result of `InternalNode::PrepareForSplit` on the root `internal_m` with the new
separator "c" and a split threshold of 105 bytes, the smallest for which the no-split path is
taken (24 + 64 + 1 + 16 = 105). -/
def internal_no_split : Nat × BzTree × Stack :=
  (InternalNode.PrepareForSplit example_layout 105 1 (tree_on internal_m) 1 [] (key_bytes [99])
    1 7 8).get (0, tree_on internal_m, [])

/-! ## Lemmas -/

theorem load_store_word (d : Nat → Nat) (a v : Nat) (hv : v < 2 ^ 64) :
    load_word (store_word d a v) a = v := by
  simp only [load_word, store_word, memcpy, word_bytes]
  simp
  omega

theorem store_word_other (d : Nat → Nat) (a v x : Nat) (h : x < a ∨ a + 8 ≤ x) :
    store_word d a v x = d x := by
  simp only [store_word, memcpy]
  split
  · omega
  · rfl

theorem memcmp_congr (a b b' : Nat → Nat) (n : Nat) (h : ∀ j < n, b' j = b j) :
    memcmp a b' n = memcmp a b n := by
  induction n generalizing a b b' with
  | zero => rfl
  | succ n ih =>
    simp only [memcmp]
    rw [h 0 (by omega)]
    rw [ih (fun i => a (i + 1)) (fun i => b (i + 1)) (fun i => b' (i + 1))
      (fun j hj => h (j + 1) (by omega))]

theorem strncmp_congr (a b b' : Nat → Nat) (n : Nat) (h : ∀ j < n, b' j = b j) :
    strncmp a b' n = strncmp a b n := by
  induction n generalizing a b b' with
  | zero => rfl
  | succ n ih =>
    simp only [strncmp]
    rw [h 0 (by omega)]
    rw [ih (fun i => a (i + 1)) (fun i => b (i + 1)) (fun i => b' (i + 1))
      (fun j hj => h (j + 1) (by omega))]

theorem strncmp_eq_zero_of_eq (a b : Nat → Nat) (n : Nat) (h : ∀ j < n, b j = a j) :
    strncmp a b n = 0 := by
  induction n generalizing a b with
  | zero => rfl
  | succ n ih =>
    simp only [strncmp]
    rw [h 0 (by omega)]
    simp only [lt_self_iff_false, if_false]
    split
    · rfl
    · exact ih _ _ (fun j hj => h (j + 1) (by omega))

namespace BaseNode

theorem walk_right_range (node : BaseNode) (last : Int) (k : Nat) (m : Int) (h : m ≤ last) :
    m ≤ walk_right node last k m ∧ walk_right node last k m ≤ last := by
  induction k generalizing m with
  | zero => exact ⟨le_refl _, h⟩
  | succ k ih =>
    simp only [walk_right]
    split
    · rename_i hc
      have := ih (m + 1) (by omega)
      omega
    · exact ⟨le_refl _, h⟩

/-- The round bound of `walk_right` is adequate: any bound of at least `last - middle` rounds
gives the same result, so the loop never stops for lack of rounds. -/
theorem walk_right_rounds (node : BaseNode) (last : Int) (k k1 : Nat) (m : Int)
    (hk : (last - m).toNat ≤ k) (hk1 : (last - m).toNat ≤ k1) :
    walk_right node last k m = walk_right node last k1 m := by
  induction k generalizing m k1 with
  | zero =>
    have hm : ¬ m < last := by omega
    cases k1 with
    | zero => rfl
    | succ k1 => simp [walk_right, hm]
  | succ k ih =>
    by_cases hc : (node.record_metadata m.toNat).IsVisible = false ∧ m < last
    · obtain ⟨k2, rfl⟩ : ∃ k2, k1 = k2 + 1 := ⟨k1 - 1, by omega⟩
      simpa [walk_right, hc] using ih k2 (m + 1) (by omega) (by omega)
    · cases k1 with
      | zero => simp [walk_right, hc]
      | succ k1 => simp [walk_right, hc]

/-- The round bound of `binary_search` is adequate: any bound of at least the window size
`last + 1 - first` gives the same result, so a result `none` always stands for the end of the
loop of the source (its condition failed or it reached `break`). -/
theorem binary_search_rounds (node : BaseNode) (key : KeyPtr) (key_size : Nat) (k k1 : Nat)
    (first last : Int) (hk : (last + 1 - first).toNat ≤ k) (hk1 : (last + 1 - first).toNat ≤ k1) :
    binary_search node key key_size k first last = binary_search node key key_size k1 first last := by
  induction k generalizing first last k1 with
  | zero =>
    have hm : ¬ first ≤ last := by omega
    cases k1 with
    | zero => rfl
    | succ k1 => simp [binary_search, hm]
  | succ k ih =>
    by_cases hc : node.header.sorted_count ≠ 0 ∧ first ≤ last
    · obtain ⟨k2, rfl⟩ : ∃ k2, k1 = k2 + 1 := ⟨k1 - 1, by omega⟩
      simp only [binary_search, hc, and_self, if_true, ne_eq, not_false_eq_true]
      have hmid : (first + last) / 2 ≤ last := by omega
      have hmid0 : first ≤ (first + last) / 2 := by omega
      have hr := walk_right_range node last (last - (first + last) / 2).toNat _ hmid
      generalize walk_right node last (last - (first + last) / 2).toNat ((first + last) / 2)
        = mid at hr ⊢
      rw [ih k2 first (mid - 1) (by omega) (by omega), ih k2 (mid + 1) last (by omega) (by omega)]
    · cases k1 with
      | zero => simp [binary_search, hc]
      | succ k1 => simp [binary_search, hc]

theorem walk_right_congr (n n' : BaseNode) (bound : Nat)
    (hm : ∀ i < bound, n'.record_metadata i = n.record_metadata i) (last : Int)
    (hl : last < bound) (k : Nat) (m : Int) (h0 : 0 ≤ m) :
    walk_right n' last k m = walk_right n last k m := by
  induction k generalizing m with
  | zero => rfl
  | succ k ih =>
    simp only [walk_right]
    by_cases hlt : m < last
    · have hb : m.toNat < bound := by omega
      rw [hm _ hb, ih (m + 1) (by omega)]
    · simp [hlt]

theorem binary_search_congr (n n' : BaseNode) (bound : Nat)
    (hsc : n'.header.sorted_count = n.header.sorted_count) (hs : same_records n n' bound)
    (key : KeyPtr) (key_size : Nat) (fuel : Nat) (first last : Int) (h0 : 0 ≤ first)
    (hl : last < bound) :
    binary_search n' key key_size fuel first last = binary_search n key key_size fuel first last := by
  induction fuel generalizing first last with
  | zero => rfl
  | succ fuel ih =>
    simp only [binary_search, hsc]
    by_cases hc : n.header.sorted_count ≠ 0 ∧ first ≤ last
    · rw [if_pos hc, if_pos hc]
      have hmid : first ≤ (first + last) / 2 ∧ (first + last) / 2 ≤ last := by omega
      rw [walk_right_congr n n' bound hs.1 last hl _ _ (by omega)]
      have hr := walk_right_range n last (last - (first + last) / 2).toNat _ hmid.2
      generalize walk_right n last (last - (first + last) / 2).toNat ((first + last) / 2) = mid
        at hr ⊢
      have hb : mid.toNat < bound := by omega
      rw [hs.1 _ hb]
      by_cases hv : (n.record_metadata mid.toNat).IsVisible = true
      · have hkey : memcmp key (n'.GetKey (n.record_metadata mid.toNat))
            (n.record_metadata mid.toNat).key_length
            = memcmp key (n.GetKey (n.record_metadata mid.toNat))
              (n.record_metadata mid.toNat).key_length :=
          memcmp_congr _ _ _ _ (fun j hj => hs.2 _ hb hv j hj)
        rw [hkey, ih first (mid - 1) h0 (by omega), ih (mid + 1) last (by omega) hl]
      · simp [hv]
    · rw [if_neg hc, if_neg hc]

theorem binary_search_visible (n : BaseNode) (key : KeyPtr) (key_size : Nat) (fuel : Nat)
    (first last : Int) (j : Nat) (h : binary_search n key key_size fuel first last = some j) :
    (n.record_metadata j).visible = true := by
  induction fuel generalizing first last with
  | zero => simp [binary_search] at h
  | succ fuel ih =>
    simp only [binary_search] at h
    split at h
    · split at h
      · simp at h
      · split at h
        · exact ih _ _ h
        · split at h
          · rename_i hc
            simp only [Option.some.injEq] at h
            subst h
            exact hc.2.2
          · exact ih _ _ h
    · simp at h

theorem linear_search_congr (n n' : BaseNode) (bound : Nat) (hs : same_records n n' bound)
    (key : KeyPtr) (key_size : Nat) (c : Bool) (cnt i : Nat) (h : i + cnt ≤ bound) :
    linear_search n' key key_size c cnt i = linear_search n key key_size c cnt i := by
  induction cnt generalizing i with
  | zero => rfl
  | succ cnt ih =>
    simp only [linear_search]
    have hb : i < bound := by omega
    rw [hs.1 i hb, ih (i + 1) (by omega)]
    by_cases hv : (n.record_metadata i).visible = true
    · have hkey : strncmp key (n'.GetKey (n.record_metadata i)) (n.record_metadata i).key_length
          = strncmp key (n.GetKey (n.record_metadata i)) (n.record_metadata i).key_length :=
        strncmp_congr _ _ _ _ (fun j hj => hs.2 i hb hv j hj)
      rw [hkey]
    · simp [RecordMetadata.IsVisible, hv]

theorem linear_search_check (n : BaseNode) (key : KeyPtr) (key_size : Nat) (cnt i : Nat)
    (h : ∀ k, i ≤ k → k < i + cnt → (n.record_metadata k).IsInserting = false) :
    linear_search n key key_size true cnt i = linear_search n key key_size false cnt i := by
  induction cnt generalizing i with
  | zero => rfl
  | succ cnt ih =>
    simp only [linear_search]
    rw [h i (le_refl _) (by omega), ih (i + 1) (fun k h1 h2 => h k (by omega) (by omega))]
    simp

theorem linear_search_step (n : BaseNode) (key : KeyPtr) (key_size : Nat) (c : Bool)
    (cnt i : Nat) :
    linear_search n key key_size c (cnt + 1) i =
      if (n.record_metadata i).IsInserting ∧ c then some i
      else if (n.record_metadata i).IsInserting ∧ ¬ c then
        linear_search n key key_size c cnt (i + 1)
      else if (n.record_metadata i).IsVisible ∧ key_size = (n.record_metadata i).key_length ∧
          strncmp key (n.GetKey (n.record_metadata i)) (n.record_metadata i).key_length = 0 then
        some i
      else linear_search n key key_size c cnt (i + 1) := rfl

theorem linear_search_succ (n : BaseNode) (key : KeyPtr) (key_size : Nat) (c : Bool)
    (cnt i : Nat) :
    linear_search n key key_size c (cnt + 1) i =
      match linear_search n key key_size c cnt i with
      | some r => some r
      | none => linear_search n key key_size c 1 (i + cnt) := by
  induction cnt generalizing i with
  | zero => simp [linear_search]
  | succ cnt ih =>
    have e : i + 1 + cnt = i + (cnt + 1) := by omega
    have ih1 := ih (i + 1)
    rw [e] at ih1
    rw [linear_search_step n key key_size c (cnt + 1) i, ih1,
      linear_search_step n key key_size c cnt i]
    split_ifs <;> rfl

theorem linear_search_visible (n : BaseNode) (key : KeyPtr) (key_size : Nat) (cnt i j : Nat)
    (h : linear_search n key key_size false cnt i = some j) :
    (n.record_metadata j).visible = true := by
  induction cnt generalizing i with
  | zero => simp [linear_search] at h
  | succ cnt ih =>
    simp only [linear_search] at h
    split at h
    · rename_i hc
      simp at hc
    · split at h
      · exact ih _ h
      · split at h
        · rename_i hc
          simp only [Option.some.injEq] at h
          subst h
          exact hc.1
        · exact ih _ h

end BaseNode
namespace LeafNode

theorem Insert_unique (L : Layout) (node : BaseNode) (epoch : Nat) (key : KeyPtr)
    (key_size payload fuel : Nat)
    (hfrozen : node.header.status.frozen = false)
    (hsearch : node.SearchRecordMetaDefault key key_size = none)
    (hvac : node.record_metadata node.header.status.record_count = RecordMetadata.vacant) :
    ∃ node1, Insert L node epoch key key_size payload (fuel + 1) = .ret (.Ok, node1) ∧
      node1.is_leaf = node.is_leaf ∧
      node1.header.sorted_count = node.header.sorted_count ∧
      node1.header.status =
        node.header.status.PrepareForInsert (PadKeyLength key_size + 8) ∧
      (∀ i, i ≠ node.header.status.record_count →
        node1.record_metadata i = node.record_metadata i) ∧
      node1.record_metadata node.header.status.record_count =
        ⟨true, false, 0, L.kNodeSize - (node.header.status.block_size +
          (PadKeyLength key_size + 8)), key_size, PadKeyLength key_size + 8⟩ ∧
      node1.data = store_word (memcpy node.data (L.kNodeSize - (node.header.status.block_size +
          (PadKeyLength key_size + 8))) key key_size)
        (L.kNodeSize - (node.header.status.block_size + (PadKeyLength key_size + 8)) +
          PadKeyLength key_size) payload := by
  simp [Insert, CheckUnique, hsearch, hfrozen, hvac, BaseNode.MwCAS_status_meta,
    RecordMetadata.IsVacant, StatusWord.IsFrozen, StatusWord.PrepareForInsert,
    RecordMetadata.PrepareForInsert, RecordMetadata.FinalizeForInsert]
  intro i hi
  simp [Function.update, hi]

end LeafNode

theorem le_PadKeyLength (n : Nat) : n ≤ PadKeyLength n := by
  unfold PadKeyLength
  omega

namespace BaseNode

theorem binary_search_range (n : BaseNode) (key : KeyPtr) (key_size : Nat) (fuel : Nat)
    (first last : Int) (j : Nat) (h0 : 0 ≤ first)
    (h : binary_search n key key_size fuel first last = some j) :
    first ≤ j ∧ (j : Int) ≤ last := by
  induction fuel generalizing first last with
  | zero => simp [binary_search] at h
  | succ fuel ih =>
    simp only [binary_search] at h
    split at h
    · rename_i hc
      have hmid : first ≤ (first + last) / 2 ∧ (first + last) / 2 ≤ last := by omega
      have hr := walk_right_range n last (last - (first + last) / 2).toNat _ hmid.2
      generalize walk_right n last (last - (first + last) / 2).toNat ((first + last) / 2) = mid
        at hr h
      split at h
      · simp at h
      · split at h
        · have := ih _ _ h0 h
          omega
        · split at h
          · simp only [Option.some.injEq] at h
            subst h
            omega
          · have := ih _ _ (by omega) h
            omega
    · simp at h

theorem linear_search_range (n : BaseNode) (key : KeyPtr) (key_size : Nat) (c : Bool)
    (cnt i j : Nat) (h : linear_search n key key_size c cnt i = some j) :
    i ≤ j ∧ j < i + cnt := by
  induction cnt generalizing i with
  | zero => simp [linear_search] at h
  | succ cnt ih =>
    rw [linear_search_step] at h
    split_ifs at h
    · simp only [Option.some.injEq] at h; omega
    · have := ih _ h; omega
    · simp only [Option.some.injEq] at h; omega
    · have := ih _ h; omega

/-- The two parts of `SearchRecordMeta`, for a search of the whole node. -/
theorem SearchRecordMeta_whole (n : BaseNode) (key : KeyPtr) (key_size : Nat) (c : Bool)
    (hsc : n.header.sorted_count ≤ n.header.status.record_count)
    (hrc : n.header.status.record_count < UINT32_MAX) :
    n.SearchRecordMeta key key_size 0 UINT32_MAX c =
      match binary_search n key key_size n.header.sorted_count 0
          ((n.header.sorted_count : Int) - 1) with
      | some i => some i
      | none => linear_search n key key_size c
          (n.header.status.record_count - n.header.sorted_count) n.header.sorted_count := by
  unfold SearchRecordMeta
  have h1 : UINT32_MAX > n.header.sorted_count := by omega
  have h2 : min n.header.status.record_count UINT32_MAX = n.header.status.record_count := by
    omega
  simp only [h1, h2, if_true]
  by_cases h0 : 0 < n.header.sorted_count
  · have h3 : min UINT32_MAX (n.header.sorted_count - 1) = n.header.sorted_count - 1 := by
      omega
    have h4 : ((n.header.sorted_count : Int) - 1 + 1 - 0).toNat = n.header.sorted_count := by
      omega
    have h5 : ((n.header.sorted_count - 1 : Nat) : Int) = (n.header.sorted_count : Int) - 1 := by
      omega
    simp only [h0, if_true, h3, h5, Nat.cast_zero, h4]
  · have h6 : n.header.sorted_count = 0 := by omega
    simp [h6, binary_search]

theorem SearchRecordMeta_lt (n : BaseNode) (key : KeyPtr) (key_size : Nat) (c : Bool) (j : Nat)
    (hsc : n.header.sorted_count ≤ n.header.status.record_count)
    (hrc : n.header.status.record_count < UINT32_MAX)
    (h : n.SearchRecordMeta key key_size 0 UINT32_MAX c = some j) :
    j < n.header.status.record_count := by
  rw [SearchRecordMeta_whole n key key_size c hsc hrc] at h
  split at h
  · rename_i i hb
    simp only [Option.some.injEq] at h
    subst h
    have := binary_search_range n key key_size _ _ _ _ (le_refl _) hb
    omega
  · have := linear_search_range n key key_size c _ _ _ h
    omega

theorem SearchRecordMeta_visible (n : BaseNode) (key : KeyPtr) (key_size : Nat) (j : Nat)
    (hsc : n.header.sorted_count ≤ n.header.status.record_count)
    (hrc : n.header.status.record_count < UINT32_MAX)
    (h : n.SearchRecordMeta key key_size 0 UINT32_MAX false = some j) :
    (n.record_metadata j).visible = true := by
  rw [SearchRecordMeta_whole n key key_size false hsc hrc] at h
  split at h
  · rename_i i hb
    simp only [Option.some.injEq] at h
    subst h
    exact binary_search_visible n key key_size _ _ _ _ hb
  · exact linear_search_visible n key key_size _ _ _ h

theorem SearchRecordMeta_check (n : BaseNode) (key : KeyPtr) (key_size : Nat)
    (hsc : n.header.sorted_count ≤ n.header.status.record_count)
    (hrc : n.header.status.record_count < UINT32_MAX)
    (hins : ∀ i < n.header.status.record_count, (n.record_metadata i).IsInserting = false) :
    n.SearchRecordMetaDefault key key_size = n.SearchRecordMeta key key_size 0 UINT32_MAX false := by
  unfold SearchRecordMetaDefault
  rw [SearchRecordMeta_whole n key key_size true hsc hrc,
    SearchRecordMeta_whole n key key_size false hsc hrc,
    linear_search_check n key key_size _ _ (fun k _ h2 => hins k (by omega))]

theorem SearchRecordMeta_congr (n n' : BaseNode) (key : KeyPtr) (key_size : Nat) (c : Bool)
    (hsc : n.header.sorted_count ≤ n.header.status.record_count)
    (hrc : n.header.status.record_count < UINT32_MAX)
    (hsc' : n'.header.sorted_count = n.header.sorted_count)
    (hrc' : n'.header.status.record_count = n.header.status.record_count)
    (hs : same_records n n' n.header.status.record_count) :
    n'.SearchRecordMeta key key_size 0 UINT32_MAX c =
      n.SearchRecordMeta key key_size 0 UINT32_MAX c := by
  rw [SearchRecordMeta_whole n key key_size c hsc hrc,
    SearchRecordMeta_whole n' key key_size c (by omega) (by omega), hsc', hrc',
    binary_search_congr n n' _ hsc' hs key key_size _ _ _ (le_refl _) (by omega),
    linear_search_congr n n' _ hs key key_size c _ _ (by omega)]

end BaseNode
namespace LeafNode

theorem Read_after_Insert (L : Layout) (node node1 : BaseNode) (key : KeyPtr)
    (key_size payload : Nat) (hK : L.kNodeSize < 2 ^ 32) (hp : payload < 2 ^ 64)
    (hwf : well_formed L node) (hroom : has_room L node key_size)
    (hnone : node.SearchRecordMeta key key_size 0 BaseNode.UINT32_MAX false = none)
    (hsc : node1.header.sorted_count = node.header.sorted_count)
    (hst : node1.header.status =
        node.header.status.PrepareForInsert (PadKeyLength key_size + 8))
    (hmeta : ∀ i, i ≠ node.header.status.record_count →
        node1.record_metadata i = node.record_metadata i)
    (hnew : node1.record_metadata node.header.status.record_count =
        ⟨true, false, 0, L.kNodeSize - (node.header.status.block_size +
          (PadKeyLength key_size + 8)), key_size, PadKeyLength key_size + 8⟩)
    (hdata : node1.data = store_word (memcpy node.data (L.kNodeSize -
          (node.header.status.block_size + (PadKeyLength key_size + 8))) key key_size)
        (L.kNodeSize - (node.header.status.block_size + (PadKeyLength key_size + 8)) +
          PadKeyLength key_size) payload) :
    Read node1 key key_size = (.Ok, some payload) := by
  obtain ⟨hle, _, _, hblk, _⟩ := hwf
  unfold has_room at hroom
  have hpad := le_PadKeyLength key_size
  have hrc : node.header.status.record_count < BaseNode.UINT32_MAX := by
    unfold BaseNode.UINT32_MAX; omega
  have hrc1 : node1.header.status.record_count = node.header.status.record_count + 1 := by
    rw [hst]; rfl
  -- the old records are untouched
  have hsame : BaseNode.same_records node node1 node.header.status.record_count := by
    refine ⟨fun i hi => hmeta i (by omega), fun i hi hv j hj => ?_⟩
    have hb := hblk i hi hv
    rw [hdata, store_word_other _ _ _ _ (by omega)]
    unfold memcpy
    rw [if_neg (by omega)]
  -- the search of the new node
  have hsearch : node1.SearchRecordMeta key key_size 0 BaseNode.UINT32_MAX false
      = some node.header.status.record_count := by
    rw [BaseNode.SearchRecordMeta_whole node key key_size false hle hrc] at hnone
    rw [BaseNode.SearchRecordMeta_whole node1 key key_size false (by omega)
      (by unfold BaseNode.UINT32_MAX; omega), hsc, hrc1,
      BaseNode.binary_search_congr node node1 _ hsc hsame key key_size _ _ _ (le_refl _)
        (by omega)]
    split at hnone
    · simp at hnone
    · have e : node.header.status.record_count + 1 - node.header.sorted_count
          = (node.header.status.record_count - node.header.sorted_count) + 1 := by omega
      rw [e, BaseNode.linear_search_succ,
        BaseNode.linear_search_congr node node1 _ hsame key key_size false _ _ (by omega),
        hnone]
      simp only []
      have e2 : node.header.sorted_count +
          (node.header.status.record_count - node.header.sorted_count)
          = node.header.status.record_count := by omega
      rw [e2, BaseNode.linear_search_step, hnew]
      have hstr : strncmp key (node1.GetKey ⟨true, false, 0, L.kNodeSize -
          (node.header.status.block_size + (PadKeyLength key_size + 8)), key_size,
          PadKeyLength key_size + 8⟩) key_size = 0 := by
        apply strncmp_eq_zero_of_eq
        intro j hj
        simp only [BaseNode.GetKey, BaseNode.ptr]
        rw [hdata, store_word_other _ _ _ _ (by omega)]
        unfold memcpy
        rw [if_pos (by omega)]
        congr 1
        omega
      simp [RecordMetadata.IsInserting, RecordMetadata.IsVisible, hstr]
  simp only [Read, hsearch, hnew, BaseNode.GetRecord, RecordMetadata.IsVisible, if_true,
    RecordMetadata.GetPaddedKeyLength]
  rw [hdata, load_store_word _ _ _ hp]

end LeafNode
namespace LeafNode

theorem Update_found (node : BaseNode) (epoch : Nat) (key : KeyPtr)
    (key_size payload fuel j : Nat)
    (hfrozen : node.header.status.frozen = false)
    (hsearch : node.SearchRecordMetaDefault key key_size = some j)
    (hv : (node.record_metadata j).visible = true)
    (hne : payload ≠ load_word node.data ((node.record_metadata j).offset +
      PadKeyLength (node.record_metadata j).key_length)) :
    ∃ node1, Update node epoch key key_size payload (fuel + 1) = .ret (.Ok, node1) ∧
      node1.is_leaf = node.is_leaf ∧
      node1.header = node.header ∧
      node1.record_metadata = node.record_metadata ∧
      node1.data = store_word node.data ((node.record_metadata j).offset +
        PadKeyLength (node.record_metadata j).key_length) payload := by
  simp [Update, hsearch, hfrozen, hv, hne, StatusWord.IsFrozen, RecordMetadata.IsVisible,
    RecordMetadata.IsInserting, BaseNode.GetRecord, BaseNode.MwCAS_payload_meta_status,
    RecordMetadata.GetPaddedKeyLength]

theorem Read_after_Update (L : Layout) (node node1 : BaseNode) (key : KeyPtr)
    (key_size payload j : Nat) (hK : L.kNodeSize < 2 ^ 32) (hp : payload < 2 ^ 64)
    (hwf : well_formed L node) (hroom : has_room L node key_size)
    (hsome : node.SearchRecordMeta key key_size 0 BaseNode.UINT32_MAX false = some j)
    (hhdr : node1.header = node.header)
    (hmeta : node1.record_metadata = node.record_metadata)
    (hdata : node1.data = store_word node.data ((node.record_metadata j).offset +
        PadKeyLength (node.record_metadata j).key_length) payload) :
    Read node1 key key_size = (.Ok, some payload) := by
  obtain ⟨hle, _, _, _, hdisj⟩ := hwf
  unfold has_room at hroom
  have hrc : node.header.status.record_count < BaseNode.UINT32_MAX := by
    unfold BaseNode.UINT32_MAX; omega
  have hj := BaseNode.SearchRecordMeta_lt node key key_size false j hle hrc hsome
  have hjv := BaseNode.SearchRecordMeta_visible node key key_size j hle hrc hsome
  have hsame : BaseNode.same_records node node1 node.header.status.record_count := by
    refine ⟨fun i _ => by rw [hmeta], fun i hi hv k hk => ?_⟩
    rw [hdata]
    apply store_word_other
    by_cases hij : i = j
    · subst hij
      have := le_PadKeyLength (node.record_metadata i).key_length
      omega
    · have hpad := le_PadKeyLength (node.record_metadata i).key_length
      rcases hdisj i hi j hj ⟨hij, hv, hjv⟩ with h | h
      · omega
      · omega
  have hsearch : node1.SearchRecordMeta key key_size 0 BaseNode.UINT32_MAX false = some j := by
    rw [BaseNode.SearchRecordMeta_congr node node1 key key_size false hle hrc (by rw [hhdr])
      (by rw [hhdr]) hsame, hsome]
  simp only [Read, hsearch, hmeta, BaseNode.GetRecord, RecordMetadata.IsVisible, hjv, if_true,
    RecordMetadata.GetPaddedKeyLength]
  rw [hdata, load_store_word _ _ _ hp]

end LeafNode

namespace BzTree

theorem TraverseToLeaf_loop_mono (t : BzTree) (key : KeyPtr) (key_size : Nat) (d : Nat)
    (node : Nat) (stack : Stack) (x : Nat × Stack)
    (h : TraverseToLeaf_loop t key key_size d node stack = .ret x) (fuel : Nat)
    (hf : d ≤ fuel) :
    TraverseToLeaf_loop t key key_size fuel node stack = .ret x := by
  induction d generalizing node stack fuel with
  | zero => simp [TraverseToLeaf_loop] at h
  | succ d ih =>
    obtain ⟨f, rfl⟩ : ∃ f, fuel = f + 1 := ⟨fuel - 1, by omega⟩
    simp only [TraverseToLeaf_loop] at h ⊢
    cases hh : t.heap node with
    | none => simp [hh] at h
    | some n =>
      simp only [hh] at h ⊢
      by_cases hl : n.is_leaf = true
      · simpa [hl] using h
      · simp only [hl, if_false] at h ⊢
        cases hg : InternalNode.GetChild n key key_size with
        | ret cm =>
          obtain ⟨child, m⟩ := cm
          simp only [hg] at h ⊢
          exact ih _ _ h f (by omega)
        | spin => simp [hg] at h
        | fatal => simp [hg] at h
        | undefined => simp [hg] at h

theorem TraverseToLeaf_loop_leaf (t : BzTree) (key : KeyPtr) (key_size : Nat) (d : Nat)
    (node : Nat) (stack : Stack) (a : Nat) (stk : Stack)
    (h : TraverseToLeaf_loop t key key_size d node stack = .ret (a, stk)) :
    ∃ n, t.heap a = some n ∧ n.is_leaf = true := by
  induction d generalizing node stack with
  | zero => simp [TraverseToLeaf_loop] at h
  | succ d ih =>
    simp only [TraverseToLeaf_loop] at h
    split at h
    · simp at h
    · rename_i n hn
      split at h
      · rename_i hl
        simp only [Run.ret.injEq, Prod.mk.injEq] at h
        obtain ⟨rfl, _⟩ := h
        exact ⟨n, hn, hl⟩
      · split at h
        · exact ih _ _ h
        · simp at h
        · simp at h
        · simp at h

theorem TraverseToLeaf_loop_set_node (t : BzTree) (key : KeyPtr) (key_size : Nat) (a : Nat)
    (leaf leaf1 : BaseNode) (hleaf : t.heap a = some leaf) (hl : leaf.is_leaf = true)
    (hl1 : leaf1.is_leaf = true) (fuel : Nat) (node : Nat) (stack : Stack) :
    TraverseToLeaf_loop (t.set_node a leaf1) key key_size fuel node stack =
      TraverseToLeaf_loop t key key_size fuel node stack := by
  induction fuel generalizing node stack with
  | zero => rfl
  | succ fuel ih =>
    simp only [TraverseToLeaf_loop]
    by_cases hna : node = a
    · subst hna
      simp [set_node, hleaf, hl, hl1]
    · have : (t.set_node a leaf1).heap node = t.heap node := by
        simp [set_node, Function.update, hna]
      rw [this]
      split
      · rfl
      · split
        · rfl
        · split
          · exact ih _ _
          · rfl
          · rfl
          · rfl

end BzTree
namespace LeafNode

theorem Insert_unique_fuel (L : Layout) (node : BaseNode) (epoch : Nat) (key : KeyPtr)
    (key_size payload : Nat)
    (hfrozen : node.header.status.frozen = false)
    (hsearch : node.SearchRecordMetaDefault key key_size = none)
    (hvac : node.record_metadata node.header.status.record_count = RecordMetadata.vacant) :
    ∃ node1, (∀ fuel, Insert L node epoch key key_size payload (fuel + 1) = .ret (.Ok, node1)) ∧
      node1.is_leaf = node.is_leaf ∧
      node1.header.sorted_count = node.header.sorted_count ∧
      node1.header.status =
        node.header.status.PrepareForInsert (PadKeyLength key_size + 8) ∧
      (∀ i, i ≠ node.header.status.record_count →
        node1.record_metadata i = node.record_metadata i) ∧
      node1.record_metadata node.header.status.record_count =
        ⟨true, false, 0, L.kNodeSize - (node.header.status.block_size +
          (PadKeyLength key_size + 8)), key_size, PadKeyLength key_size + 8⟩ ∧
      node1.data = store_word (memcpy node.data (L.kNodeSize - (node.header.status.block_size +
          (PadKeyLength key_size + 8))) key key_size)
        (L.kNodeSize - (node.header.status.block_size + (PadKeyLength key_size + 8)) +
          PadKeyLength key_size) payload := by
  obtain ⟨node1, h1, h2⟩ := Insert_unique L node epoch key key_size payload 0 hfrozen hsearch hvac
  refine ⟨node1, fun fuel => ?_, h2⟩
  rw [← h1]
  simp [Insert, CheckUnique, hsearch, hfrozen, hvac, BaseNode.MwCAS_status_meta,
    RecordMetadata.IsVacant, StatusWord.IsFrozen, StatusWord.PrepareForInsert,
    RecordMetadata.PrepareForInsert, RecordMetadata.FinalizeForInsert]

theorem Update_found_fuel (node : BaseNode) (epoch : Nat) (key : KeyPtr)
    (key_size payload j : Nat)
    (hfrozen : node.header.status.frozen = false)
    (hsearch : node.SearchRecordMetaDefault key key_size = some j)
    (hv : (node.record_metadata j).visible = true)
    (hne : payload ≠ load_word node.data ((node.record_metadata j).offset +
      PadKeyLength (node.record_metadata j).key_length)) :
    ∃ node1, (∀ fuel, Update node epoch key key_size payload (fuel + 1) = .ret (.Ok, node1)) ∧
      node1.is_leaf = node.is_leaf ∧
      node1.header = node.header ∧
      node1.record_metadata = node.record_metadata ∧
      node1.data = store_word node.data ((node.record_metadata j).offset +
        PadKeyLength (node.record_metadata j).key_length) payload := by
  obtain ⟨node1, h1, h2⟩ := Update_found node epoch key key_size payload 0 j hfrozen hsearch hv hne
  refine ⟨node1, fun fuel => ?_, h2⟩
  rw [← h1]
  simp [Update, hsearch, hfrozen, hv, hne, StatusWord.IsFrozen, RecordMetadata.IsVisible,
    RecordMetadata.IsInserting, BaseNode.GetRecord, BaseNode.MwCAS_payload_meta_status,
    RecordMetadata.GetPaddedKeyLength]

end LeafNode

namespace BzTree

theorem new_free_space_pos (L : Layout) (leaf : BaseNode) (key_size : Nat)
    (hK : L.kNodeSize < 2 ^ 32) (hroom : LeafNode.has_room L leaf key_size) :
    ¬ new_free_space L leaf key_size ≤ 0 := by
  unfold LeafNode.has_room at hroom
  unfold new_free_space GetFreeSpace
  omega


end BzTree

namespace LeafNode

/-- A fresh leaf is well formed and none of its slots is claimed. -/
theorem well_formed_New (L : Layout) : well_formed L (New L) ∧ unclaimed_vacant (New L) := by
  refine ⟨⟨le_refl _, rfl, ?_, ?_, ?_⟩, fun i _ => rfl⟩
  · intro i hi
    exact absurd hi (Nat.not_lt_zero i)
  · intro i hi
    exact absurd hi (Nat.not_lt_zero i)
  · intro i hi
    exact absurd hi (Nat.not_lt_zero i)

/-- On a well-formed leaf the default search returns visible records of claimed slots only. -/
theorem SearchRecordMetaDefault_visible (L : Layout) (node : BaseNode) (key : KeyPtr)
    (key_size j : Nat) (hK : L.kNodeSize < 2 ^ 32) (hwf : well_formed L node)
    (hfit : L.header_size + 8 * node.header.status.record_count ≤ L.kNodeSize)
    (h : node.SearchRecordMetaDefault key key_size = some j) :
    (node.record_metadata j).visible = true ∧ j < node.header.status.record_count := by
  have hrc : node.header.status.record_count < BaseNode.UINT32_MAX := by
    unfold BaseNode.UINT32_MAX; omega
  rw [BaseNode.SearchRecordMeta_check node key key_size hwf.1 hrc hwf.2.2.1] at h
  exact ⟨BaseNode.SearchRecordMeta_visible node key key_size j hwf.1 hrc h,
    BaseNode.SearchRecordMeta_lt node key key_size false j hwf.1 hrc h⟩

/-- Well-formedness is kept by every `Insert` that returns, on a leaf with room. -/
theorem well_formed_Insert (L : Layout) (node : BaseNode) (epoch : Nat) (key : KeyPtr)
    (key_size payload fuel : Nat) (rc : ReturnCode) (node1 : BaseNode)
    (hK : L.kNodeSize < 2 ^ 32) (hwf : well_formed L node) (hun : unclaimed_vacant node)
    (hroom : has_room L node key_size)
    (h : Insert L node epoch key key_size payload fuel = .ret (rc, node1)) :
    well_formed L node1 ∧ unclaimed_vacant node1 := by
  cases fuel with
  | zero => simp [Insert] at h
  | succ fuel =>
    by_cases hfrozen : node.header.status.frozen = true
    · simp only [Insert, StatusWord.IsFrozen, hfrozen, if_true, Run.ret.injEq,
        Prod.mk.injEq] at h
      rw [← h.2]
      exact ⟨hwf, hun⟩
    · have hfrozen : node.header.status.frozen = false := by simpa using hfrozen
      have hroom1 := hroom
      unfold has_room at hroom1
      cases hs : node.SearchRecordMetaDefault key key_size with
      | some j =>
        have hv := (SearchRecordMetaDefault_visible L node key key_size j hK hwf (by omega) hs).1
        simp only [Insert, StatusWord.IsFrozen, hfrozen, CheckUnique, hs,
          RecordMetadata.IsVisible, hv] at h
        simp only [Bool.false_eq_true, if_false, Bool.not_true, if_true, Run.ret.injEq,
          Prod.mk.injEq] at h
        rw [← h.2]
        exact ⟨hwf, hun⟩
      | none =>
        obtain ⟨n1, hins, _, h3, h4, h5, h6, _⟩ :=
          Insert_unique_fuel L node epoch key key_size payload hfrozen hs hwf.2.1
        rw [hins fuel] at h
        simp only [Run.ret.injEq, Prod.mk.injEq] at h
        obtain ⟨_, rfl⟩ := h
        obtain ⟨w1, w2, w3, w4, w5⟩ := hwf
        have hrc1 : n1.header.status.record_count = node.header.status.record_count + 1 := by
          rw [h4]; rfl
        have hbs1 : n1.header.status.block_size
            = node.header.status.block_size + (PadKeyLength key_size + 8) := by
          rw [h4]; rfl
        have hmeta : ∀ i, i < node.header.status.record_count + 1 →
            (n1.record_metadata i).visible = true →
            ((n1.record_metadata i).IsInserting = false ∧
              L.kNodeSize ≤ (n1.record_metadata i).offset + n1.header.status.block_size) := by
          intro i hi hv
          by_cases hir : i = node.header.status.record_count
          · subst hir
            rw [h6, hbs1]
            refine ⟨rfl, ?_⟩
            show L.kNodeSize ≤ L.kNodeSize - (node.header.status.block_size +
              (PadKeyLength key_size + 8)) + _
            omega
          · rw [h5 i hir] at hv ⊢
            have := w4 i (by omega) hv
            rw [hbs1]
            exact ⟨w3 i (by omega), by omega⟩
        refine ⟨⟨by omega, ?_, ?_, ?_, ?_⟩, ?_⟩
        · rw [hrc1, h5 _ (by omega)]
          exact hun _ (by omega)
        · intro i hi
          rw [hrc1] at hi
          by_cases hir : i = node.header.status.record_count
          · subst hir; rw [h6]; rfl
          · rw [h5 i hir]; exact w3 i (by omega)
        · intro i hi hv
          rw [hrc1] at hi
          exact (hmeta i hi hv).2
        · intro i hi j hj hij
          rw [hrc1] at hi hj
          obtain ⟨hne, hvi, hvj⟩ := hij
          by_cases hir : i = node.header.status.record_count
          · have hjr : j ≠ node.header.status.record_count := by omega
            have hvj0 := hvj
            rw [h5 j hjr] at hvj0 ⊢
            have hb := w4 j (by omega) hvj0
            subst hir
            rw [h6]
            left
            show L.kNodeSize - (node.header.status.block_size + (PadKeyLength key_size + 8)) +
              PadKeyLength key_size + 8 ≤ _
            omega
          · by_cases hjr : j = node.header.status.record_count
            · have hvi0 := hvi
              rw [h5 i hir] at hvi0 ⊢
              have hb := w4 i (by omega) hvi0
              subst hjr
              rw [h6]
              right
              show L.kNodeSize - (node.header.status.block_size + (PadKeyLength key_size + 8)) +
                PadKeyLength key_size + 8 ≤ _
              omega
            · rw [h5 i hir] at hvi
              rw [h5 j hjr] at hvj
              rw [h5 i hir, h5 j hjr]
              exact w5 i (by omega) j (by omega) ⟨hne, hvi, hvj⟩
        · intro i hi
          rw [hrc1] at hi
          rw [h5 i (by omega)]
          exact hun i (by omega)


/-- Well-formedness is kept by every `Update` that returns. -/
theorem well_formed_Update (L : Layout) (node : BaseNode) (epoch : Nat) (key : KeyPtr)
    (key_size payload fuel : Nat) (rc : ReturnCode) (node1 : BaseNode)
    (hwf : well_formed L node) (hun : unclaimed_vacant node)
    (h : Update node epoch key key_size payload fuel = .ret (rc, node1)) :
    well_formed L node1 ∧ unclaimed_vacant node1 := by
  have hsame : node1.header = node.header ∧ node1.record_metadata = node.record_metadata := by
    cases fuel with
    | zero => simp [Update] at h
    | succ fuel =>
      by_cases hfrozen : node.header.status.frozen = true
      · simp only [Update, StatusWord.IsFrozen, hfrozen, if_true, Run.ret.injEq,
          Prod.mk.injEq] at h
        rw [← h.2]
        exact ⟨rfl, rfl⟩
      · have hfrozen : node.header.status.frozen = false := by simpa using hfrozen
        cases hs : node.SearchRecordMetaDefault key key_size with
        | none =>
          simp only [Update, StatusWord.IsFrozen, hfrozen, hs, Bool.false_eq_true, if_false,
            Run.ret.injEq, Prod.mk.injEq] at h
          rw [← h.2]
          exact ⟨rfl, rfl⟩
        | some j =>
          by_cases hv : (node.record_metadata j).visible = true
          · by_cases hp : payload = load_word node.data ((node.record_metadata j).offset +
                PadKeyLength (node.record_metadata j).key_length)
            · simp only [Update, StatusWord.IsFrozen, hfrozen, hs, RecordMetadata.IsVisible, hv,
                RecordMetadata.IsInserting, BaseNode.GetRecord,
                RecordMetadata.GetPaddedKeyLength, ← hp] at h
              simp only [Bool.false_eq_true, if_false, Bool.not_true, Bool.false_and, if_true,
                Run.ret.injEq, Prod.mk.injEq] at h
              rw [← h.2]
              exact ⟨rfl, rfl⟩
            · obtain ⟨n1, hupd, _, h3, h4, _⟩ :=
                Update_found_fuel node epoch key key_size payload j hfrozen hs hv hp
              rw [hupd fuel] at h
              simp only [Run.ret.injEq, Prod.mk.injEq] at h
              rw [← h.2]
              exact ⟨h3, h4⟩
          · simp only [Update, StatusWord.IsFrozen, hfrozen, hs, RecordMetadata.IsVisible, hv,
              Bool.false_eq_true, if_false, Bool.not_false, if_true, Run.ret.injEq,
              Prod.mk.injEq] at h
            rw [← h.2]
            exact ⟨rfl, rfl⟩
  obtain ⟨hh, hm⟩ := hsame
  unfold well_formed unclaimed_vacant at *
  rw [hh, hm]
  exact ⟨hwf, hun⟩

/-- Well-formedness is kept by every `Delete` that returns. -/
theorem well_formed_Delete (L : Layout) (node : BaseNode) (key : KeyPtr)
    (key_size fuel : Nat) (rc : ReturnCode) (node1 : BaseNode)
    (hK : L.kNodeSize < 2 ^ 32) (hwf : well_formed L node) (hun : unclaimed_vacant node)
    (hfit : L.header_size + 8 * node.header.status.record_count ≤ L.kNodeSize)
    (h : Delete node key key_size fuel = .ret (rc, node1)) :
    well_formed L node1 ∧ unclaimed_vacant node1 := by
  by_cases hfrozen : node.header.status.frozen = true
  · simp only [Delete, StatusWord.IsFrozen, hfrozen, if_true, Run.ret.injEq,
      Prod.mk.injEq] at h
    rw [← h.2]
    exact ⟨hwf, hun⟩
  · have hfrozen : node.header.status.frozen = false := by simpa using hfrozen
    simp only [Delete, StatusWord.IsFrozen, hfrozen, Bool.false_eq_true, if_false] at h
    cases fuel with
    | zero => simp [Delete_retry] at h
    | succ fuel =>
      cases hs : node.SearchRecordMetaDefault key key_size with
      | none =>
        simp only [Delete_retry, hs, Run.ret.injEq, Prod.mk.injEq] at h
        rw [← h.2]
        exact ⟨hwf, hun⟩
      | some j =>
        obtain ⟨hv, hj⟩ := SearchRecordMetaDefault_visible L node key key_size j hK hwf hfit hs
        simp only [Delete_retry, hs, RecordMetadata.IsInserting, hv, Bool.not_true,
          Bool.false_and, Bool.false_eq_true, if_false, BaseNode.MwCAS_status_meta, and_self,
          if_true, Run.ret.injEq, Prod.mk.injEq] at h
        obtain ⟨_, rfl⟩ := h
        obtain ⟨w1, w2, w3, w4, w5⟩ := hwf
        have hmeta : ∀ i, i ≠ j → Function.update node.record_metadata j
            (((node.record_metadata j).SetVisible false).SetOffset 0) i
            = node.record_metadata i := by
          intro i hi
          simp [Function.update, hi]
        have hmj : Function.update node.record_metadata j
            (((node.record_metadata j).SetVisible false).SetOffset 0) j
            = ((node.record_metadata j).SetVisible false).SetOffset 0 := by
          simp
        refine ⟨⟨w1, ?_, ?_, ?_, ?_⟩, ?_⟩
        · show Function.update node.record_metadata j _ node.header.status.record_count = _
          rw [hmeta _ (by omega)]
          exact w2
        · intro i hi
          show (Function.update node.record_metadata j _ i).IsInserting = false
          by_cases hij : i = j
          · subst hij
            rw [hmj]
            rfl
          · rw [hmeta i hij]
            exact w3 i hi
        · intro i hi hvi
          change (Function.update node.record_metadata j _ i).visible = true at hvi
          show L.kNodeSize ≤ (Function.update node.record_metadata j _ i).offset + _
          by_cases hij : i = j
          · subst hij
            rw [hmj] at hvi
            simp [RecordMetadata.SetVisible, RecordMetadata.SetOffset] at hvi
          · rw [hmeta i hij] at hvi ⊢
            exact w4 i hi hvi
        · intro i hi k hk hik
          obtain ⟨hne, hvi, hvk⟩ := hik
          change (Function.update node.record_metadata j _ i).visible = true at hvi
          change (Function.update node.record_metadata j _ k).visible = true at hvk
          show (Function.update node.record_metadata j _ i).offset +
              PadKeyLength (Function.update node.record_metadata j _ i).key_length + 8
              ≤ (Function.update node.record_metadata j _ k).offset ∨
            (Function.update node.record_metadata j _ k).offset +
              PadKeyLength (Function.update node.record_metadata j _ k).key_length + 8
              ≤ (Function.update node.record_metadata j _ i).offset
          by_cases hij : i = j
          · subst hij
            rw [hmj] at hvi
            simp [RecordMetadata.SetVisible, RecordMetadata.SetOffset] at hvi
          · by_cases hkj : k = j
            · subst hkj
              rw [hmj] at hvk
              simp [RecordMetadata.SetVisible, RecordMetadata.SetOffset] at hvk
            · rw [hmeta i hij] at hvi
              rw [hmeta k hkj] at hvk
              rw [hmeta i hij, hmeta k hkj]
              exact w5 i hi k hk ⟨hne, hvi, hvk⟩
        · intro i hi
          show Function.update node.record_metadata j _ i = _
          rw [hmeta i (by
            have : node.header.status.record_count ≤ i := hi
            omega)]
          exact hun i hi

end LeafNode

theorem Freeze_fields (node : BaseNode) :
    node.Freeze.2.is_leaf = node.is_leaf ∧
    node.Freeze.2.header.status.record_count = node.header.status.record_count ∧
    node.Freeze.2.header.status.block_size = node.header.status.block_size := by
  simp only [BaseNode.Freeze]
  by_cases h : node.header.status.IsFrozen = true
  · simp [h]
  · simp [h, StatusWord.Freeze]

theorem PrepareForSplit_root (L : Layout) (t : BzTree) (this : Nat) (leaf : BaseNode)
    (split_threshold : Nat) (hleaf : t.heap this = some leaf) (hnext : this < t.next)
    (r : SplitResult) (h : LeafNode.PrepareForSplit L t this [] split_threshold = .ret r) :
    (r.parent = 0 ∧ r.tree = t) ∨
    (r.stack = [] ∧ r.tree.root = t.root ∧ r.tree.heap this = some leaf.Freeze.2 ∧
      this < r.tree.next) := by
  simp only [LeafNode.PrepareForSplit, hleaf] at h
  split at h
  · simp at h
  · cases hf : leaf.Freeze with
    | mk ok node1 =>
      have hn1 : node1 = leaf.Freeze.2 := by rw [hf]
      cases ok with
      | false =>
        simp only [hf, Run.ret.injEq] at h
        left
        subst h
        exact ⟨rfl, rfl⟩
      | true =>
        simp only [hf] at h
        right
        split at h
        · simp at h
        · split at h
          · simp at h
          · split at h
            · simp at h
            · simp only [Stack.Top, List.head?_nil, Run.ret.injEq] at h
              subst h
              refine ⟨rfl, rfl, ?_, ?_⟩
              · simp only [BzTree.alloc, BzTree.set_node, Function.update]
                have e1 : ¬ this = t.next + 1 + 1 := by omega
                have e2 : ¬ this = t.next + 1 := by omega
                have e3 : ¬ this = t.next := by omega
                simp [e1, e2, e3, hn1]
              · simp only [BzTree.alloc, BzTree.set_node]
                omega

theorem Insert_loop_full_root_leaf (L : Layout) (key : KeyPtr) (key_size payload : Nat)
    (fuel : Nat) (t : BzTree) (rc : ReturnCode) (leaf : BaseNode)
    (hrc : rc ≠ .Ok ∧ rc ≠ .KeyExists)
    (hroot : t.heap t.root = some leaf) (hl : leaf.is_leaf = true)
    (hfull : BzTree.new_free_space L leaf key_size ≤ 0) (hnext : t.root < t.next)
    (x : ReturnCode × BzTree) :
    BzTree.Insert_loop L key key_size payload fuel t rc ≠ .ret x := by
  induction fuel generalizing t leaf with
  | zero => simp [BzTree.Insert_loop]
  | succ fuel ih =>
    have htr : t.TraverseToLeaf key key_size (fuel + 1) = .ret (t.root, []) := by
      simp [BzTree.TraverseToLeaf, BzTree.TraverseToLeaf_loop, hroot, hl]
    simp only [BzTree.Insert_loop, htr, hroot, hfull, if_true]
    cases hp : LeafNode.PrepareForSplit L t t.root [] t.split_threshold with
    | spin => simp
    | fatal => simp
    | undefined => simp
    | ret r =>
      simp only []
      rcases PrepareForSplit_root L t t.root leaf t.split_threshold hroot hnext r hp with
        ⟨h0, ht⟩ | ⟨hs, hr, hh, hn⟩
      · simp only [h0, if_true, ht, hrc, ne_eq, not_false_eq_true, and_self]
        exact ih t leaf hroot hl hfull hnext
      · obtain ⟨f1, f2, f3⟩ := Freeze_fields leaf
        have hfull1 : BzTree.new_free_space L leaf.Freeze.2 key_size ≤ 0 := by
          unfold BzTree.new_free_space BzTree.GetFreeSpace at hfull ⊢
          rw [f2, f3]
          exact hfull
        have hroot1 : r.tree.heap r.tree.root = some leaf.Freeze.2 := by rw [hr, hh]
        split
        · simp only [hrc, ne_eq, not_false_eq_true, and_self, if_true]
          exact ih r.tree _ hroot1 (by rw [f1, hl]) hfull1 (by rw [hr]; exact hn)
        · simp only [hs, Stack.Pop, List.head?_nil, List.tail_nil, Stack.Top, hroot1]
          split
          · simp
          · simp only [hrc, ne_eq, not_false_eq_true, and_self, if_true]
            exact ih r.tree _ hroot1 (by rw [f1, hl]) hfull1 (by rw [hr]; exact hn)

/-! ## The claims -/

/-- C1: the round trip `Insert(k, v)`, `Read(k)` fails for a binary key.  The leaf obtained
from a fresh leaf by `Insert("a\0b", 3, 11)` is unfrozen, well formed, has room and holds no
record with key `"a\0c"`, yet `Insert("a\0c", 3, 22)` returns `KeyExists` instead of `Ok`:
the scan of the unsorted region compares keys with `strncmp`, which stops at the zero
byte. -/
theorem C1_insert_of_absent_binary_key_rejected :
    (LeafNode.Insert example_layout (LeafNode.New example_layout) 0 (key_bytes [97, 0, 98]) 3 11
      1).code = some .Ok ∧
    leaf_binary.header.status.frozen = false ∧
    LeafNode.has_room example_layout leaf_binary 3 ∧
    LeafNode.well_formed example_layout leaf_binary ∧
    ¬ leaf_binary.has_visible_key (key_bytes [97, 0, 99]) 3 ∧
    (LeafNode.Insert example_layout leaf_binary 0 (key_bytes [97, 0, 99]) 3 22 1).code
      = some .KeyExists := by
  decide

/-- C2: `BzTree::Insert` never returns once its split branch is taken on a root leaf.  When
the root is a leaf and `new_free_space` is 0 for the key, the call of `BzTree::Insert` does
not return for any round budget: `PrepareForSplit` freezes the leaf, the PMwCAS of line 859
compares the first word of the root node (not the root pointer) with a null `old_parent`, the
root pointer stays as it is, and every later round finds the frozen leaf again. -/
theorem C2_insert_never_returns_when_root_leaf_is_full (L : Layout) (t : BzTree)
    (key : KeyPtr) (key_size payload : Nat) (leaf : BaseNode)
    (hroot : t.heap t.root = some leaf) (hl : leaf.is_leaf = true)
    (hfull : BzTree.new_free_space L leaf key_size ≤ 0) (hnext : t.root < t.next) :
    ∀ fuel x, BzTree.Insert L t key key_size payload fuel ≠ .ret x :=
  fun fuel x =>
    Insert_loop_full_root_leaf L key key_size payload fuel t .Invalid leaf (by decide) hroot hl
      hfull hnext x

/-- C2, a run: with nodes of 112 bytes the keys "0", "1", "2" are inserted and readable, and
the insertion of "3", which needs a split of the root leaf, never returns. -/
theorem C2_fourth_key_never_inserted :
    (BzTree.Insert small_layout small_tree0 (key_bytes [48]) 1 0 1).code = some .Ok ∧
    (BzTree.Insert small_layout small_tree1 (key_bytes [49]) 1 1 1).code = some .Ok ∧
    (BzTree.Insert small_layout small_tree2 (key_bytes [50]) 1 2 1).code = some .Ok ∧
    BzTree.Read small_tree3 (key_bytes [50]) 1 1 = .ret (.Ok, some 2) ∧
    ∀ fuel x, BzTree.Insert small_layout small_tree3 (key_bytes [51]) 1 3 fuel ≠ .ret x :=
  ⟨by decide, by decide, by decide, by decide,
    C2_insert_never_returns_when_root_leaf_is_full small_layout small_tree3 (key_bytes [51]) 1 3
      small_tree3_root (by rfl) (by decide) (by decide) (by decide)⟩

/-- C3: `Insert` of a key that has a visible record does not return `KeyExists` on a
consolidated leaf "a", "b", "c" from which "b" and "c" were deleted: the binary search gives
up at the deleted slots, `Insert("a", 1, 5)` returns `Ok`, claims a fourth slot, and `Read("a")`
then returns the new payload 5 instead of the earlier payload 1. -/
theorem C3_insert_duplicates_visible_key :
    (LeafNode.Consolidate example_layout leaf_abc).1.isSome = true ∧
    (LeafNode.Delete leaf_sorted (key_bytes [98]) 1 1).code = some .Ok ∧
    (LeafNode.Delete leaf_sorted_b (key_bytes [99]) 1 1).code = some .Ok ∧
    leaf_sorted_bc.header.status.frozen = false ∧
    leaf_sorted_bc.has_visible_key (key_bytes [97]) 1 ∧
    LeafNode.Read leaf_sorted (key_bytes [97]) 1 = (.Ok, some 1) ∧
    (LeafNode.Insert example_layout leaf_sorted_bc 0 (key_bytes [97]) 1 5 1).code = some .Ok ∧
    ((LeafNode.Insert example_layout leaf_sorted_bc 0 (key_bytes [97]) 1 5 1).state
      leaf_sorted_bc).header.status.record_count = 4 ∧
    LeafNode.Read ((LeafNode.Insert example_layout leaf_sorted_bc 0 (key_bytes [97]) 1 5 1).state
      leaf_sorted_bc) (key_bytes [97]) 1 = (.Ok, some 5) := by
  decide

/-- C4: `Update` of a key that has a visible record returns `NotFound` on the consolidated
leaf "a", "b", "c" from which "b" and "c" were deleted: record 0 is visible, holds key "a" and
payload 1, and `Update("a", 1, 5)` does not find it. -/
theorem C4_update_misses_visible_key :
    leaf_sorted_bc.header.status.frozen = false ∧
    leaf_sorted_bc.has_visible_key (key_bytes [97]) 1 ∧
    leaf_sorted_bc.GetRecord (leaf_sorted_bc.record_metadata 0) = some (4080, 1) ∧
    (LeafNode.Update leaf_sorted_bc 0 (key_bytes [97]) 1 5 1).code = some .NotFound := by
  decide

/-- C5: `Read`, `Update` and `Delete` of an absent binary key do not return `NotFound`.  The
leaf that holds only the record ("a\0b", 11) has no visible and no inserting record for the
key "a\0c", yet `Read("a\0c")` returns `Ok` with 11, `Update("a\0c", 5)` returns `Ok` and
overwrites the payload of "a\0b", and `Delete("a\0c")` returns `Ok` and deletes "a\0b". -/
theorem C5_absent_binary_key_is_found :
    leaf_binary.header.status.frozen = false ∧
    ¬ leaf_binary.has_visible_key (key_bytes [97, 0, 99]) 3 ∧
    (∀ i < leaf_binary.header.status.record_count,
      (leaf_binary.record_metadata i).IsInserting = false) ∧
    LeafNode.Read leaf_binary (key_bytes [97, 0, 99]) 3 = (.Ok, some 11) ∧
    (LeafNode.Update leaf_binary 0 (key_bytes [97, 0, 99]) 3 5 1).code = some .Ok ∧
    LeafNode.Read ((LeafNode.Update leaf_binary 0 (key_bytes [97, 0, 99]) 3 5 1).state
      leaf_binary) (key_bytes [97, 0, 98]) 3 = (.Ok, some 5) ∧
    (LeafNode.Delete leaf_binary (key_bytes [97, 0, 99]) 3 1).code = some .Ok ∧
    LeafNode.Read ((LeafNode.Delete leaf_binary (key_bytes [97, 0, 99]) 3 1).state
      leaf_binary) (key_bytes [97, 0, 98]) 3 = (.NotFound, none) := by
  decide

/-- C6: `Delete` of a key that has a visible record returns `NotFound` on the consolidated
leaf "a", "b", "c" from which "b" and "c" were deleted, so the record of "a" stays visible. -/
theorem C6_delete_misses_visible_key :
    leaf_sorted_bc.header.status.frozen = false ∧
    leaf_sorted_bc.has_visible_key (key_bytes [97]) 1 ∧
    (LeafNode.Delete leaf_sorted_bc (key_bytes [97]) 1 1).code = some .NotFound ∧
    ((LeafNode.Delete leaf_sorted_bc (key_bytes [97]) 1 1).state
      leaf_sorted_bc).has_visible_key (key_bytes [97]) 1 := by
  decide

/-- C7: successful deletions hide a key that was not deleted.  The consolidated leaf holds
"a", "b", "c" in key order in its sorted region, all visible, and `Read("a")` returns 1; after
the successful `Delete("b")` and `Delete("c")`, `Read("a")` returns `NotFound`. -/
theorem C7_read_fails_after_deleting_other_keys :
    leaf_sorted.header.sorted_count = 3 ∧
    leaf_sorted.header.status.record_count = 3 ∧
    (∀ i < 3, (leaf_sorted.record_metadata i).visible = true) ∧
    LeafNode.key_cmp leaf_sorted (leaf_sorted.record_metadata 0) (leaf_sorted.record_metadata 1)
      = true ∧
    LeafNode.key_cmp leaf_sorted (leaf_sorted.record_metadata 1) (leaf_sorted.record_metadata 2)
      = true ∧
    LeafNode.Read leaf_sorted (key_bytes [97]) 1 = (.Ok, some 1) ∧
    (LeafNode.Delete leaf_sorted (key_bytes [98]) 1 1).code = some .Ok ∧
    (LeafNode.Delete leaf_sorted_b (key_bytes [99]) 1 1).code = some .Ok ∧
    LeafNode.Read leaf_sorted_bc (key_bytes [97]) 1 = (.NotFound, none) := by
  decide

namespace BzTree

/-- C8: in a single-threaded run on a tree whose descent for `key` ends in an unfrozen,
well-formed leaf with room for the record, `BzTree::Upsert(key, payload)` returns `Ok` and the
`BzTree::Read(key)` that follows returns `Ok` with `payload`, whether the key was absent,
present with the same payload or present with another one.  Every round budget from the
depth `d` of the descent on gives this result.  The other hypotheses fix the value ranges:
`kNodeSize` is a 32-bit value, the payload a 64-bit value, and no node lives at the null
address. -/
theorem C8_upsert_then_read (L : Layout) (t : BzTree) (key : KeyPtr) (key_size payload : Nat)
    (d a : Nat) (stk : Stack) (leaf : BaseNode)
    (hK : L.kNodeSize < 2 ^ 32) (hp : payload < 2 ^ 64) (hnull : t.heap 0 = none)
    (htrav : t.TraverseToLeaf key key_size d = .ret (a, stk))
    (hleaf : t.heap a = some leaf)
    (hfrozen : leaf.header.status.frozen = false)
    (hroom : LeafNode.has_room L leaf key_size)
    (hwf : LeafNode.well_formed L leaf) :
    ∃ t1, (∀ fuel, d ≤ fuel → Upsert L t key key_size payload fuel = .ret (.Ok, t1)) ∧
      (∀ fuel, d ≤ fuel → Read t1 key key_size fuel = .ret (.Ok, some payload)) := by
  have hl : leaf.is_leaf = true := by
    obtain ⟨n, hn, hl⟩ := TraverseToLeaf_loop_leaf t key key_size d _ _ a stk htrav
    rw [hleaf] at hn
    cases hn
    exact hl
  have ha : a ≠ 0 := by
    intro h0
    rw [h0, hnull] at hleaf
    cases hleaf
  have hd : 1 ≤ d := by
    cases d with
    | zero => simp [TraverseToLeaf, TraverseToLeaf_loop] at htrav
    | succ d => omega
  have hrc : leaf.header.status.record_count < BaseNode.UINT32_MAX := by
    have := hroom
    unfold LeafNode.has_room at this
    unfold BaseNode.UINT32_MAX; omega
  have hchk := BaseNode.SearchRecordMeta_check leaf key key_size hwf.1 hrc hwf.2.2.1
  have hfree := new_free_space_pos L leaf key_size hK hroom
  have htr : ∀ fuel, d ≤ fuel → t.TraverseToLeaf key key_size fuel = .ret (a, stk) :=
    fun fuel hf => TraverseToLeaf_loop_mono t key key_size d _ _ _ htrav fuel hf
  have hread : ∀ leaf1 : BaseNode, leaf1.is_leaf = true →
      LeafNode.Read leaf1 key key_size = (.Ok, some payload) →
      ∀ fuel, d ≤ fuel →
        Read (t.set_node a leaf1) key key_size fuel = .ret (.Ok, some payload) := by
    intro leaf1 hl1 hr fuel hf
    have h1 : (t.set_node a leaf1).TraverseToLeaf key key_size fuel = .ret (a, stk) := by
      unfold TraverseToLeaf
      have : (t.set_node a leaf1).root = t.root := rfl
      rw [this, TraverseToLeaf_loop_set_node t key key_size a leaf leaf1 hleaf hl hl1]
      exact htr fuel hf
    have h2 : (t.set_node a leaf1).heap a = some leaf1 := by simp [set_node]
    simp only [Read, h1, ha, if_false, h2, hr]
  cases hs : leaf.SearchRecordMeta key key_size 0 BaseNode.UINT32_MAX false with
  | none =>
    have hR : LeafNode.Read leaf key key_size = (.NotFound, none) := by
      simp only [LeafNode.Read, hs]
    obtain ⟨leaf1, hins, hl1, h3, h4, h5, h6, h7⟩ :=
      LeafNode.Insert_unique_fuel L leaf t.epoch key key_size payload hfrozen
        (by rw [hchk, hs]) hwf.2.1
    refine ⟨t.set_node a leaf1, fun fuel hf => ?_, ?_⟩
    · obtain ⟨f, rfl⟩ : ∃ f, fuel = f + 1 := ⟨fuel - 1, by omega⟩
      simp only [Upsert, htr _ hf, ha, if_false, hleaf, hR, Insert, Insert_loop, hfree, hins f]
      simp
    · exact hread leaf1 (by rw [hl1, hl])
        (LeafNode.Read_after_Insert L leaf leaf1 key key_size payload hK hp hwf hroom hs h3 h4
          h5 h6 h7)
  | some j =>
    have hjv := BaseNode.SearchRecordMeta_visible leaf key key_size j hwf.1 hrc hs
    have hR : LeafNode.Read leaf key key_size = (.Ok, some (load_word leaf.data
        ((leaf.record_metadata j).offset + PadKeyLength (leaf.record_metadata j).key_length))) := by
      simp only [LeafNode.Read, hs, BaseNode.GetRecord, RecordMetadata.IsVisible, hjv, if_true,
        RecordMetadata.GetPaddedKeyLength]
    by_cases hpay : payload = load_word leaf.data
        ((leaf.record_metadata j).offset + PadKeyLength (leaf.record_metadata j).key_length)
    · refine ⟨t, fun fuel hf => ?_, fun fuel hf => ?_⟩
      · simp only [Upsert, htr _ hf, ha, if_false, hleaf, hR, ← hpay, if_true]
      · simp only [Read, htr _ hf, ha, if_false, hleaf, hR, ← hpay]
    · obtain ⟨leaf1, hupd, hl1, h3, h4, h5⟩ :=
        LeafNode.Update_found_fuel leaf t.epoch key key_size payload j hfrozen
          (by rw [hchk, hs]) hjv hpay
      refine ⟨t.set_node a leaf1, fun fuel hf => ?_, ?_⟩
      · obtain ⟨f, rfl⟩ : ∃ f, fuel = f + 1 := ⟨fuel - 1, by omega⟩
        have hne : ¬ (some (load_word leaf.data ((leaf.record_metadata j).offset +
            PadKeyLength (leaf.record_metadata j).key_length)) = some payload) := by
          intro h
          exact hpay (Option.some.inj h).symm
        simp only [Upsert, htr _ hf, ha, if_false, hleaf, hR, hne, Update, Update_loop,
          hupd f]
        simp
      · exact hread leaf1 (by rw [hl1, hl])
          (LeafNode.Read_after_Update L leaf leaf1 key key_size payload j hK hp hwf hroom hs h3
            h4 h5)

end BzTree

/-- C8, a run: on the tree whose root leaf holds "a", "b", "c" with payloads 1, 2, 3,
`Upsert("b", 9)` returns `Ok` and `Read("b")` then returns 9. -/
theorem C8_upsert_then_read_run :
    ∃ t1, (∀ fuel, 1 ≤ fuel →
        BzTree.Upsert example_layout example_tree (key_bytes [98]) 1 9 fuel = .ret (.Ok, t1)) ∧
      (∀ fuel, 1 ≤ fuel → BzTree.Read t1 (key_bytes [98]) 1 fuel = .ret (.Ok, some 9)) :=
  BzTree.C8_upsert_then_read example_layout example_tree (key_bytes [98]) 1 9 1 1 [] leaf_abc
    (by decide) (by decide) (by rfl) (by rfl) (by rfl) (by decide) (by decide) (by decide)

/-- C9: on a leaf whose status word has the frozen flag set, `LeafNode::Insert`, `Update`,
`Upsert` and `Delete` each return `NodeFrozen` and leave the node as it was, for every key and
payload. -/
theorem C9_frozen_leaf_rejects_mutations (L : Layout) (node : BaseNode) (epoch : Nat) (key : KeyPtr)
    (key_size payload fuel : Nat) (h : node.header.status.frozen = true) :
    LeafNode.Insert L node epoch key key_size payload (fuel + 1) = .ret (.NodeFrozen, node) ∧
    LeafNode.Update node epoch key key_size payload (fuel + 1) = .ret (.NodeFrozen, node) ∧
    LeafNode.Upsert L node epoch key key_size payload (fuel + 1) = .ret (.NodeFrozen, node) ∧
    LeafNode.Delete node key key_size fuel = .ret (.NodeFrozen, node) := by
  refine ⟨?_, ?_, ?_, ?_⟩
  · simp [LeafNode.Insert, StatusWord.IsFrozen, h]
  · simp [LeafNode.Update, StatusWord.IsFrozen, h]
  · simp [LeafNode.Upsert, StatusWord.IsFrozen, h]
  · simp [LeafNode.Delete, StatusWord.IsFrozen, h]

/-- C9, a run: the four mutations on a frozen empty leaf. -/
theorem C9_frozen_leaf_run :
    LeafNode.Insert example_layout frozen_leaf 0 (key_bytes [97]) 1 1 1
      = .ret (.NodeFrozen, frozen_leaf) ∧
    LeafNode.Update frozen_leaf 0 (key_bytes [97]) 1 1 1 = .ret (.NodeFrozen, frozen_leaf) ∧
    LeafNode.Upsert example_layout frozen_leaf 0 (key_bytes [97]) 1 1 1
      = .ret (.NodeFrozen, frozen_leaf) ∧
    LeafNode.Delete frozen_leaf (key_bytes [97]) 1 0 = .ret (.NodeFrozen, frozen_leaf) :=
  C9_frozen_leaf_rejects_mutations example_layout frozen_leaf 0 (key_bytes [97]) 1 1 0 (by rfl)

/-- C10: the frozen flag is monotone.  On a node whose status word has the frozen flag set,
each of `Insert`, `Update`, `Upsert`, `Delete`, `Freeze`, `Consolidate`, `PrepareForSplit`
(of a leaf and of an internal node) and `InternalNode::Update` leaves the node with the
frozen flag set: the four leaf mutations, `Freeze`, `Consolidate` and `InternalNode::Update`
return with the flag set, `LeafNode::PrepareForSplit` aborts on its fatal check or returns
with the flag set, and whenever `InternalNode::PrepareForSplit` returns the flag is set. -/
theorem C10_frozen_flag_monotone (L : Layout) (node : BaseNode) (h : node.header.status.frozen = true) :
    (∀ epoch key key_size payload fuel, ∃ rc node1,
      LeafNode.Insert L node epoch key key_size payload (fuel + 1) = .ret (rc, node1) ∧
        node1.header.status.frozen = true) ∧
    (∀ epoch key key_size payload fuel, ∃ rc node1,
      LeafNode.Update node epoch key key_size payload (fuel + 1) = .ret (rc, node1) ∧
        node1.header.status.frozen = true) ∧
    (∀ epoch key key_size payload fuel, ∃ rc node1,
      LeafNode.Upsert L node epoch key key_size payload (fuel + 1) = .ret (rc, node1) ∧
        node1.header.status.frozen = true) ∧
    (∀ key key_size fuel, ∃ rc node1,
      LeafNode.Delete node key key_size fuel = .ret (rc, node1) ∧
        node1.header.status.frozen = true) ∧
    node.Freeze.2.header.status.frozen = true ∧
    (LeafNode.Consolidate L node).2.header.status.frozen = true ∧
    (∀ t this stack split_threshold, t.heap this = some node →
      LeafNode.PrepareForSplit L t this stack split_threshold = .fatal ∨
      ∃ r, LeafNode.PrepareForSplit L t this stack split_threshold = .ret r ∧
        ∃ node1, r.tree.heap this = some node1 ∧ node1.header.status.frozen = true) ∧
    (∀ m old_child new_child,
      (InternalNode.Update node m old_child new_child).2.header.status.frozen = true) ∧
    (∀ split_threshold depth t this stack key key_size left right x,
      t.heap this = some node → this < t.next →
      InternalNode.PrepareForSplit L split_threshold depth t this stack key key_size left right
        = .ret x →
      ∃ node1, x.2.1.heap this = some node1 ∧ node1.header.status.frozen = true) := by
  refine ⟨?_, ?_, ?_, ?_, ?_, ?_, ?_, ?_, ?_⟩
  · intro epoch key key_size payload fuel
    exact ⟨.NodeFrozen, node, by simp [LeafNode.Insert, StatusWord.IsFrozen, h], h⟩
  · intro epoch key key_size payload fuel
    exact ⟨.NodeFrozen, node, by simp [LeafNode.Update, StatusWord.IsFrozen, h], h⟩
  · intro epoch key key_size payload fuel
    exact ⟨.NodeFrozen, node, by simp [LeafNode.Upsert, StatusWord.IsFrozen, h], h⟩
  · intro key key_size fuel
    exact ⟨.NodeFrozen, node, by simp [LeafNode.Delete, StatusWord.IsFrozen, h], h⟩
  · simp [BaseNode.Freeze, StatusWord.IsFrozen, h]
  · simp [LeafNode.Consolidate, BaseNode.Freeze, StatusWord.IsFrozen, h]
  · intro t this stack split_threshold ht
    by_cases hrc : node.header.status.record_count ≤ 2
    · left
      simp [LeafNode.PrepareForSplit, ht, hrc]
    · right
      refine ⟨⟨0, t, stack, 0, 0⟩, ?_, node, ht, h⟩
      simp [LeafNode.PrepareForSplit, ht, hrc, BaseNode.Freeze, StatusWord.IsFrozen, h]
  · intro m old_child new_child
    simp [InternalNode.Update, StatusWord.IsFrozen, h]
  · intro split_threshold depth t this stack key key_size left right x ht hlt hx
    cases depth with
    | zero => simp [InternalNode.PrepareForSplit] at hx
    | succ depth =>
      simp only [InternalNode.PrepareForSplit, ht] at hx
      split at hx
      · simp only [StatusWord.IsFrozen, h, if_true, Run.ret.injEq] at hx
        subst hx
        exact ⟨node, ht, h⟩
      · split at hx
        · simp only [BzTree.alloc, Run.ret.injEq] at hx
          subst hx
          refine ⟨node, ?_, h⟩
          have e : ¬ this = t.next := by omega
          simp [Function.update, e, ht]
        · simp at hx
        · simp at hx
        · simp at hx


/-- C10, a run: `Freeze` and `Consolidate` on a frozen empty leaf keep the flag. -/
theorem C10_frozen_flag_run :
    frozen_leaf.Freeze.2.header.status.frozen = true ∧
    (LeafNode.Consolidate example_layout frozen_leaf).2.header.status.frozen = true :=
  ⟨(C10_frozen_flag_monotone example_layout frozen_leaf (by rfl)).2.2.2.2.1,
    (C10_frozen_flag_monotone example_layout frozen_leaf (by rfl)).2.2.2.2.2.1⟩


/-! ## Lemmas on consolidation, search results and the root pointer -/

namespace LeafNode

theorem std_sort_perm {α : Type} (less : α → α → Bool) (vec : List α) :
    (std_sort less vec).Perm vec := by
  unfold std_sort
  exact List.perm_insertionSort _ vec

end LeafNode

namespace BaseNode

theorem linear_search_some (n : BaseNode) (key : KeyPtr) (key_size : Nat) (c : Bool)
    (cnt i j : Nat) (h : linear_search n key key_size c cnt i = some j) :
    (n.record_metadata j).visible = true ∨
      ((n.record_metadata j).IsInserting = true ∧ i ≤ j ∧ j < i + cnt) := by
  induction cnt generalizing i with
  | zero => simp [linear_search] at h
  | succ cnt ih =>
    rw [linear_search_step] at h
    split_ifs at h with h1 h2 h3
    · simp only [Option.some.injEq] at h
      subst h
      exact Or.inr ⟨h1.1, le_refl _, by omega⟩
    · rcases ih _ h with hv | ⟨hi, h4, h5⟩
      · exact Or.inl hv
      · exact Or.inr ⟨hi, by omega, by omega⟩
    · simp only [Option.some.injEq] at h
      subst h
      exact Or.inl h3.1
    · rcases ih _ h with hv | ⟨hi, h4, h5⟩
      · exact Or.inl hv
      · exact Or.inr ⟨hi, by omega, by omega⟩

theorem SearchRecordMeta_some (n : BaseNode) (key : KeyPtr) (key_size start_pos end_pos : Nat)
    (c : Bool) (j : Nat) (h : n.SearchRecordMeta key key_size start_pos end_pos c = some j) :
    (n.record_metadata j).visible = true ∨
      ((n.record_metadata j).IsInserting = true ∧ j < n.header.status.record_count) := by
  unfold SearchRecordMeta at h
  simp only at h
  split at h
  · rename_i i hb
    simp only [Option.some.injEq] at h
    subst h
    split at hb
    · exact Or.inl (binary_search_visible n key key_size _ _ _ _ hb)
    · simp at hb
  · split at h
    · rcases linear_search_some n key key_size c _ _ _ h with hv | ⟨hi, h1, h2⟩
      · exact Or.inl hv
      · refine Or.inr ⟨hi, ?_⟩
        omega
    · simp at h

end BaseNode

theorem InternalNode_PrepareForSplit_root (L : Layout) (split_threshold depth : Nat)
    (t : BzTree) (this : Nat) (stack : Stack) (key : KeyPtr) (key_size left right : Nat)
    (x : Nat × BzTree × Stack)
    (h : InternalNode.PrepareForSplit L split_threshold depth t this stack key key_size left
      right = .ret x) :
    x.2.1.root = t.root := by
  induction depth generalizing t this stack key key_size left right with
  | zero => simp [InternalNode.PrepareForSplit] at h
  | succ depth ih =>
    simp only [InternalNode.PrepareForSplit] at h
    split at h
    · simp at h
    · split at h
      · split at h
        · simp only [Run.ret.injEq] at h
          subst h
          rfl
        · split at h
          · simp at h
          · split at h
            · rename_i left_node right_node heq
              split at heq <;>
                · simp only [InternalNode.New_range, Prod.mk.injEq] at heq
                  obtain ⟨h1, _⟩ := heq
                  split at h1 <;> simp at h1
            all_goals simp at h
      · split at h
        · simp only [BzTree.alloc, Run.ret.injEq] at h
          subst h
          rfl
        all_goals simp at h

theorem LeafNode_PrepareForSplit_root (L : Layout) (t : BzTree) (this : Nat) (stack : Stack)
    (split_threshold : Nat) (r : SplitResult)
    (h : LeafNode.PrepareForSplit L t this stack split_threshold = .ret r) :
    r.tree.root = t.root := by
  simp only [LeafNode.PrepareForSplit] at h
  split at h
  · simp at h
  · split at h
    · simp at h
    · split at h
      · simp only [Run.ret.injEq] at h
        subst h
        rfl
      · split at h
        · simp at h
        · split at h
          · simp at h
          · split at h
            · simp at h
            · split at h
              · split at h
                · rename_i x hx
                  simp only [Run.ret.injEq] at h
                  subst h
                  have := InternalNode_PrepareForSplit_root L _ _ _ _ _ _ _ _ _ _ hx
                  simpa [BzTree.alloc, BzTree.set_node] using this
                all_goals simp at h
              · simp only [BzTree.alloc, BzTree.set_node, Run.ret.injEq] at h
                subst h
                rfl

theorem Insert_loop_root (L : Layout) (key : KeyPtr) (key_size payload fuel : Nat)
    (t : BzTree) (rc : ReturnCode) (x : ReturnCode × BzTree)
    (h : BzTree.Insert_loop L key key_size payload fuel t rc = .ret x) :
    x.2.root = t.root := by
  induction fuel generalizing t rc with
  | zero => simp [BzTree.Insert_loop] at h
  | succ fuel ih =>
    have hnext : ∀ (t1 : BzTree) (rc1 : ReturnCode), t1.root = t.root →
        (if rc1 ≠ .Ok ∧ rc1 ≠ .KeyExists then
            BzTree.Insert_loop L key key_size payload fuel t1 rc1
          else .ret (rc1, t1)) = .ret x → x.2.root = t.root := by
      intro t1 rc1 ht1 hx
      split at hx
      · rw [ih t1 rc1 hx, ht1]
      · simp only [Run.ret.injEq] at hx
        subst hx
        exact ht1
    simp only [BzTree.Insert_loop] at h
    cases htr : t.TraverseToLeaf key key_size (fuel + 1) with
    | spin => simp [htr] at h
    | fatal => simp [htr] at h
    | undefined => simp [htr] at h
    | ret ns =>
      obtain ⟨node, stack⟩ := ns
      simp only [htr] at h
      cases hh : t.heap node with
      | none => simp [hh] at h
      | some leaf =>
        simp only [hh] at h
        by_cases hfree : BzTree.new_free_space L leaf key_size ≤ 0
        · simp only [hfree, if_true] at h
          cases hp : LeafNode.PrepareForSplit L t node stack t.split_threshold with
          | spin => simp [hp] at h
          | fatal => simp [hp] at h
          | undefined => simp [hp] at h
          | ret r =>
            have hr := LeafNode_PrepareForSplit_root L t node stack _ r hp
            simp only [hp] at h
            split at h
            · exact hnext _ _ hr h
            · split at h
              · split at h
                · simp at h
                · exact hnext _ _ (by simpa [BzTree.set_node] using hr) h
              · split at h
                · simp at h
                · split at h
                  · simp at h
                  · exact hnext _ _ hr h
        · simp only [hfree, if_false] at h
          cases hi : LeafNode.Insert L leaf t.epoch key key_size payload (fuel + 1) with
          | spin => simp [hi] at h
          | fatal => simp [hi] at h
          | undefined => simp [hi] at h
          | ret y =>
            obtain ⟨rc1, leaf1⟩ := y
            simp only [hi] at h
            exact hnext (t.set_node node leaf1) rc1 rfl h


/-! ## The claims on consolidation, internal nodes and the leaf operations -/

namespace LeafNode

end LeafNode

/-- C12: `Read` on the leaf returned by `Consolidate` does not always agree with `Read` on the
source.  On the unfrozen leaf "a", deleted "b", deleted "c" (one visible key) `Read("a")`
returns `NotFound` on the source and `Ok` with payload 1 on the consolidated leaf.  On the
unfrozen leaf with the distinct keys "ac", "ab", "a" in its unsorted region, `Read` of the
1-byte key "a" given in a buffer that continues with the byte 'z' returns `Ok` with payload 1
on the source and `NotFound` on the consolidated leaf, while the same key in a buffer that
continues with a zero byte is found on both. -/
theorem C12_read_differs_after_consolidate :
    leaf_sorted_bc.header.status.frozen = false ∧
    (LeafNode.visible_records leaf_sorted_bc).length = 1 ∧
    leaf_sorted_bc.has_visible_key (key_bytes [97]) 1 ∧
    (LeafNode.Consolidate example_layout leaf_sorted_bc).1.isSome = true ∧
    LeafNode.Read leaf_sorted_bc (key_bytes [97]) 1 = (.NotFound, none) ∧
    LeafNode.Read leaf_sorted_bc_consolidated (key_bytes [97]) 1 = (.Ok, some 1) ∧
    leaf_p3.header.status.frozen = false ∧
    (LeafNode.visible_records leaf_p3).map
      (fun m => ((List.range m.key_length).map (leaf_p3.GetKey m), leaf_p3.GetRecord m))
      = [([97, 99], some (4080, 3)), ([97, 98], some (4064, 2)), ([97], some (4048, 1))] ∧
    (LeafNode.Consolidate example_layout leaf_p3).1.isSome = true ∧
    LeafNode.Read leaf_p3 (key_bytes [97, 122]) 1 = (.Ok, some 1) ∧
    LeafNode.Read leaf_p_sorted (key_bytes [97, 122]) 1 = (.NotFound, none) ∧
    LeafNode.Read leaf_p3 (key_bytes [97]) 1 = (.Ok, some 1) ∧
    LeafNode.Read leaf_p_sorted (key_bytes [97]) 1 = (.Ok, some 1) := by
  decide

/-- C13: `InternalNode::GetChild` does not return the child covering the key.  The node built
by `InternalNode::New("m", 1, 2, 3)` has two records in strict sorted order, record 0 with an
empty key and child 2, record 1 with separator "m" and child 3, and `status.record_count = 0`.
The smallest separator strictly greater than "a" is "m" (record 1), and no separator is greater
than "z"; `GetChild` returns record 0 for both keys, because its loop runs over
`status.record_count` records. -/
theorem C13_getchild_returns_first_record :
    internal_m.header.sorted_count = 2 ∧
    (internal_m.record_metadata 0).key_length = 0 ∧
    LeafNode.key_cmp internal_m (internal_m.record_metadata 0) (internal_m.record_metadata 1)
      = true ∧
    internal_m.header.status.record_count = 0 ∧
    key_before (key_bytes [97]) 1 (internal_m.GetKey (internal_m.record_metadata 0))
      (internal_m.record_metadata 0).key_length = false ∧
    key_before (key_bytes [97]) 1 (internal_m.GetKey (internal_m.record_metadata 1))
      (internal_m.record_metadata 1).key_length = true ∧
    internal_m.GetRecord (internal_m.record_metadata 1) = some (40, 3) ∧
    InternalNode.GetChild internal_m (key_bytes [97]) 1
      = .ret (2, internal_m.record_metadata 0) ∧
    InternalNode.GetChild internal_m (key_bytes [122]) 1
      = .ret (2, internal_m.record_metadata 0) := by
  decide

namespace BzTree

/-- C14: `BzTree::Insert` runs `LeafNode::Insert` on a leaf without room, and the reservation
breaks the space invariant.  When the leaf reached by the traversal has room for one more
metadata slot (so it satisfies the invariant) but not for the record (header, metadata array
with one more slot, data block and new record exceed `kNodeSize`), and its free space is not
exactly the size of the record (padded key and payload), then the unsigned test
`new_free_space <= 0` is false, the round of `BzTree::Insert` is the call of
`LeafNode::Insert` on that leaf, and the reserving PMwCAS of `LeafNode::Insert` (lines 354-357,
reached when the leaf is unfrozen, the key is no duplicate and slot `rc` is vacant) commits a
status `(rc + 1, bs + pad8(key_size) + 8)` that violates
`record_count * 8 + block_size + header_size <= kNodeSize`.  Nothing is stated about the
outcome of `LeafNode::Insert` after the reservation. -/
theorem C14_insert_runs_without_room (L : Layout) (t : BzTree) (key : KeyPtr)
    (key_size payload d a : Nat) (stk : Stack) (leaf : BaseNode)
    (hK : L.kNodeSize < 2 ^ 32) (hks : key_size < 2 ^ 16)
    (htrav : t.TraverseToLeaf key key_size d = .ret (a, stk))
    (hleaf : t.heap a = some leaf)
    (hslot : L.header_size + 8 * (leaf.header.status.record_count + 1)
      + leaf.header.status.block_size ≤ L.kNodeSize)
    (hsmall : ¬ LeafNode.has_room L leaf key_size)
    (hne : L.header_size + 8 * leaf.header.status.record_count + leaf.header.status.block_size
      + PadKeyLength key_size + 8 ≠ L.kNodeSize) :
    LeafNode.space_invariant L leaf ∧
    ¬ new_free_space L leaf key_size ≤ 0 ∧
    (∀ fuel rc, d ≤ fuel + 1 →
      Insert_loop L key key_size payload (fuel + 1) t rc
        = Insert_after L key key_size payload fuel t a
            (LeafNode.Insert L leaf t.epoch key key_size payload (fuel + 1))) ∧
    ∃ leaf1,
      leaf.MwCAS_status_meta leaf.header.status
          (leaf.header.status.PrepareForInsert (PadKeyLength key_size + 8))
          leaf.header.status.record_count
          (leaf.record_metadata leaf.header.status.record_count)
          (RecordMetadata.vacant.PrepareForInsert t.epoch) = some leaf1 ∧
      leaf1.header.status.record_count = leaf.header.status.record_count + 1 ∧
      leaf1.header.status.block_size
        = leaf.header.status.block_size + PadKeyLength key_size + 8 ∧
      ¬ LeafNode.space_invariant L leaf1 := by
  have htr : ∀ fuel, d ≤ fuel → t.TraverseToLeaf key key_size fuel = .ret (a, stk) :=
    fun fuel hf => TraverseToLeaf_loop_mono t key key_size d _ _ _ htrav fuel hf
  unfold LeafNode.has_room at hsmall
  have hpad : PadKeyLength key_size ≤ 2 ^ 16 + 8 := by
    unfold PadKeyLength; omega
  have hfree : ¬ new_free_space L leaf key_size ≤ 0 := by
    unfold new_free_space GetFreeSpace
    omega
  refine ⟨?_, hfree, fun fuel rc hf => ?_, ?_⟩
  · unfold LeafNode.space_invariant
    omega
  · simp only [Insert_loop, htr _ hf, hleaf, hfree, if_false]
    cases LeafNode.Insert L leaf t.epoch key key_size payload (fuel + 1) <;> rfl
  · refine ⟨{ leaf with
        header := { leaf.header with
          status := leaf.header.status.PrepareForInsert (PadKeyLength key_size + 8) }
        record_metadata := Function.update leaf.record_metadata
          leaf.header.status.record_count (RecordMetadata.vacant.PrepareForInsert t.epoch) },
      ?_, ?_, ?_, ?_⟩
    · simp only [BaseNode.MwCAS_status_meta, and_self, if_true]
    · rfl
    · simp only [StatusWord.PrepareForInsert]
      omega
    · simp only [LeafNode.space_invariant, StatusWord.PrepareForInsert]
      omega

end BzTree

/-- C14, a run: with nodes of 4096 bytes and a header of 24 bytes, after the insertion of a
key of 4000 bytes and of the keys "b" and "c" the root leaf satisfies the space invariant with
8 bytes free, is unfrozen, does not hold "d" and has its slot 3 vacant.  The insertion of "d"
needs 24 bytes: the test of line 833 is false, `BzTree::Insert` calls `LeafNode::Insert` on
the root leaf, and the reservation commits the status (4, 4056), for which
`4 * 8 + 4056 + 24 = 4112 > 4096`. -/
theorem C14_insert_without_room_run :
    (BzTree.Insert example_layout tree_full0 long_key 4000 0 1).code = some .Ok ∧
    (BzTree.Insert example_layout tree_full1 (key_bytes [98]) 1 1 1).code = some .Ok ∧
    (BzTree.Insert example_layout tree_full2 (key_bytes [99]) 1 2 1).code = some .Ok ∧
    tree_full3_root.header.status = ⟨false, 3, 4040, 0⟩ ∧
    BzTree.GetFreeSpace example_layout tree_full3_root = 8 ∧
    LeafNode.CheckUnique tree_full3_root (key_bytes [100]) 1 = .IsUnique ∧
    tree_full3_root.record_metadata 3 = RecordMetadata.vacant ∧
    (LeafNode.space_invariant example_layout tree_full3_root ∧
    ¬ BzTree.new_free_space example_layout tree_full3_root 1 ≤ 0 ∧
    (∀ fuel rc, 1 ≤ fuel + 1 →
      BzTree.Insert_loop example_layout (key_bytes [100]) 1 3 (fuel + 1) tree_full3 rc
        = BzTree.Insert_after example_layout (key_bytes [100]) 1 3 fuel tree_full3 1
            (LeafNode.Insert example_layout tree_full3_root tree_full3.epoch (key_bytes [100])
              1 3 (fuel + 1))) ∧
    ∃ leaf1,
      tree_full3_root.MwCAS_status_meta tree_full3_root.header.status
          (tree_full3_root.header.status.PrepareForInsert (PadKeyLength 1 + 8))
          tree_full3_root.header.status.record_count
          (tree_full3_root.record_metadata tree_full3_root.header.status.record_count)
          (RecordMetadata.vacant.PrepareForInsert tree_full3.epoch) = some leaf1 ∧
      leaf1.header.status.record_count = tree_full3_root.header.status.record_count + 1 ∧
      leaf1.header.status.block_size
        = tree_full3_root.header.status.block_size + PadKeyLength 1 + 8 ∧
      ¬ LeafNode.space_invariant example_layout leaf1) :=
  ⟨by decide, by decide, by decide, by decide, by decide, by decide, by decide,
    BzTree.C14_insert_runs_without_room example_layout tree_full3 (key_bytes [100]) 1 3 1 1 []
      tree_full3_root (by decide) (by decide) (by rfl) (by rfl) (by decide) (by decide)
      (by decide)⟩

/-- C15: the insert-key copy of an internal node does not build a sorted node of
`sorted_count(src) + 1` records.  The source `InternalNode::New("m", 1, 2, 3)` is sorted, with
an empty key at record 0.  For the new key "c" (smaller than the separator) the constructor returns
a node with `sorted_count = 0`, the new record has `total_length = 8` instead of 16, and record
0, read through its own metadata, holds the child 3 of "m": neither the old child 2 nor the
new left child 7.  For the new key "t" (greater than every separator) the node has no record
for "t" at all, and record 1 read through its own metadata has a zero byte as key, not "m". -/
theorem C15_insert_key_copy_is_not_sorted_node :
    internal_m.header.sorted_count = 2 ∧
    (internal_m.record_metadata 0).key_length = 0 ∧
    LeafNode.key_cmp internal_m (internal_m.record_metadata 0) (internal_m.record_metadata 1)
      = true ∧
    (InternalNode.New_from internal_m (key_bytes [99]) 1 7 8).returned = true ∧
    internal_c.header.sorted_count = 0 ∧
    (internal_c.record_metadata 1).key_length = 1 ∧
    (internal_c.record_metadata 1).total_length = 8 ∧
    internal_c.GetRecord (internal_c.record_metadata 0) = some (56, 3) ∧
    internal_c.GetRecord (internal_c.record_metadata 2) = some (48, 3) ∧
    (InternalNode.New_from internal_m (key_bytes [116]) 1 7 8).returned = true ∧
    internal_t.header.sorted_count = 0 ∧
    (internal_t.record_metadata 1).key_length = 1 ∧
    internal_t.GetKey (internal_t.record_metadata 1) 0 = 0 ∧
    internal_m.GetKey (internal_m.record_metadata 1) 0 = 109 ∧
    internal_t.record_metadata 2 = RecordMetadata.vacant := by
  decide

/-- C16: the split of a root leaf is not installed in the root pointer.  When the root is a
leaf that is full for the key and `PrepareForSplit` returns a new parent, the tree that
`BzTree::Insert` continues with has the root pointer it had before, the node at the root is the
old leaf, now frozen, and not the new internal node; the round ends in the PMwCAS on the first
word of that leaf (undefined behaviour when the word equals the null `old_parent`, a retry
otherwise), and the call never returns. -/
theorem C16_root_split_not_installed (L : Layout) (t : BzTree) (key : KeyPtr)
    (key_size payload : Nat) (leaf : BaseNode) (r : SplitResult)
    (hroot : t.heap t.root = some leaf) (hl : leaf.is_leaf = true)
    (hfull : BzTree.new_free_space L leaf key_size ≤ 0) (hnext : t.root < t.next)
    (hsplit : LeafNode.PrepareForSplit L t t.root [] t.split_threshold = .ret r)
    (hparent : r.parent ≠ 0) :
    r.tree.root = t.root ∧
    r.tree.heap r.tree.root = some leaf.Freeze.2 ∧
    leaf.Freeze.2.is_leaf = true ∧
    (∀ fuel, BzTree.Insert L t key key_size payload (fuel + 1) =
      if L.first_word leaf.Freeze.2 = 0 then .undefined
      else BzTree.Insert_loop L key key_size payload fuel r.tree .Invalid) ∧
    ∀ fuel x, BzTree.Insert L t key key_size payload fuel ≠ .ret x := by
  rcases PrepareForSplit_root L t t.root leaf t.split_threshold hroot hnext r hsplit with
    ⟨h0, _⟩ | ⟨hs, hr, hh, hn⟩
  · exact absurd h0 hparent
  · obtain ⟨f1, _, _⟩ := Freeze_fields leaf
    have hroot1 : r.tree.heap r.tree.root = some leaf.Freeze.2 := by rw [hr, hh]
    refine ⟨hr, hroot1, by rw [f1, hl], fun fuel => ?_, fun fuel x =>
      Insert_loop_full_root_leaf L key key_size payload fuel t .Invalid leaf (by decide) hroot hl
        hfull hnext x⟩
    have htr : t.TraverseToLeaf key key_size (fuel + 1) = .ret (t.root, []) := by
      simp [BzTree.TraverseToLeaf, BzTree.TraverseToLeaf_loop, hroot, hl]
    simp only [BzTree.Insert, BzTree.Insert_loop, htr, hroot, hfull, if_true, hsplit, hparent,
      if_false, hs, Stack.Pop, List.head?_nil, List.tail_nil, Stack.Top, hroot1]
    split
    · rfl
    · simp

/-- C16, a run: with nodes of 112 bytes the root leaf (address 1) of the tree holding "0", "1",
"2" is full for "3".  `PrepareForSplit` returns the new parent at address 4, an internal node
whose two records hold the new leaves 2 and 3, yet the root pointer of the tree is still 1,
the node there is the frozen old leaf, and the insertion of "3" never returns. -/
theorem C16_root_split_run :
    split_run.parent = 4 ∧ split_run.left = 2 ∧ split_run.right = 3 ∧
    split_parent.is_leaf = false ∧ split_parent.header.sorted_count = 2 ∧
    split_parent.GetRecord (split_parent.record_metadata 0) = some (56, 2) ∧
    split_parent.GetRecord (split_parent.record_metadata 1) = some (40, 3) ∧
    small_tree3.root = 1 ∧
    small_layout.first_word small_tree3_root.Freeze.2 = 1 ∧
    (split_run.tree.root = small_tree3.root ∧
      split_run.tree.heap split_run.tree.root = some small_tree3_root.Freeze.2 ∧
      small_tree3_root.Freeze.2.is_leaf = true ∧
      (∀ fuel, BzTree.Insert small_layout small_tree3 (key_bytes [51]) 1 3 (fuel + 1) =
        if small_layout.first_word small_tree3_root.Freeze.2 = 0 then .undefined
        else BzTree.Insert_loop small_layout (key_bytes [51]) 1 3 fuel split_run.tree
          .Invalid) ∧
      ∀ fuel x, BzTree.Insert small_layout small_tree3 (key_bytes [51]) 1 3 fuel ≠ .ret x) :=
  ⟨by decide, by decide, by decide, by decide, by decide, by decide, by decide, by decide,
    by decide,
    C16_root_split_not_installed small_layout small_tree3 (key_bytes [51]) 1 3 small_tree3_root
      split_run (by rfl) (by decide) (by decide) (by decide) (by rfl) (by decide)⟩

/-- C17: `SearchRecordMeta` returns a record whose key bytes differ from the search key.  On
the leaf that holds only the record ("a\0b", 11), the search for the 3-byte key "a\0c" with
`check_concurrency = false` returns slot 0; that record is visible and has key length 3, but
its third key byte is 'b' where the search key has 'c': the scan of the unsorted region
compares with `strncmp`, which stops at the zero byte. -/
theorem C17_search_returns_record_with_other_key :
    leaf_binary.SearchRecordMeta (key_bytes [97, 0, 99]) 3 0 BaseNode.UINT32_MAX false
      = some 0 ∧
    (leaf_binary.record_metadata 0).visible = true ∧
    (leaf_binary.record_metadata 0).key_length = 3 ∧
    (List.range 3).map (leaf_binary.GetKey (leaf_binary.record_metadata 0)) = [97, 0, 98] ∧
    (List.range 3).map (key_bytes [97, 0, 99]) = [97, 0, 99] ∧
    memcmp (key_bytes [97, 0, 99]) (leaf_binary.GetKey (leaf_binary.record_metadata 0)) 3
      ≠ 0 := by
  decide

/-- C18: `SearchRecordMeta` misses a visible record when other sorted slots are deleted.  The
consolidated leaf "a", "b", "c" has its three slots in key order; after `Delete("b")` and
`Delete("c")` slot 0 is visible with key "a" and slots 1 and 2 are deleted, and
`SearchRecordMeta("a", 1, 0, max, false)` returns no record: the binary search starts at the
deleted slot 1, discards the result of its walk to the left (line 507) and breaks when the
walk to the right ends on the deleted slot 2. -/
theorem C18_search_misses_visible_record :
    leaf_sorted.header.sorted_count = 3 ∧
    LeafNode.key_cmp leaf_sorted (leaf_sorted.record_metadata 0) (leaf_sorted.record_metadata 1)
      = true ∧
    LeafNode.key_cmp leaf_sorted (leaf_sorted.record_metadata 1) (leaf_sorted.record_metadata 2)
      = true ∧
    (LeafNode.Delete leaf_sorted (key_bytes [98]) 1 1).code = some .Ok ∧
    (LeafNode.Delete leaf_sorted_b (key_bytes [99]) 1 1).code = some .Ok ∧
    leaf_sorted_bc.header.sorted_count = 3 ∧
    leaf_sorted_bc.header.status.record_count = 3 ∧
    (leaf_sorted_bc.record_metadata 0).visible = true ∧
    leaf_sorted_bc.GetRecord (leaf_sorted_bc.record_metadata 0) = some (4080, 1) ∧
    (List.range 1).map (leaf_sorted_bc.GetKey (leaf_sorted_bc.record_metadata 0)) = [97] ∧
    (leaf_sorted_bc.record_metadata 1).visible = false ∧
    (leaf_sorted_bc.record_metadata 1).IsInserting = false ∧
    (leaf_sorted_bc.record_metadata 2).visible = false ∧
    (leaf_sorted_bc.record_metadata 2).IsInserting = false ∧
    leaf_sorted_bc.has_visible_key (key_bytes [97]) 1 ∧
    leaf_sorted_bc.SearchRecordMeta (key_bytes [97]) 1 0 BaseNode.UINT32_MAX false = none := by
  decide

namespace LeafNode

end LeafNode

namespace LeafNode

end LeafNode

namespace LeafNode

theorem Delete_retry_ok (node : BaseNode) (key : KeyPtr) (key_size fuel : Nat)
    (node1 : BaseNode)
    (h : Delete_retry node node.header.status key key_size fuel = .ret (.Ok, node1)) :
    ∃ slot, node.SearchRecordMetaDefault key key_size = some slot ∧
      (node.record_metadata slot).visible = true ∧
      node1 = { node with
        header := { node.header with
          status := node.header.status.SetDeleteSize
            (node.header.status.delete_size + (node.record_metadata slot).total_length) }
        record_metadata := Function.update node.record_metadata slot
          (((node.record_metadata slot).SetVisible false).SetOffset 0) } := by
  induction fuel with
  | zero => simp [Delete_retry] at h
  | succ fuel ih =>
    cases hs : node.SearchRecordMetaDefault key key_size with
    | none => simp [Delete_retry, hs] at h
    | some j =>
      by_cases hi : (node.record_metadata j).IsInserting = true
      · simp only [Delete_retry, hs, hi, if_true] at h
        have h2 := ih h
        rwa [hs] at h2
      · have hi : (node.record_metadata j).IsInserting = false := by simpa using hi
        have hv : (node.record_metadata j).visible = true := by
          rcases BaseNode.SearchRecordMeta_some node key key_size _ _ _ j hs with hv | ⟨h1, _⟩
          · exact hv
          · rw [hi] at h1
            cases h1
        simp only [Delete_retry, hs, hi, Bool.false_eq_true, if_false,
          BaseNode.MwCAS_status_meta, and_self, if_true, Run.ret.injEq, Prod.mk.injEq,
          true_and] at h
        exact ⟨j, rfl, hv, h.symm⟩

theorem nleft_loop_spec (vec : List RecordMetadata) (left_size : Int) (n : Nat)
    (hsum : left_size ≤ ((vec.map RecordMetadata.total_length).sum : Nat)) :
    n ≤ nleft_loop vec left_size n ∧ nleft_loop vec left_size n ≤ n + vec.length ∧
    (vec ≠ [] → n + 1 ≤ nleft_loop vec left_size n) ∧
    left_size ≤ ((((vec.take (nleft_loop vec left_size n - n)).map
      RecordMetadata.total_length).sum : Nat) : Int) ∧
    ∀ k, 0 < k → k < nleft_loop vec left_size n - n →
      ((((vec.take k).map RecordMetadata.total_length).sum : Nat) : Int) < left_size := by
  induction vec generalizing left_size n with
  | nil =>
    simp only [nleft_loop, List.map_nil, List.sum_nil, List.length_nil, Nat.sub_self,
      List.take_nil] at hsum ⊢
    refine ⟨le_refl _, le_refl _, fun h => absurd rfl h, hsum, fun k h1 h2 => ?_⟩
    omega
  | cons m rest ih =>
    simp only [List.map_cons, List.sum_cons, Nat.cast_add] at hsum
    by_cases hle : left_size - (m.total_length : Int) ≤ 0
    · have hr : nleft_loop (m :: rest) left_size n = n + 1 := by
        simp only [nleft_loop, hle, if_true]
      rw [hr]
      refine ⟨by omega, by simp, fun _ => le_refl _, ?_, fun k h1 h2 => ?_⟩
      · have : n + 1 - n = 1 := by omega
        rw [this]
        simp only [List.take_succ_cons, List.take_zero, List.map_cons, List.map_nil,
          List.sum_cons, List.sum_nil, Nat.add_zero]
        omega
      · omega
    · have hr : nleft_loop (m :: rest) left_size n
          = nleft_loop rest (left_size - (m.total_length : Int)) (n + 1) := by
        simp only [nleft_loop, hle, if_false]
      rw [hr]
      obtain ⟨h1, h2, _, h4, h5⟩ := ih (left_size - (m.total_length : Int)) (n + 1)
        (by omega)
      refine ⟨by omega, by simp only [List.length_cons]; omega, fun _ => by omega, ?_, ?_⟩
      · have : nleft_loop rest (left_size - (m.total_length : Int)) (n + 1) - n
            = (nleft_loop rest (left_size - (m.total_length : Int)) (n + 1) - (n + 1)) + 1 := by
          omega
        rw [this]
        simp only [List.take_succ_cons, List.map_cons, List.sum_cons, Nat.cast_add]
        omega
      · intro k hk1 hk2
        obtain ⟨k1, rfl⟩ : ∃ k1, k = k1 + 1 := ⟨k - 1, by omega⟩
        simp only [List.take_succ_cons, List.map_cons, List.sum_cons, Nat.cast_add]
        by_cases hk0 : k1 = 0
        · subst hk0
          simp only [List.take_zero, List.map_nil, List.sum_nil, Nat.cast_zero]
          omega
        · have := h5 k1 (by omega) (by omega)
          omega

theorem SortMetadataByKey_total (node : BaseNode) :
    (SortMetadataByKey node).2
      = ((SortMetadataByKey node).1.map RecordMetadata.total_length).sum := by
  simp only [SortMetadataByKey]
  exact (((std_sort_perm (key_cmp node) _).map RecordMetadata.total_length).sum_eq).symm

end LeafNode

theorem load_word_congr (d1 d2 : Nat → Nat) (a : Nat)
    (h : ∀ i, i < 8 → d1 (a + i) = d2 (a + i)) :
    load_word d1 a = load_word d2 a := by
  have h0 := h 0 (by omega)
  simp only [Nat.add_zero] at h0
  simp only [load_word, h0, h 1 (by omega), h 2 (by omega), h 3 (by omega), h 4 (by omega),
    h 5 (by omega), h 6 (by omega), h 7 (by omega)]

theorem memcpy_other (d : Nat → Nat) (off : Nat) (src : Nat → Nat) (n x : Nat)
    (h : x < off ∨ off + n ≤ x) : memcpy d off src n x = d x := by
  simp only [memcpy]
  split
  · omega
  · rfl

theorem InternalNode_New_fields (L : Layout) (key : KeyPtr)
    (key_size left_child_addr right_child_addr : Nat)
    (hks : key_size < 2 ^ 16) (hL : L.header_size + PadKeyLength key_size + 32 < 2 ^ 32)
    (hl : left_child_addr < 2 ^ 64) (hr : right_child_addr < 2 ^ 64) :
    (InternalNode.New L key key_size left_child_addr right_child_addr).is_leaf = false ∧
    (InternalNode.New L key key_size left_child_addr right_child_addr).header
      = ⟨L.header_size + PadKeyLength key_size + 32, StatusWord.zero, 2⟩ ∧
    (InternalNode.New L key key_size left_child_addr right_child_addr).record_metadata 0
      = ⟨true, false, 0, L.header_size + PadKeyLength key_size + 24, 0, 8⟩ ∧
    (InternalNode.New L key key_size left_child_addr right_child_addr).record_metadata 1
      = ⟨true, false, 0, L.header_size + 16, key_size, PadKeyLength key_size + 8⟩ ∧
    (∀ i, 2 ≤ i →
      (InternalNode.New L key key_size left_child_addr right_child_addr).record_metadata i
        = RecordMetadata.vacant) ∧
    load_word (InternalNode.New L key key_size left_child_addr right_child_addr).data
      (L.header_size + PadKeyLength key_size + 24) = left_child_addr ∧
    (∀ i, i < key_size →
      (InternalNode.New L key key_size left_child_addr right_child_addr).data
        (L.header_size + 16 + i) = key i) ∧
    load_word (InternalNode.New L key key_size left_child_addr right_child_addr).data
      (L.header_size + 16 + PadKeyLength key_size) = right_child_addr := by
  have hk16 : key_size % 2 ^ 16 = key_size := Nat.mod_eq_of_lt hks
  have h32 : (L.header_size + PadKeyLength key_size + 8 + 8 + 8 * 2) % 2 ^ 32
      = L.header_size + PadKeyLength key_size + 32 := by
    rw [Nat.mod_eq_of_lt (by omega)]
  have hpad := le_PadKeyLength key_size
  have ho1 : L.header_size + PadKeyLength key_size + 32 - 8
      = L.header_size + PadKeyLength key_size + 24 := by omega
  have ho2 : L.header_size + PadKeyLength key_size + 24 - (PadKeyLength key_size + 8)
      = L.header_size + 16 := by omega
  simp only [InternalNode.New, InternalNode.init, hk16, h32, ho1, ho2,
    RecordMetadata.FinalizeForInsert]
  refine ⟨trivial, trivial, ?_, ?_, ?_, ?_, ?_, ?_⟩
  · simp [Function.update]
  · simp [Function.update]
  · intro i hi
    have h0 : i ≠ 0 := by omega
    have h1 : i ≠ 1 := by omega
    simp [Function.update, h0, h1]
  · rw [load_word_congr _ (store_word (fun _ => 0) (L.header_size + PadKeyLength key_size + 24)
      left_child_addr)]
    · exact load_store_word _ _ _ hl
    · intro i hi
      rw [store_word_other _ _ _ _ (by omega), memcpy_other _ _ _ _ _ (by omega)]
  · intro i hi
    rw [store_word_other _ _ _ _ (by omega)]
    simp only [memcpy]
    rw [if_pos (by omega)]
    congr 1
    omega
  · exact load_store_word _ _ _ hr

theorem SortMetadataByKey_Freeze (node : BaseNode) :
    LeafNode.SortMetadataByKey node.Freeze.2 = LeafNode.SortMetadataByKey node := by
  simp only [BaseNode.Freeze]
  split
  · rfl
  · rfl

theorem copy_loop_header (src_node : BaseNode) (key : KeyPtr) (key_size left_child_addr
    right_child_addr n i : Nat) (this : BaseNode) (offset : Nat) (inserted_new : Bool)
    (r : BaseNode)
    (h : InternalNode.copy_loop src_node key key_size left_child_addr right_child_addr n i this
      offset inserted_new = .ret r) :
    r.header = this.header ∧ r.is_leaf = this.is_leaf := by
  induction n generalizing i this offset inserted_new with
  | zero =>
    simp only [InternalNode.copy_loop, Run.ret.injEq] at h
    subst h
    exact ⟨rfl, rfl⟩
  | succ n ih =>
    simp only [InternalNode.copy_loop] at h
    split at h
    · (have h2 := ih _ _ _ _ h; exact h2)
    · split at h
      · simp at h
      · split at h
        · split at h
          · simp at h
          · (have h2 := ih _ _ _ _ h; exact h2)
        · (have h2 := ih _ _ _ _ h; exact h2)

/-! ## The claims on deletion and structure modifications -/

namespace LeafNode

/-- C21: the effect of a `LeafNode::Delete` that returns `Ok`.  In a single-threaded execution
the call matched a visible record; afterwards that record's metadata has `visible = 0` and
`offset = 0` with `key_length` and `total_length` unchanged, `delete_size` has grown by exactly
the record's `total_length`, and `record_count`, `block_size`, the frozen flag (unset), every
other metadata word, `sorted_count` and the data bytes are unchanged. -/
theorem C21_delete_ok_effect (node : BaseNode) (key : KeyPtr) (key_size fuel : Nat)
    (node1 : BaseNode) (h : Delete node key key_size fuel = .ret (.Ok, node1)) :
    ∃ slot, node.SearchRecordMetaDefault key key_size = some slot ∧
      (node.record_metadata slot).visible = true ∧
      (node1.record_metadata slot).visible = false ∧
      (node1.record_metadata slot).offset = 0 ∧
      (node1.record_metadata slot).key_length = (node.record_metadata slot).key_length ∧
      (node1.record_metadata slot).total_length = (node.record_metadata slot).total_length ∧
      node1.header.status.delete_size
        = node.header.status.delete_size + (node.record_metadata slot).total_length ∧
      node1.header.status.record_count = node.header.status.record_count ∧
      node1.header.status.block_size = node.header.status.block_size ∧
      node.header.status.frozen = false ∧
      node1.header.status.frozen = false ∧
      (∀ i, i ≠ slot → node1.record_metadata i = node.record_metadata i) ∧
      node1.header.sorted_count = node.header.sorted_count ∧
      node1.data = node.data := by
  by_cases hfrozen : node.header.status.frozen = true
  · simp [Delete, StatusWord.IsFrozen, hfrozen] at h
  · have hfrozen : node.header.status.frozen = false := by simpa using hfrozen
    simp only [Delete, StatusWord.IsFrozen, hfrozen, Bool.false_eq_true, if_false] at h
    obtain ⟨slot, hs, hv, rfl⟩ := Delete_retry_ok node key key_size fuel node1 h
    refine ⟨slot, hs, hv, ?_, ?_, ?_, ?_, rfl, rfl, rfl, hfrozen, hfrozen, ?_, rfl, rfl⟩
    · simp [RecordMetadata.SetVisible, RecordMetadata.SetOffset]
    · simp [RecordMetadata.SetVisible, RecordMetadata.SetOffset]
    · simp [RecordMetadata.SetVisible, RecordMetadata.SetOffset]
    · simp [RecordMetadata.SetVisible, RecordMetadata.SetOffset]
    · intro i hi
      simp [Function.update, hi]

end LeafNode

/-- C21, a run: `Delete("b", 1)` on the consolidated leaf "a", "b", "c" returns `Ok`; the
status goes from (3, 48, 0) to (3, 48, 16) and slot 1 keeps its lengths with `visible = 0` and
`offset = 0`. -/
theorem C21_delete_run :
    LeafNode.Delete leaf_sorted (key_bytes [98]) 1 1 = .ret (.Ok, leaf_sorted_b) ∧
    leaf_sorted.header.status = ⟨false, 3, 48, 0⟩ ∧
    leaf_sorted_b.header.status = ⟨false, 3, 48, 16⟩ ∧
    leaf_sorted.record_metadata 1 = ⟨true, false, 0, 4064, 1, 16⟩ ∧
    leaf_sorted_b.record_metadata 1 = ⟨false, false, 0, 0, 1, 16⟩ ∧
    ∃ slot, leaf_sorted.SearchRecordMetaDefault (key_bytes [98]) 1 = some slot ∧
      (leaf_sorted.record_metadata slot).visible = true ∧
      (leaf_sorted_b.record_metadata slot).visible = false ∧
      (leaf_sorted_b.record_metadata slot).offset = 0 ∧
      (leaf_sorted_b.record_metadata slot).key_length
        = (leaf_sorted.record_metadata slot).key_length ∧
      (leaf_sorted_b.record_metadata slot).total_length
        = (leaf_sorted.record_metadata slot).total_length ∧
      leaf_sorted_b.header.status.delete_size
        = leaf_sorted.header.status.delete_size
          + (leaf_sorted.record_metadata slot).total_length ∧
      leaf_sorted_b.header.status.record_count = leaf_sorted.header.status.record_count ∧
      leaf_sorted_b.header.status.block_size = leaf_sorted.header.status.block_size ∧
      leaf_sorted.header.status.frozen = false ∧
      leaf_sorted_b.header.status.frozen = false ∧
      (∀ i, i ≠ slot → leaf_sorted_b.record_metadata i = leaf_sorted.record_metadata i) ∧
      leaf_sorted_b.header.sorted_count = leaf_sorted.header.sorted_count ∧
      leaf_sorted_b.data = leaf_sorted.data :=
  ⟨rfl, by decide, by decide, by decide, by decide,
    LeafNode.C21_delete_ok_effect leaf_sorted (key_bytes [98]) 1 1 leaf_sorted_b rfl⟩

/-- C22: `LeafNode::PrepareForSplit` does not produce two leaves for every unfrozen leaf with
more than two records and distinct visible keys.  The leaf that holds a key of 25 bytes
"aa...a", "b" and "c" is unfrozen, has three records with distinct keys, and
`PrepareForSplit` ends in its fatal check `nleft - 1 == 0`: the first record in key order
takes 40 of the 72 bytes, so `nleft = 1`.  On the leaf "0", "1", "2" with nodes of 112 bytes
the call returns: the left leaf holds ("0", 0), ("1", 1), the right leaf ("2", 2), each with
`record_count = sorted_count`, and the separator is "1". -/
theorem C22_split_aborts_on_distinct_keys :
    leaf_wide_first.header.status.frozen = false ∧
    leaf_wide_first.header.status.record_count = 3 ∧
    (LeafNode.visible_records leaf_wide_first).map
      (fun m => (m.key_length, (List.range 2).map (leaf_wide_first.GetKey m),
        leaf_wide_first.GetRecord m))
      = [(25, [97, 97], some (4056, 1)), (1, [98, 0], some (4040, 2)),
          (1, [99, 0], some (4024, 3))] ∧
    (LeafNode.PrepareForSplit example_layout (tree_on leaf_wide_first) 1 [] 256).is_fatal
      = true ∧
    (LeafNode.PrepareForSplit small_layout small_tree3 small_tree3.root []
      small_tree3.split_threshold).returned = true ∧
    (LeafNode.visible_records small_tree3_root).map
      (fun m => ((List.range m.key_length).map (small_tree3_root.GetKey m),
        small_tree3_root.GetRecord m))
      = [([48], some (96, 0)), ([49], some (80, 1)), ([50], some (64, 2))] ∧
    split_left.header.status = ⟨false, 2, 32, 0⟩ ∧ split_left.header.sorted_count = 2 ∧
    (LeafNode.visible_records split_left).map
      (fun m => ((List.range m.key_length).map (split_left.GetKey m), split_left.GetRecord m))
      = [([48], some (96, 0)), ([49], some (80, 1))] ∧
    split_right.header.status = ⟨false, 1, 16, 0⟩ ∧ split_right.header.sorted_count = 1 ∧
    (LeafNode.visible_records split_right).map
      (fun m => ((List.range m.key_length).map (split_right.GetKey m),
        split_right.GetRecord m))
      = [([50], some (96, 2))] ∧
    (split_parent.record_metadata 1).key_length = 1 ∧
    split_parent.GetKey (split_parent.record_metadata 1) 0 = 49 := by
  decide

/-- C23, counterexample to the claim as stated: on the leaf with the four records "a", "b",
"c", "d" of 16 bytes each, `total_size / 2 = 32` and `nleft = 2`; the sum of `total_length`
over the first `nleft` records is 32, which is not greater than `total_size / 2`. -/
theorem C23_nleft_stops_at_half :
    (LeafNode.SortMetadataByKey leaf_abcd).1.map RecordMetadata.total_length
      = [16, 16, 16, 16] ∧
    (LeafNode.SortMetadataByKey leaf_abcd).2 = 64 ∧
    LeafNode.nleft_loop (LeafNode.SortMetadataByKey leaf_abcd).1
      (((LeafNode.SortMetadataByKey leaf_abcd).2 / 2 : Nat) : Int) 0 = 2 ∧
    (((LeafNode.SortMetadataByKey leaf_abcd).1.take
      (LeafNode.nleft_loop (LeafNode.SortMetadataByKey leaf_abcd).1
        (((LeafNode.SortMetadataByKey leaf_abcd).2 / 2 : Nat) : Int) 0)).map
      RecordMetadata.total_length).sum = 32 ∧
    ¬ ((LeafNode.SortMetadataByKey leaf_abcd).2 / 2 <
      (((LeafNode.SortMetadataByKey leaf_abcd).1.take
        (LeafNode.nleft_loop (LeafNode.SortMetadataByKey leaf_abcd).1
          (((LeafNode.SortMetadataByKey leaf_abcd).2 / 2 : Nat) : Int) 0)).map
        RecordMetadata.total_length).sum) := by
  decide

namespace LeafNode

/-- C23 (amended): in `LeafNode::PrepareForSplit`, `nleft` is the number of sorted visible
records consumed when the running sum of `total_length` first reaches `total_size / 2`
(`total_size` being the sum of `total_length` over all visible records): `nleft` is at most the
number of records and at least 1 when there is a record, the sum over the first `nleft`
records is at least `total_size / 2`, and the sum over every shorter non-empty prefix of
the sorted records is smaller than `total_size / 2`. -/
theorem C23_nleft_reaches_half (node : BaseNode) :
    (SortMetadataByKey node).2
      = ((SortMetadataByKey node).1.map RecordMetadata.total_length).sum ∧
    nleft_loop (SortMetadataByKey node).1 (((SortMetadataByKey node).2 / 2 : Nat) : Int) 0
      ≤ (SortMetadataByKey node).1.length ∧
    ((SortMetadataByKey node).1 ≠ [] →
      1 ≤ nleft_loop (SortMetadataByKey node).1
        (((SortMetadataByKey node).2 / 2 : Nat) : Int) 0) ∧
    (SortMetadataByKey node).2 / 2 ≤
      (((SortMetadataByKey node).1.take
        (nleft_loop (SortMetadataByKey node).1
          (((SortMetadataByKey node).2 / 2 : Nat) : Int) 0)).map
        RecordMetadata.total_length).sum ∧
    ∀ k, 0 < k →
      k < nleft_loop (SortMetadataByKey node).1
        (((SortMetadataByKey node).2 / 2 : Nat) : Int) 0 →
      (((SortMetadataByKey node).1.take k).map RecordMetadata.total_length).sum
        < (SortMetadataByKey node).2 / 2 := by
  have htot := SortMetadataByKey_total node
  obtain ⟨_, h2, h3, h4, h5⟩ := nleft_loop_spec (SortMetadataByKey node).1
    (((SortMetadataByKey node).2 / 2 : Nat) : Int) 0 (by
      rw [← htot]
      have : (SortMetadataByKey node).2 / 2 ≤ (SortMetadataByKey node).2 := Nat.div_le_self _ _
      exact_mod_cast this)
  refine ⟨htot, by simpa using h2, fun h => by simpa using h3 h, ?_, fun k hk1 hk2 => ?_⟩
  · simp only [Nat.sub_zero] at h4
    exact_mod_cast h4
  · have := h5 k hk1 (by simpa using hk2)
    exact_mod_cast this

end LeafNode

/-- C23 (amended), a run: on the leaf "a", "b", "cc...c" with records of 16, 16 and 40 bytes,
`total_size / 2 = 36` and `nleft = 3`. -/
theorem C23_nleft_run :
    (LeafNode.SortMetadataByKey leaf_wide_last).1.map RecordMetadata.total_length
      = [16, 16, 40] ∧
    LeafNode.nleft_loop (LeafNode.SortMetadataByKey leaf_wide_last).1
      (((LeafNode.SortMetadataByKey leaf_wide_last).2 / 2 : Nat) : Int) 0 = 3 ∧
    ((LeafNode.SortMetadataByKey leaf_wide_last).2
      = ((LeafNode.SortMetadataByKey leaf_wide_last).1.map RecordMetadata.total_length).sum ∧
    LeafNode.nleft_loop (LeafNode.SortMetadataByKey leaf_wide_last).1
        (((LeafNode.SortMetadataByKey leaf_wide_last).2 / 2 : Nat) : Int) 0
      ≤ (LeafNode.SortMetadataByKey leaf_wide_last).1.length ∧
    ((LeafNode.SortMetadataByKey leaf_wide_last).1 ≠ [] →
      1 ≤ LeafNode.nleft_loop (LeafNode.SortMetadataByKey leaf_wide_last).1
        (((LeafNode.SortMetadataByKey leaf_wide_last).2 / 2 : Nat) : Int) 0) ∧
    (LeafNode.SortMetadataByKey leaf_wide_last).2 / 2 ≤
      (((LeafNode.SortMetadataByKey leaf_wide_last).1.take
        (LeafNode.nleft_loop (LeafNode.SortMetadataByKey leaf_wide_last).1
          (((LeafNode.SortMetadataByKey leaf_wide_last).2 / 2 : Nat) : Int) 0)).map
        RecordMetadata.total_length).sum ∧
    ∀ k, 0 < k →
      k < LeafNode.nleft_loop (LeafNode.SortMetadataByKey leaf_wide_last).1
        (((LeafNode.SortMetadataByKey leaf_wide_last).2 / 2 : Nat) : Int) 0 →
      (((LeafNode.SortMetadataByKey leaf_wide_last).1.take k).map
        RecordMetadata.total_length).sum
        < (LeafNode.SortMetadataByKey leaf_wide_last).2 / 2) :=
  ⟨by decide, by decide, LeafNode.C23_nleft_reaches_half leaf_wide_last⟩

/-- C24: `LeafNode::PrepareForSplit` reaches its fatal check `nleft - 1 == 0`.  For every
unfrozen leaf with more than two records whose first visible record in key order has a
`total_length` of at least `total_size / 2`, the loop stops with `nleft = 1` and the call ends
in `LOG_IF(FATAL, nleft - 1 == 0)`. -/
theorem C24_split_aborts_on_wide_first_record (L : Layout) (t : BzTree) (this : Nat)
    (stack : Stack) (split_threshold : Nat) (node : BaseNode) (m : RecordMetadata)
    (rest : List RecordMetadata)
    (hnode : t.heap this = some node) (hrc : 2 < node.header.status.record_count)
    (hfrozen : node.header.status.frozen = false)
    (hvec : (LeafNode.SortMetadataByKey node).1 = m :: rest)
    (hwide : (LeafNode.SortMetadataByKey node).2 / 2 ≤ m.total_length) :
    LeafNode.PrepareForSplit L t this stack split_threshold = .fatal := by
  have hsort := SortMetadataByKey_Freeze node
  have hfr : node.Freeze = (true, node.Freeze.2) := by
    simp [BaseNode.Freeze, StatusWord.IsFrozen, hfrozen]
  have hn : LeafNode.nleft_loop (m :: rest)
      (((LeafNode.SortMetadataByKey node).2 / 2 : Nat) : Int) 0 = 1 := by
    have : (((LeafNode.SortMetadataByKey node).2 / 2 : Nat) : Int) - (m.total_length : Int)
        ≤ 0 := by omega
    simp only [LeafNode.nleft_loop, this, if_true]
  simp only [LeafNode.PrepareForSplit, hnode]
  rw [if_neg (by omega)]
  rw [hfr]
  simp only [hsort, BzTree.alloc, hvec, hn, if_true]

/-- C24, a run: the unfrozen leaf with the three visible records "aa...a" (25 bytes), "b", "c"
passes the entry check and `PrepareForSplit` ends in the fatal check; on the unfrozen leaf
"a", "b", "cc...c" (25 bytes) the call returns with `nleft = 3 = N`: the left leaf gets all
three records and the right leaf is empty. -/
theorem C24_split_aborts_run :
    leaf_wide_first.header.status.frozen = false ∧
    leaf_wide_first.header.status.record_count = 3 ∧
    (LeafNode.visible_records leaf_wide_first).length = 3 ∧
    LeafNode.PrepareForSplit example_layout (tree_on leaf_wide_first) 1 [] 256 = .fatal ∧
    leaf_wide_last.header.status.frozen = false ∧
    leaf_wide_last.header.status.record_count = 3 ∧
    (LeafNode.visible_records leaf_wide_last).length = 3 ∧
    (LeafNode.PrepareForSplit example_layout (tree_on leaf_wide_last) 1 [] 256).returned
      = true ∧
    LeafNode.nleft_loop (LeafNode.SortMetadataByKey leaf_wide_last).1
      (((LeafNode.SortMetadataByKey leaf_wide_last).2 / 2 : Nat) : Int) 0 = 3 ∧
    split_wide_left.header.status.record_count = 3 ∧
    split_wide_right.header.status.record_count = 0 :=
  ⟨by decide, by decide, by decide,
    C24_split_aborts_on_wide_first_record example_layout (tree_on leaf_wide_first) 1 [] 256
      leaf_wide_first ⟨true, false, 0, 4056, 25, 40⟩
      [⟨true, false, 0, 4040, 1, 16⟩, ⟨true, false, 0, 4024, 1, 16⟩]
      (by rfl) (by decide) (by decide) (by decide) (by decide),
    by decide, by decide, by decide, by decide, by decide, by decide, by decide⟩

/-- C25: `InternalNode::GetChild` on a new root returns the left child for every key.  For
every separator, pair of child addresses and search key, `GetChild` on
`InternalNode::New(separator, left, right)` returns `left` with the metadata of record 0: the
search window is `[0, status.record_count - 1]` and `record_count` is 0 in the new node, so
keys stored in the right leaf are routed to the left leaf. -/
theorem C25_getchild_of_new_root_returns_left (L : Layout) (key : KeyPtr)
    (key_size left_child_addr right_child_addr : Nat) (k : KeyPtr) (k_size : Nat)
    (hks : key_size < 2 ^ 16) (hL : L.header_size + PadKeyLength key_size + 32 < 2 ^ 32)
    (hl : left_child_addr < 2 ^ 64) (hr : right_child_addr < 2 ^ 64) :
    InternalNode.GetChild (InternalNode.New L key key_size left_child_addr right_child_addr)
      k k_size
      = .ret (left_child_addr,
          (InternalNode.New L key key_size left_child_addr right_child_addr).record_metadata
            0) := by
  obtain ⟨_, h2, h3, _, _, h6, _, _⟩ :=
    InternalNode_New_fields L key key_size left_child_addr right_child_addr hks hL hl hr
  have hp0 : PadKeyLength 0 = 0 := rfl
  have hrec : (InternalNode.New L key key_size left_child_addr right_child_addr).GetRecord
      ((InternalNode.New L key key_size left_child_addr right_child_addr).record_metadata 0)
      = some (L.header_size + PadKeyLength key_size + 24, left_child_addr) := by
    rw [h3]
    simp only [BaseNode.GetRecord, RecordMetadata.IsVisible, RecordMetadata.GetPaddedKeyLength,
      if_true, hp0, Nat.add_zero, h6]
  have hloop : InternalNode.GetChild_loop
      (InternalNode.New L key key_size left_child_addr right_child_addr) k k_size 0 0 (-1)
      = 0 := rfl
  simp only [InternalNode.GetChild, h2, StatusWord.zero]
  simp only [Nat.cast_zero, Int.zero_sub, Int.add_left_neg, Int.toNat_zero, hloop,
    lt_self_iff_false, if_false, hrec]

/-- C25, a run: the split of the root leaf "0", "1", "2" (nodes of 112 bytes) gives the left
leaf at address 2 with "0", "1", the right leaf at address 3 with "2" and the new root with
separator "1"; `GetChild` on the new root returns 2, the left leaf, for the key "2" stored in
the right leaf. -/
theorem C25_routing_run :
    split_run.left = 2 ∧ split_run.right = 3 ∧
    LeafNode.Read split_left (key_bytes [49]) 1 = (.Ok, some 1) ∧
    LeafNode.Read split_right (key_bytes [50]) 1 = (.Ok, some 2) ∧
    InternalNode.GetChild split_parent (key_bytes [49]) 1
      = .ret (2, split_parent.record_metadata 0) ∧
    InternalNode.GetChild split_parent (key_bytes [50]) 1
      = .ret (2, split_parent.record_metadata 0) ∧
    InternalNode.GetChild (InternalNode.New small_layout (key_bytes [49]) 1 2 3)
      (key_bytes [50]) 1
      = .ret (2, (InternalNode.New small_layout (key_bytes [49]) 1 2 3).record_metadata 0) :=
  ⟨by decide, by decide, by decide, by decide, by decide, by decide,
    C25_getchild_of_new_root_returns_left small_layout (key_bytes [49]) 1 2 3 (key_bytes [50]) 1
      (by decide) (by decide) (by decide) (by decide)⟩

/-- C26: the node built by `InternalNode::New(key, key_size, left, right)`.  For every key
size below 2^16 (the constructor takes it as `uint16_t`), every allocation size that fits
`uint32_t` and every pair of 64-bit child addresses, the node has `sorted_count = 2`, record
0 with `key_length` 0, `total_length` 8 and payload `left` at offset `size - 8`, record 1 with
`key_length = key_size`, `total_length = pad8(key_size) + 8`, the key bytes and payload
`right` at offset `size - 16 - pad8(key_size)`; the size is header, two metadata words and
the two records, so record 1 starts right after the header and the two metadata words, which
is the assertion of line 110. -/
theorem C26_new_root_layout (L : Layout) (key : KeyPtr)
    (key_size left_child_addr right_child_addr : Nat)
    (hks : key_size < 2 ^ 16) (hL : L.header_size + PadKeyLength key_size + 32 < 2 ^ 32)
    (hl : left_child_addr < 2 ^ 64) (hr : right_child_addr < 2 ^ 64) :
    (InternalNode.New L key key_size left_child_addr right_child_addr).header.sorted_count
      = 2 ∧
    (InternalNode.New L key key_size left_child_addr right_child_addr).header.size
      = L.header_size + 2 * 8 + (PadKeyLength key_size + 8) + 8 ∧
    (InternalNode.New L key key_size left_child_addr right_child_addr).record_metadata 0
      = ⟨true, false, 0,
          (InternalNode.New L key key_size left_child_addr right_child_addr).header.size - 8,
          0, 8⟩ ∧
    (InternalNode.New L key key_size left_child_addr right_child_addr).GetRecord
        ((InternalNode.New L key key_size left_child_addr right_child_addr).record_metadata 0)
      = some ((InternalNode.New L key key_size left_child_addr right_child_addr).header.size
          - 8, left_child_addr) ∧
    (InternalNode.New L key key_size left_child_addr right_child_addr).record_metadata 1
      = ⟨true, false, 0,
          (InternalNode.New L key key_size left_child_addr right_child_addr).header.size - 16
            - PadKeyLength key_size,
          key_size, PadKeyLength key_size + 8⟩ ∧
    (∀ i, i < key_size →
      (InternalNode.New L key key_size left_child_addr right_child_addr).GetKey
        ((InternalNode.New L key key_size left_child_addr right_child_addr).record_metadata 1)
        i = key i) ∧
    (InternalNode.New L key key_size left_child_addr right_child_addr).GetRecord
        ((InternalNode.New L key key_size left_child_addr right_child_addr).record_metadata 1)
      = some ((InternalNode.New L key key_size left_child_addr right_child_addr).header.size
          - 16 - PadKeyLength key_size, right_child_addr) ∧
    (InternalNode.New L key key_size left_child_addr right_child_addr).header.size - 16
        - PadKeyLength key_size = L.header_size + 2 * 8 := by
  obtain ⟨_, h2, h3, h4, _, h6, h7, h8⟩ :=
    InternalNode_New_fields L key key_size left_child_addr right_child_addr hks hL hl hr
  have hp0 : PadKeyLength 0 = 0 := rfl
  have e1 : L.header_size + PadKeyLength key_size + 32 - 8
      = L.header_size + PadKeyLength key_size + 24 := by omega
  have e2 : L.header_size + PadKeyLength key_size + 32 - 16 - PadKeyLength key_size
      = L.header_size + 16 := by omega
  rw [h2, h3, h4]
  simp only [e1, e2]
  refine ⟨trivial, by omega, trivial, ?_, trivial, ?_, ?_, trivial⟩
  · simp only [BaseNode.GetRecord, RecordMetadata.IsVisible, RecordMetadata.GetPaddedKeyLength,
      if_true, hp0, Nat.add_zero, h6]
  · intro i hi
    simp only [BaseNode.GetKey, BaseNode.ptr]
    exact h7 i hi
  · simp only [BaseNode.GetRecord, RecordMetadata.IsVisible, RecordMetadata.GetPaddedKeyLength,
      if_true, h8]

/-- C26, a run: `InternalNode::New("m", 1, 2, 3)` with a header of 24 bytes has size 64,
record 0 at offset 56 and record 1 at offset 40. -/
theorem C26_new_root_run :
    internal_m.header.size = 64 ∧
    internal_m.record_metadata 0 = ⟨true, false, 0, 56, 0, 8⟩ ∧
    internal_m.record_metadata 1 = ⟨true, false, 0, 40, 1, 16⟩ ∧
    (internal_m.header.sorted_count = 2 ∧
    internal_m.header.size = example_layout.header_size + 2 * 8 + (PadKeyLength 1 + 8) + 8 ∧
    internal_m.record_metadata 0 = ⟨true, false, 0, internal_m.header.size - 8, 0, 8⟩ ∧
    internal_m.GetRecord (internal_m.record_metadata 0)
      = some (internal_m.header.size - 8, 2) ∧
    internal_m.record_metadata 1
      = ⟨true, false, 0, internal_m.header.size - 16 - PadKeyLength 1, 1,
          PadKeyLength 1 + 8⟩ ∧
    (∀ i, i < 1 → internal_m.GetKey (internal_m.record_metadata 1) i = key_bytes [109] i) ∧
    internal_m.GetRecord (internal_m.record_metadata 1)
      = some (internal_m.header.size - 16 - PadKeyLength 1, 3) ∧
    internal_m.header.size - 16 - PadKeyLength 1 = example_layout.header_size + 2 * 8) :=
  ⟨by decide, by decide, by decide,
    C26_new_root_layout example_layout (key_bytes [109]) 1 2 3 (by decide) (by decide)
      (by decide) (by decide)⟩

/-- C27: the insert-key copy of an internal node stores neither the left child nor the
length of the new record.  The source `InternalNode::New("m", 1, 2, 3)` is sorted and the key
"c" sorts strictly between its two records.  In `InternalNode::New(src, "c", 1, 7, 8)` the
record holding "c" (record 1) has `key_length` 1 and payload `right = 8`, but
`total_length = 8` instead of `pad8(1) + 8 = 16`, and the record before it (record 0), read
through the new node's metadata, has payload 3, the child of "m", instead of `left = 7`. -/
theorem C27_insert_key_copy_loses_left_child :
    internal_m.header.sorted_count = 2 ∧
    LeafNode.key_cmp internal_m (internal_m.record_metadata 0) (internal_m.record_metadata 1)
      = true ∧
    internal_m.GetRecord (internal_m.record_metadata 0) = some (56, 2) ∧
    internal_m.GetRecord (internal_m.record_metadata 1) = some (40, 3) ∧
    key_before (internal_m.GetKey (internal_m.record_metadata 0))
      (internal_m.record_metadata 0).key_length (key_bytes [99]) 1 = true ∧
    key_before (key_bytes [99]) 1 (internal_m.GetKey (internal_m.record_metadata 1))
      (internal_m.record_metadata 1).key_length = true ∧
    (InternalNode.New_from internal_m (key_bytes [99]) 1 7 8).returned = true ∧
    (internal_c.record_metadata 1).key_length = 1 ∧
    internal_c.GetKey (internal_c.record_metadata 1) 0 = 99 ∧
    internal_c.GetRecord (internal_c.record_metadata 1) = some (64, 8) ∧
    (internal_c.record_metadata 1).total_length = 8 ∧
    PadKeyLength 1 + 8 = 16 ∧
    internal_c.GetRecord (internal_c.record_metadata 0) = some (56, 3) ∧
    internal_c.GetKey (internal_c.record_metadata 2) 0 = 109 ∧
    internal_c.GetRecord (internal_c.record_metadata 2) = some (48, 3) := by
  decide

/-- C28: the split path of `InternalNode::PrepareForSplit` builds no halves.  For every
unfrozen internal node with at least two records for which the new separator does not fit
under `split_threshold`, the call returns no node for any recursion budget, because the range
copy `InternalNode::New(src, begin, n, ...)` ends without a `return` statement; and the
ranges it is called with are `[0, n_left)` and `[0, n - n_left)`: both non-empty, both
starting at record 0, and neither covers the last record `n - 1`. -/
theorem C28_internal_split_builds_no_halves (L : Layout) (split_threshold depth : Nat)
    (t : BzTree) (this : Nat) (stack : Stack) (key : KeyPtr) (key_size left_child_addr
    right_child_addr : Nat) (node : BaseNode)
    (hnode : t.heap this = some node)
    (hbig : split_threshold
      < (L.header_size + (node.header.size + key_size + 8 + 8) % 2 ^ 32) % 2 ^ 32)
    (hfrozen : node.header.status.frozen = false)
    (hn : 2 ≤ node.header.sorted_count) :
    (∀ x, InternalNode.PrepareForSplit L split_threshold depth t this stack key key_size
      left_child_addr right_child_addr ≠ .ret x) ∧
    (InternalNode.split_ranges node).1 = (0, node.header.sorted_count / 2) ∧
    (InternalNode.split_ranges node).2
      = (0, node.header.sorted_count - node.header.sorted_count / 2) ∧
    0 < (InternalNode.split_ranges node).1.2 ∧
    0 < (InternalNode.split_ranges node).2.2 ∧
    (InternalNode.split_ranges node).1.1 + (InternalNode.split_ranges node).1.2
      ≤ node.header.sorted_count - 1 ∧
    (InternalNode.split_ranges node).2.1 + (InternalNode.split_ranges node).2.2
      ≤ node.header.sorted_count - 1 := by
  refine ⟨fun x => ?_, rfl, rfl, ?_, ?_, ?_, ?_⟩
  · cases depth with
    | zero => simp [InternalNode.PrepareForSplit]
    | succ depth =>
      simp only [InternalNode.PrepareForSplit, hnode, hbig, if_true, StatusWord.IsFrozen,
        hfrozen, Bool.false_eq_true, if_false]
      rw [if_neg (by omega)]
      intro h
      split at h
      · rename_i left_node right_node heq
        split at heq <;>
          · simp only [InternalNode.New_range, Prod.mk.injEq] at heq
            obtain ⟨h1, _⟩ := heq
            split at h1 <;> simp at h1
      all_goals simp at h
  all_goals simp only [InternalNode.split_ranges]; omega

/-- C28, a run: for the node `InternalNode::New("m", 1, 2, 3)` (two records), the separator
"c" and a split threshold of 64 bytes both halves get the range `(0, 1)`, record 0, and the
call returns no node. -/
theorem C28_internal_split_run :
    internal_m.header.sorted_count = 2 ∧
    InternalNode.split_ranges internal_m = ((0, 1), (0, 1)) ∧
    ((∀ x, InternalNode.PrepareForSplit example_layout 64 1 (tree_on internal_m) 1 []
      (key_bytes [99]) 1 7 8 ≠ .ret x) ∧
    (InternalNode.split_ranges internal_m).1 = (0, internal_m.header.sorted_count / 2) ∧
    (InternalNode.split_ranges internal_m).2
      = (0, internal_m.header.sorted_count - internal_m.header.sorted_count / 2) ∧
    0 < (InternalNode.split_ranges internal_m).1.2 ∧
    0 < (InternalNode.split_ranges internal_m).2.2 ∧
    (InternalNode.split_ranges internal_m).1.1 + (InternalNode.split_ranges internal_m).1.2
      ≤ internal_m.header.sorted_count - 1 ∧
    (InternalNode.split_ranges internal_m).2.1 + (InternalNode.split_ranges internal_m).2.2
      ≤ internal_m.header.sorted_count - 1) :=
  ⟨by decide, by decide,
    C28_internal_split_builds_no_halves example_layout 64 1 (tree_on internal_m) 1 []
      (key_bytes [99]) 1 7 8 internal_m (by rfl) (by decide) (by decide) (by decide)⟩

/-- C29: the node returned on the no-split path of `InternalNode::PrepareForSplit` fits under
`split_threshold`.  When the sizes fit `uint32_t`, the header `sizeof(InternalNode)` has at
least 7 bytes and the computed `new_node_size` (with the unpadded key size) is not above
`split_threshold`, the node the call returns is the one allocated by
`InternalNode::New(this, key, ...)`, of size `header.size + pad8(key_size) + 8 + 8`, and that
size is at most `split_threshold`. -/
theorem C29_no_split_node_fits (L : Layout) (split_threshold depth : Nat) (t : BzTree)
    (this : Nat) (stack : Stack) (key : KeyPtr) (key_size left_child_addr
    right_child_addr : Nat) (node : BaseNode) (x : Nat × BzTree × Stack)
    (hnode : t.heap this = some node)
    (hsz : L.header_size + node.header.size + key_size + 16 < 2 ^ 32)
    (hhdr : 7 ≤ L.header_size)
    (hfit : L.header_size + (node.header.size + key_size + 8 + 8) ≤ split_threshold)
    (h : InternalNode.PrepareForSplit L split_threshold (depth + 1) t this stack key key_size
      left_child_addr right_child_addr = .ret x) :
    ∃ new_node, x.2.1.heap x.1 = some new_node ∧
      new_node.header.size = node.header.size + PadKeyLength key_size + 8 + 8 ∧
      new_node.header.size ≤ split_threshold := by
  have e1 : (node.header.size + key_size + 8 + 8) % 2 ^ 32
      = node.header.size + key_size + 8 + 8 := Nat.mod_eq_of_lt (by omega)
  have e2 : (L.header_size + (node.header.size + key_size + 8 + 8)) % 2 ^ 32
      = L.header_size + (node.header.size + key_size + 8 + 8) := Nat.mod_eq_of_lt (by omega)
  have hpad : PadKeyLength key_size ≤ key_size + 7 := by
    unfold PadKeyLength
    omega
  have e3 : (node.header.size + PadKeyLength key_size + 8 + 8) % 2 ^ 32
      = node.header.size + PadKeyLength key_size + 8 + 8 := Nat.mod_eq_of_lt (by omega)
  simp only [InternalNode.PrepareForSplit, hnode, e1, e2] at h
  rw [if_neg (by omega)] at h
  cases hn : InternalNode.New_from node key key_size left_child_addr right_child_addr with
  | spin => simp [hn] at h
  | fatal => simp [hn] at h
  | undefined => simp [hn] at h
  | ret new_node =>
    simp only [hn, BzTree.alloc, Run.ret.injEq] at h
    subst h
    have hh := (copy_loop_header _ _ _ _ _ _ _ _ _ _ _ hn).1
    simp only [InternalNode.init, e3] at hh
    refine ⟨new_node, by simp, ?_, ?_⟩
    · rw [hh]
    · rw [hh]
      show node.header.size + PadKeyLength key_size + 8 + 8 ≤ split_threshold
      omega

/-- C29, a run: for the node `InternalNode::New("m", 1, 2, 3)` of 64 bytes, the separator "c"
and `split_threshold = 105 = new_node_size`, the call takes the no-split path and returns a
node of 88 bytes. -/
theorem C29_no_split_run :
    InternalNode.PrepareForSplit example_layout 105 1 (tree_on internal_m) 1 []
      (key_bytes [99]) 1 7 8 = .ret internal_no_split ∧
    internal_m.header.size = 64 ∧
    ((internal_no_split.2.1.heap internal_no_split.1).getD internal_m).header.size = 88 ∧
    ∃ new_node, internal_no_split.2.1.heap internal_no_split.1 = some new_node ∧
      new_node.header.size = internal_m.header.size + PadKeyLength 1 + 8 + 8 ∧
      new_node.header.size ≤ 105 :=
  ⟨rfl, by decide, by decide,
    C29_no_split_node_fits example_layout 105 0 (tree_on internal_m) 1 [] (key_bytes [99]) 1 7 8
      internal_m internal_no_split (by rfl) (by decide) (by decide) (by decide) rfl⟩

end bztree
